import Mathlib

/-! swagin: struct-tag driven OpenAPI derivation and request binding

A shallow embedding of `swagger/swagger.go`, `router/router.go`, `router/parser.go`
and `swagin.go`.

Conventions of the embedding.

* Go strings are Lean strings; the helpers below work on the character list so that
  every function reduces by plain structural recursion.
* A Go panic, a nil dereference or an exhausted recursion budget is a `Fault`;
  fallible code returns `Except Fault _`.
* Go maps are association lists.  Iteration order of a Go map is unspecified, which
  is mirrored by quantifying over the order of the list.
* The mutually recursive schema functions take a recursion budget as first argument;
  a derivation that recurses forever in Go exhausts every budget here.
-/

set_option autoImplicit false

namespace Swagin

deriving instance DecidableEq for Except

/-! ## Faults -/

/-- Ways in which the Go program stops abnormally. -/
inductive Fault where
  /-- `panic(err)` after `structtag.Parse` rejected a tag. -/
  | tagPanic
  /-- dereference of a nil pointer (method call on a nil interface, field of a nil struct pointer). -/
  | nilDeref
  /-- a panic raised by package `reflect` (wrong kind, zero `Value`, unexported field). -/
  | reflectPanic
  /-- `log.Panic(err)` in the binder. -/
  | logPanic
  /-- index out of range. -/
  | indexPanic
  /-- the recursion budget of the model is exhausted. -/
  | outOfFuel
  deriving DecidableEq, Repr

/-! ## Strings (`strings.Split`, `strings.HasPrefix`, slicing) -/

/-- Split a character list at every occurrence of `sep`; the result is never empty. -/
def splitChars (sep : Char) : List Char → List (List Char)
  | [] => [[]]
  | c :: cs =>
    if c = sep then [] :: splitChars sep cs
    else
      match splitChars sep cs with
      | [] => [[c]]
      | w :: ws => (c :: w) :: ws

/-- Go: `strings.Split(s, ",")`. -/
def splitComma (s : String) : List String :=
  (splitChars ',' s.data).map String.mk

/-- Go: `strings.HasPrefix(s, p)`. -/
def startsWith (s p : String) : Bool :=
  p.data.isPrefixOf s.data

/-- Go: `s[n:]` for `n ≤ len(s)`. -/
def sliceFrom (s : String) (n : Nat) : String :=
  String.mk (s.data.drop n)

/-! ## `github.com/fatih/structtag` -/

/-- One parsed tag: `Key:"Name,Options..."`. -/
structure Tag where
  Key : String
  Name : String
  Options : List String
  deriving DecidableEq, Repr

/-- Value of a hexadecimal digit (`strconv.unhex`). -/
def unhex (c : Char) : Option Nat :=
  if '0' ≤ c ∧ c ≤ '9' then some (c.toNat - '0'.toNat)
  else if 'a' ≤ c ∧ c ≤ 'f' then some (c.toNat - 'a'.toNat + 10)
  else if 'A' ≤ c ∧ c ≤ 'F' then some (c.toNat - 'A'.toNat + 10)
  else none

/-- Read `n` hexadecimal digits, most significant first. -/
def readHex : Nat → Nat → List Char → Option (Nat × List Char)
  | 0, v, s => some (v, s)
  | _ + 1, _, [] => none
  | n + 1, v, c :: s =>
    match unhex c with
    | none => none
    | some x => readHex n (v * 16 + x) s

/-- Read the two octal digits that follow the first one of an octal escape. -/
def readOctal : Nat → Nat → List Char → Option (Nat × List Char)
  | 0, v, s => some (v, s)
  | _ + 1, _, [] => none
  | n + 1, v, c :: s =>
    if '0' ≤ c ∧ c ≤ '7' then readOctal n (v * 8 + (c.toNat - '0'.toNat)) s else none

/-- The body of `strconv.Unquote` for a double-quoted literal, applied to the text between the
quotes.  A `\x` or octal escape denotes one byte in Go; it is rendered here as the character
with that code. -/
def unquoteChars : Nat → List Char → Option (List Char)
  | 0, _ => none
  | _ + 1, [] => some []
  | n + 1, c :: s =>
    if c = '\n' ∨ c = '"' then none
    else if c ≠ '\\' then (unquoteChars n s).map (c :: ·)
    else
      match s with
      | [] => none
      | e :: s =>
        let simple (v : Char) := (unquoteChars n s).map (v :: ·)
        if e = 'a' then simple (Char.ofNat 7)
        else if e = 'b' then simple (Char.ofNat 8)
        else if e = 'f' then simple (Char.ofNat 12)
        else if e = 'n' then simple '\n'
        else if e = 'r' then simple '\r'
        else if e = 't' then simple '\t'
        else if e = 'v' then simple (Char.ofNat 11)
        else if e = '\\' then simple '\\'
        else if e = '"' then simple '"'
        else if e = 'x' then
          match readHex 2 0 s with
          | none => none
          | some (v, s) => (unquoteChars n s).map (Char.ofNat v :: ·)
        else if e = 'u' ∨ e = 'U' then
          match readHex (if e = 'u' then 4 else 8) 0 s with
          | none => none
          | some (v, s) =>
            if v.isValidChar then (unquoteChars n s).map (Char.ofNat v :: ·) else none
        else if '0' ≤ e ∧ e ≤ '7' then
          match readOctal 2 (e.toNat - '0'.toNat) s with
          | none => none
          | some (v, s) =>
            if v > 255 then none else (unquoteChars n s).map (Char.ofNat v :: ·)
        else none

/-- Length of the quoted value that starts at the opening quote: the index of the closing
quote, where a backslash protects the character after it.  `none` when the quote is not
closed. -/
def scanQuoted : List Char → Nat → Option Nat
  | [], _ => none
  | c :: s, i =>
    if c = '"' then some i
    else if c = '\\' then
      match s with
      | [] => none
      | _ :: s => scanQuoted s (i + 2)
    else scanQuoted s (i + 1)

/-- A character that may stand in a tag key. -/
def isKeyChar (c : Char) : Bool :=
  decide (c.toNat > 32) && c != ':' && c != '"' && decide (c.toNat ≠ 127)

/-- The loop of `structtag.Parse`. -/
def parseLoop : Nat → List Char → List Tag → Option (List Tag)
  | 0, _, _ => none
  | n + 1, tag, tags =>
    let tag := tag.dropWhile (· = ' ')
    if tag.isEmpty then some tags
    else
      let i := (tag.takeWhile isKeyChar).length
      if i = 0 then none
      else if i + 1 ≥ tag.length ∨ (tag.drop i).head? ≠ some ':' then none
      else if (tag.drop (i + 1)).head? ≠ some '"' then none
      else
        let key := tag.take i
        let tag := tag.drop (i + 1)
        match scanQuoted (tag.drop 1) 1 with
        | none => none
        | some j =>
          let inner := (tag.take j).drop 1
          let tag := tag.drop (j + 1)
          match unquoteChars (inner.length + 1) inner with
          | none => none
          | some value =>
            match splitChars ',' value with
            | [] => none
            | name :: options =>
              parseLoop n tag
                (tags ++ [{ Key := String.mk key, Name := String.mk name,
                            Options := options.map String.mk }])

/-- Go: `structtag.Parse(tag)`.  `none` is an error; `some none` is the nil `*Tags` that the
library returns, without an error, for a tag made of blanks only. -/
def structtagParse (tag : String) : Option (Option (List Tag)) :=
  match parseLoop (tag.length + 1) tag.data [] with
  | none => none
  | some tags => if tag ≠ "" ∧ tags.isEmpty then some none else some (some tags)

/-- Go: `tags.Get(key)`; `none` is `errTagNotExist`. -/
def tagsGet (tags : List Tag) (key : String) : Option Tag :=
  tags.find? (fun t => t.Key = key)

/-- The prologue shared by every field visit: `structtag.Parse(string(field.Tag))` followed by
`panic(err)`; the later `tags.Get` on a nil `*Tags` dereferences nil. -/
def parseFieldTag (tag : String) : Except Fault (List Tag) :=
  match structtagParse tag with
  | none => .error .tagPanic
  | some none => .error .nilDeref
  | some (some tags) => .ok tags

/-! ## `params` and `isParamExist` -/

/-- Go: `params(key, name)`. -/
def params (key name : String) : List String :=
  match (splitComma name).find? (fun value => startsWith value (key ++ "=")) with
  | some value => splitComma (sliceFrom value (key ++ "=").length)
  | none => []

/-- Go: `isParamExist(key, name)`. -/
def isParamExist (key name : String) : Bool :=
  (splitComma name).any (fun value => value = key)

/-- The first loop of the `rule` block: the pattern that gets assigned, if any. -/
def rulePattern (ruleTag : Tag) : Option String :=
  if (params "regexp" ruleTag.Name).length = 0 then
    ruleTag.Options.findSome? (fun o =>
      match params "regexp" o with
      | [p] => some p
      | _ => none)
  else none

/-- The second loop of the `rule` block: whether the required marker gets set. -/
def ruleRequired (ruleTag : Tag) : Bool :=
  (!isParamExist "nonnil" ruleTag.Name || !isParamExist "nonzero" ruleTag.Name) &&
    ruleTag.Options.any (fun o => isParamExist "nonnil" o || isParamExist "nonzero" o)

/-! ## `fixPath` -/

/-- Character class `[a-zA-Z0-9_]`. -/
def isWordChar (c : Char) : Bool :=
  c.isAlphanum || c = '_'

/-- Leftmost, non-overlapping replacement of `:([a-zA-Z0-9_]+)` by `{$1}`. -/
def fixPathLoop : Nat → List Char → List Char
  | 0, src => src
  | _ + 1, [] => []
  | n + 1, c :: cs =>
    if c = ':' then
      let name := cs.takeWhile isWordChar
      if name.isEmpty then c :: fixPathLoop n cs
      else Char.ofNat 123 :: name ++ Char.ofNat 125 :: fixPathLoop n (cs.dropWhile isWordChar)
    else c :: fixPathLoop n cs

/-- Go: `swagger.fixPath(path)`. -/
def fixPath (path : String) : String :=
  String.mk (fixPathLoop path.length path.data)

/-! ## Go maps -/

/-- Go: `m[k] = v` on a map held as an association list. -/
def dictSet {α : Type} : List (String × α) → String → α → List (String × α)
  | [], k, v => [(k, v)]
  | (k1, v1) :: rest, k, v =>
    if k1 = k then (k, v) :: rest else (k1, v1) :: dictSet rest k v

/-- Go: `m[k]`, `none` when the key is absent. -/
def dictGet {α : Type} (m : List (String × α)) (k : String) : Option α :=
  (m.find? (fun e => e.1 = k)).map (fun e => e.2)

/-! ## Go types and values as package `reflect` shows them -/

/-- The predeclared basic types. -/
inductive Basic where
  | bool | int | int8 | int16 | int32 | int64
  | uint | uint8 | uint16 | uint32 | uint64 | uintptr
  | float32 | float64 | complex64 | complex128 | string
  deriving DecidableEq, Repr

mutual
/-- A Go type.  A defined type is `named` with its qualified name (type identity of defined
types is by name); `time.Time` is `named "time.Time" (struct ..)`. -/
inductive GoType where
  | basic (b : Basic)
  | named (name : String) (underlying : GoType)
  | struct (fields : List StructField)
  | ptr (elem : GoType)
  | slice (elem : GoType)
  | array (len : Nat) (elem : GoType)
  | map (key elem : GoType)
  | iface
  | func
  | chan (elem : GoType)
/-- Go: `reflect.StructField`, reduced to the parts that are read.  `PkgPath` is the package
path that qualifies an unexported field name; it is empty for an exported name, that is a
name whose first character is a Unicode upper-case letter. -/
inductive StructField where
  | mk (Name : String) (Tag : String) (Typ : GoType) (PkgPath : String)
end

/-- Field name. -/
def StructField.Name : StructField → String
  | .mk n _ _ _ => n

/-- Raw tag text. -/
def StructField.Tag : StructField → String
  | .mk _ t _ _ => t

/-- Field type. -/
def StructField.Typ : StructField → GoType
  | .mk _ _ t _ => t

/-- Package path of an unexported field, empty for an exported one. -/
def StructField.PkgPath : StructField → String
  | .mk _ _ _ p => p

/-- Go: `field.IsExported()`, which is `f.PkgPath == ""`. -/
def StructField.IsExported (f : StructField) : Bool :=
  f.PkgPath = ""

/-- The underlying type: defined names stripped. -/
def GoType.underlying : GoType → GoType
  | .named _ u => u.underlying
  | t => t

/-- A Go value, reduced to what the reflection code can observe: its type, whether a pointer
is nil and what it points to, the field values of a struct, the dynamic value of an
interface.  Struct values are always `struct`, pointers always `pointer`, values of
interface type always `iface`. -/
inductive GoValue where
  | plain (t : GoType)
  | pointer (t : GoType) (target : Option GoValue)
  | struct (t : GoType) (fields : List GoValue)
  | iface (dyn : Option GoValue)

/-- Go: the static type of a value. -/
def GoValue.typeOf : GoValue → GoType
  | .plain t => t
  | .pointer t _ => t
  | .struct t _ => t
  | .iface _ => .iface

mutual
/-- Zero value of type `t` whose underlying type is the second argument. -/
def zeroAs (t : GoType) : GoType → GoValue
  | .named _ u => zeroAs t u
  | .struct fs => .struct t (zeroFields fs)
  | .ptr _ => .pointer t none
  | .iface => .iface none
  | _ => .plain t
/-- Zero values of the fields of a struct type. -/
def zeroFields : List StructField → List GoValue
  | [] => []
  | .mk _ _ ft _ :: rest => zeroAs ft ft :: zeroFields rest
end

/-- Go: `reflect.New(t).Elem()`, the zero value of `t`. -/
def zeroValue (t : GoType) : GoValue :=
  zeroAs t t

/-- Go: `v.Interface()` for a valid, exported `v`: the value as an `any`, where `none` is the
nil interface. -/
def GoValue.Interface : GoValue → Option GoValue
  | .iface d => d
  | v => some v

/-- Go: `t.Elem()` after `t.Kind() == reflect.Ptr` held, else `t` itself. -/
def derefType (t : GoType) : GoType :=
  match t.underlying with
  | .ptr e => e
  | _ => t

/-- Field values of a struct value. -/
def GoValue.fields : GoValue → List GoValue
  | .struct _ vs => vs
  | _ => []

/-- Go: `v.FieldByName(name)` (embedded structs apart): `none` is the zero `Value` of a missing
field; the call panics unless `v` is a struct. -/
def FieldByName (v : Option GoValue) (name : String) : Except Fault (Option GoValue) :=
  match v with
  | some (.struct t vs) =>
    match t.underlying with
    | .struct fs => .ok (((fs.zip vs).find? (fun p => p.1.Name = name)).map (fun p => p.2))
    | _ => .ok none
  | _ => .error .reflectPanic

/-- The type `time.Time`.  Its fields are unexported and carry no tag, so the type of `loc`
is never inspected and `time.Location` is left without fields. -/
def timeTime : GoType :=
  .named "time.Time" (.struct [
    .mk "wall" "" (.basic .uint64) "time",
    .mk "ext" "" (.basic .int64) "time",
    .mk "loc" "" (.ptr (.named "time.Location" (.struct []))) "time"])

/-- The type `multipart.FileHeader`. -/
def fileHeader : GoType :=
  .named "multipart.FileHeader" (.struct [
    .mk "Filename" "" (.basic .string) "",
    .mk "Header" "" (.named "textproto.MIMEHeader"
      (.map (.basic .string) (.slice (.basic .string)))) "",
    .mk "Size" "" (.basic .int64) "",
    .mk "content" "" (.slice (.basic .uint8)) "mime/multipart",
    .mk "tmpfile" "" (.basic .string) "mime/multipart",
    .mk "tmpoff" "" (.basic .int64) "mime/multipart",
    .mk "tmpshared" "" (.basic .bool) "mime/multipart"])

/-! ## `openapi3.Schema` and the tag overlay -/

/-- Go: `openapi3.Schema`, the fields this program writes.  `Properties` is a map, `Min` a
`*float64`, `Default` and `Example` an `any` that holds a string when set. -/
structure Schema where
  Type_ : String
  Format : String
  Description : String
  Default : Option String
  Example : Option String
  Min : Option Int
  Pattern : String
  Required : List String
  Items : Option Schema
  Properties : List (String × Schema)

/-- Go: `openapi3.Schema{}`, every field at its zero value. -/
def emptySchema : Schema :=
  { Type_ := "", Format := "", Description := "", Default := none, Example := none,
    Min := none, Pattern := "", Required := [], Items := none, Properties := [] }

/-- Go: `openapi3.NewObjectSchema()`. -/
def NewObjectSchema : Schema := { emptySchema with Type_ := "object" }

/-- Go: `openapi3.NewArraySchema()`. -/
def NewArraySchema : Schema := { emptySchema with Type_ := "array" }

/-- Go: `openapi3.NewIntegerSchema()`. -/
def NewIntegerSchema : Schema := { emptySchema with Type_ := "integer" }

/-- Go: `openapi3.NewInt32Schema()`. -/
def NewInt32Schema : Schema := { emptySchema with Type_ := "integer", Format := "int32" }

/-- Go: `openapi3.NewInt64Schema()`. -/
def NewInt64Schema : Schema := { emptySchema with Type_ := "integer", Format := "int64" }

/-- Go: `openapi3.NewStringSchema()`. -/
def NewStringSchema : Schema := { emptySchema with Type_ := "string" }

/-- Go: `openapi3.NewDateTimeSchema()`. -/
def NewDateTimeSchema : Schema := { emptySchema with Type_ := "string", Format := "date-time" }

/-- Go: `openapi3.NewFloat64Schema()`. -/
def NewFloat64Schema : Schema := { emptySchema with Type_ := "number" }

/-- Go: `openapi3.NewBoolSchema()`. -/
def NewBoolSchema : Schema := { emptySchema with Type_ := "boolean" }

/-- Go: `openapi3.NewBytesSchema()`. -/
def NewBytesSchema : Schema := { emptySchema with Type_ := "string", Format := "byte" }

/-- The cases of the type switch of `getSchemaByType` above `default`, on the dynamic type of
the argument; `none` is the `default` case. -/
def primitiveSchema : GoType → Option Schema
  | .basic .int | .basic .int8 | .basic .int16 => some NewIntegerSchema
  | .basic .uint | .basic .uint8 | .basic .uint16 => some { NewIntegerSchema with Min := some 0 }
  | .basic .int32 => some NewInt32Schema
  | .basic .uint32 => some { NewInt32Schema with Min := some 0 }
  | .basic .int64 => some NewInt64Schema
  | .basic .uint64 => some { NewInt64Schema with Min := some 0 }
  | .basic .string => some NewStringSchema
  | .named n _ => if n = "time.Time" then some NewDateTimeSchema else none
  | .basic .float32 | .basic .float64 => some NewFloat64Schema
  | .basic .bool => some NewBoolSchema
  | .slice (.basic .uint8) => some NewBytesSchema
  | .ptr (.named n _) =>
    if n = "multipart.FileHeader" then some { NewStringSchema with Format := "binary" } else none
  | .slice (.ptr (.named n _)) =>
    if n = "multipart.FileHeader" then
      some { NewArraySchema with Items := some { emptySchema with Type_ := "string", Format := "binary" } }
    else none
  | _ => none

/-- The tag overlay on a field schema, common to `getRequestSchemaByModel` (lines 152-198)
and `getResponseSchemaByModel` (lines 268-308): `description`, `default`, `example`, `rule`,
`format`.  The `binding` tag acts on the parent and is `bindingRequired`. -/
def applyFieldTags (tags : List Tag) (fieldSchema : Schema) : Schema :=
  let fieldSchema :=
    match tagsGet tags "description" with
    | some t => { fieldSchema with Description := t.Name }
    | none => fieldSchema
  let fieldSchema :=
    match tagsGet tags "default" with
    | some t => { fieldSchema with Default := some t.Name }
    | none => fieldSchema
  let fieldSchema :=
    match tagsGet tags "example" with
    | some t => { fieldSchema with Example := some t.Name }
    | none => fieldSchema
  let fieldSchema :=
    match tagsGet tags "rule" with
    | some ruleTag =>
      let fieldSchema :=
        match rulePattern ruleTag with
        | some p => { fieldSchema with Pattern := p }
        | none => fieldSchema
      if ruleRequired ruleTag then
        { fieldSchema with Required := fieldSchema.Required ++ ["required"] }
      else fieldSchema
    | none => fieldSchema
  match tagsGet tags "format" with
  | some t => { fieldSchema with Format := t.Name }
  | none => fieldSchema

/-- Whether the `binding` tag is present with primary value `required`. -/
def bindingRequired (tags : List Tag) : Bool :=
  match tagsGet tags "binding" with
  | some t => t.Name = "required"
  | none => false

/-- One iteration of the field loop of `getRequestSchemaByModel` (lines 136-199); `getSchema`
is `getSchemaByType(_, true)`. -/
def requestField (getSchema : Option GoValue → Except Fault Schema) (schema : Schema)
    (fv : StructField × GoValue) : Except Fault Schema := do
  let tags ← parseFieldTag fv.1.Tag
  match tagsGet tags "json" with
  | none => pure schema
  | some tag =>
    if tag.Name = "-" then pure schema
    else
      if !fv.1.IsExported then throw Fault.reflectPanic
      let fieldSchema ← getSchema fv.2.Interface
      let schema :=
        if bindingRequired tags then { schema with Required := schema.Required ++ [tag.Name] }
        else schema
      pure { schema with
        Properties := dictSet schema.Properties tag.Name (applyFieldTags tags fieldSchema) }

/-- One iteration of the field loop of `getResponseSchemaByModel` (lines 243-310); `value` is
`none` when `value_` is the invalid `Value`. -/
def responseField (getSchema : Option GoValue → Except Fault Schema) (schema : Schema)
    (fv : StructField × Option GoValue) : Except Fault Schema := do
  match fv.2 with
  | none => pure schema
  | some value =>
    if !fv.1.IsExported then pure schema
    else
      let value :=
        match value with
        | .pointer t none => zeroValue (derefType t)
        | .pointer _ (some x) => x
        | v => v
      let fieldSchema ← getSchema value.Interface
      let tags ← parseFieldTag fv.1.Tag
      match tagsGet tags "json" with
      | none => pure schema
      | some tag =>
        if tag.Name = "-" then pure schema
        else
          let schema :=
            if bindingRequired tags then { schema with Required := schema.Required ++ [tag.Name] }
            else schema
          pure { schema with
            Properties := dictSet schema.Properties tag.Name (applyFieldTags tags fieldSchema) }

/-! ## Schema derivation -/

mutual
/-- Go: `swagger.getSchemaByType(t, request)`. -/
def getSchemaByType : Nat → Option GoValue → Bool → Except Fault Schema
  | 0, _, _ => .error .outOfFuel
  | fuel + 1, t, request =>
    match t.bind (fun v => primitiveSchema v.typeOf) with
    | some schema => .ok schema
    | none =>
      if request then getRequestSchemaByModel fuel t
      else getResponseSchemaByModel fuel t
/-- Go: `swagger.getRequestSchemaByModel(model)`. -/
def getRequestSchemaByModel : Nat → Option GoValue → Except Fault Schema
  | 0, _ => .error .outOfFuel
  | _ + 1, none => .error .nilDeref
  | fuel + 1, some model =>
    let type_ := derefType model.typeOf
    let value_ :=
      match model with
      | .pointer t none => zeroValue (derefType t)
      | .pointer _ (some x) => x
      | v => v
    match type_.underlying with
    | .struct fields =>
      (fields.zip value_.fields).foldlM
        (requestField (fun t => getSchemaByType fuel t true)) NewObjectSchema
    | .slice elem =>
      (getRequestSchemaByModel fuel (zeroValue (derefType elem)).Interface).map
        (fun items => { NewArraySchema with Items := some items })
    | .map _ elem =>
      (getRequestSchemaByModel fuel (zeroValue elem).Interface).map
        (fun items => { NewObjectSchema with Items := some items })
    | _ => getSchemaByType fuel value_.Interface true
/-- Go: `swagger.getResponseSchemaByModel(model)`. -/
def getResponseSchemaByModel : Nat → Option GoValue → Except Fault Schema
  | 0, _ => .error .outOfFuel
  | _ + 1, none => .error .nilDeref
  | fuel + 1, some model =>
    let type_ := derefType model.typeOf
    let value_ : Option GoValue :=
      match model with
      | .pointer _ target => target
      | v => some v
    match type_.underlying with
    | .struct fields =>
      let values : List (Option GoValue) :=
        match value_ with
        | some v => v.fields.map some
        | none => fields.map (fun _ => none)
      (fields.zip values).foldlM
        (responseField (fun t => getSchemaByType fuel t false)) NewObjectSchema
    | .slice elem =>
      (getResponseSchemaByModel fuel (zeroValue (derefType elem)).Interface).map
        (fun items => { NewArraySchema with Items := some items })
    | .map _ elem =>
      (getResponseSchemaByModel fuel (zeroValue elem).Interface).map
        (fun items => { NewObjectSchema with Items := some items })
    | _ => getSchemaByType fuel (some model) false
end

/-! ## Parameters -/

/-- Go: `openapi3.Parameter`, the fields this program writes. -/
structure Parameter where
  Name : String
  In : String
  Description : String
  Required : Bool
  Example : Option String
  Schema : Option Schema

/-- Go: `openapi3.Parameter{}`. -/
def emptyParameter : Parameter :=
  { Name := "", In := "", Description := "", Required := false, Example := none,
    Schema := none }

/-- The `switch param` of `getParamTypeByModel` (lines 390-399). -/
def paramIn (param : String) : String :=
  if param = "query" then "query"
  else if param = "uri" then "path"
  else if param = "cookie" then "cookie"
  else if param = "header" then "header"
  else ""

/-- One iteration of the field loop of `getParamTypeByModel` (lines 381-457); `value` is
`none` when `value_` is the invalid `Value` of a nil pointer. -/
def paramField (getSchema : Option GoValue → Except Fault Schema) (param : String)
    (parameters : List Parameter) (fv : StructField × Option GoValue) :
    Except Fault (List Parameter) := do
  let value ← match fv.2 with
    | none => throw Fault.reflectPanic
    | some v => pure v
  let tags ← parseFieldTag fv.1.Tag
  let parameter :=
    match tagsGet tags param with
    | some paramTag => { emptyParameter with In := paramIn param, Name := paramTag.Name }
    | none => emptyParameter
  if parameter.In = "" then pure parameters
  else
    let parameter :=
      match tagsGet tags "description" with
      | some t => { parameter with Description := t.Name }
      | none => parameter
    let parameter :=
      match tagsGet tags "binding" with
      | some t => { parameter with Required := decide (t.Name = "required") }
      | none => parameter
    let parameter :=
      match tagsGet tags "example" with
      | some t => { parameter with Example := some t.Name }
      | none => parameter
    if !fv.1.IsExported then throw Fault.reflectPanic
    let schema ← getSchema value.Interface
    let schema :=
      match tagsGet tags "default" with
      | some t => { schema with Default := some t.Name }
      | none => schema
    let schema :=
      match (tagsGet tags "rule").bind rulePattern with
      | some p => { schema with Pattern := p }
      | none => schema
    let parameter :=
      match tagsGet tags "rule" with
      | some ruleTag =>
        if ruleRequired ruleTag then { parameter with Required := true } else parameter
      | none => parameter
    let schema :=
      match tagsGet tags "format" with
      | some t => { schema with Format := t.Name }
      | none => schema
    pure (parameters ++ [{ parameter with Schema := some schema }])

/-- Go: `swagger.getParamTypeByModel(model, param)`. -/
def getParamTypeByModel (fuel : Nat) (model : Option GoValue) (param : String) :
    Except Fault (List Parameter) :=
  match model with
  | none => .ok []
  | some model =>
    let type_ := derefType model.typeOf
    let value_ : Option GoValue :=
      match model with
      | .pointer _ target => target
      | v => some v
    match type_.underlying with
    | .struct fields =>
      let values : List (Option GoValue) :=
        match value_ with
        | some v => v.fields.map some
        | none => fields.map (fun _ => none)
      (fields.zip values).foldlM (paramField (fun t => getSchemaByType fuel t true) param) []
    | _ => .error .reflectPanic

/-- Go: `swagger.getParametersByModel(model)`. -/
def getParametersByModel (fuel : Nat) (model : Option GoValue) :
    Except Fault (List Parameter) :=
  match model with
  | none => .ok []
  | some model => do
    let value_ : Option GoValue :=
      match model with
      | .pointer _ target => target
      | v => some v
    let part (name param : String) (parameters : List Parameter) :
        Except Fault (List Parameter) := do
      match ← FieldByName value_ name with
      | none => pure parameters
      | some field => pure (parameters ++ (← getParamTypeByModel fuel field.Interface param))
    let parameters ← part "URI" "uri" []
    let parameters ← part "Query" "query" parameters
    let parameters ← part "Cookie" "cookie" parameters
    part "Header" "header" parameters

/-! ## Request bodies and responses -/

/-- Go: `binding.MIMEJSON`. -/
def MIMEJSON : String := "application/json"

/-- Go: `openapi3.RequestBody`; `Content` maps a media type to the schema of its
`MediaType`, `none` being the nil map. -/
structure RequestBody where
  Required : Bool
  Content : Option (List (String × Schema))

/-- Go: `swagger.getRequestBodyByModel(model, contentType)`. -/
def getRequestBodyByModel (fuel : Nat) (model : Option GoValue) (contentType : String) :
    Except Fault RequestBody :=
  match model with
  | none => .ok { Required := false, Content := none }
  | some _ => do
    let schema ← getRequestSchemaByModel fuel model
    let contentType := if contentType = "" then MIMEJSON else contentType
    pure { Required := true, Content := some [(contentType, schema)] }

/-- Go: `swagger.hasSchemaBody(requestBody)`. -/
def hasSchemaBody (requestBody : RequestBody) : Except Fault Bool :=
  match requestBody.Content with
  | none => .ok false
  | some content =>
    match dictGet content MIMEJSON with
    | none => .error .nilDeref
    | some schema =>
      if schema.Type_ = "object" then .ok (schema.Properties.length != 0)
      else if schema.Type_ = "array" then
        match schema.Items with
        | none => .error .nilDeref
        | some items => .ok (items.Properties.length != 0)
      else .ok false

/-- Go: `router.ResponseItem`; `Headers` is handed on unchanged. -/
structure ResponseItem where
  Description : String
  Model : Option GoValue
  Headers : List String

/-- Go: `openapi3.Response`; `Content` holds at most one media type here. -/
structure Response where
  Description : String
  Content : Option (String × Schema)
  Headers : List String

/-- Go: `openapi3.NewResponses()`: the responses start with an empty `default` entry. -/
def NewResponses : List (String × Response) :=
  [("default", { Description := "", Content := none, Headers := [] })]

/-- Go: `swagger.getResponses(response, contentType)`. -/
def getResponses (fuel : Nat) (response : List (String × ResponseItem)) (contentType : String) :
    Except Fault (List (String × Response)) :=
  response.foldlM (fun ret kv => do
    let schema ← getResponseSchemaByModel fuel kv.2.Model
    let content :=
      if contentType = "" ∨ contentType = MIMEJSON then (MIMEJSON, schema)
      else (contentType, schema)
    pure (dictSet ret kv.1
      { Description := kv.2.Description, Content := some content, Headers := kv.2.Headers }))
    NewResponses

/-! ## Routes -/

/-- Go: `security.ISecurity`: the provider key, the scheme (by name) and the identity of
the `Authorize` handler. -/
structure ISecurity where
  Provider : String
  Scheme : String
  Authorize : Nat
  deriving DecidableEq, Repr

/-- An element of the `Handlers` list: a `gin.HandlerFunc` (by identity) or a value of
another dynamic type. -/
inductive ChainEntry where
  | handlerFunc (f : Nat)
  | other
  deriving DecidableEq, Repr

/-- Go: `router.Router`. -/
structure Router where
  Handlers : List ChainEntry
  Path : String
  Method : String
  Summary : String
  Description : String
  Deprecated : Bool
  RequestContentType : String
  ResponseContentType : String
  Tags : List String
  API : Nat
  Model : Option GoValue
  OperationID : String
  Exclude : Bool
  Securities : List ISecurity
  Response : List (String × ResponseItem)

/-- Go: `router.GetHandlers()`. -/
def Router.GetHandlers (router : Router) : List Nat :=
  let handlers := router.Securities.map (fun s => s.Authorize)
  let handlers := handlers ++ router.Handlers.filterMap (fun h =>
    match h with
    | .handlerFunc f => some f
    | .other => none)
  handlers ++ [router.API]

/-- Go: `router.NewX(f)` without options: the handler `f` wrapped as `API`. -/
def NewX (f : Nat) : Router :=
  { Handlers := [], Path := "", Method := "", Summary := "", Description := "",
    Deprecated := false, RequestContentType := "", ResponseContentType := "", Tags := [],
    API := f, Model := none, OperationID := "", Exclude := false, Securities := [],
    Response := [] }

/-! ## Document assembly -/

/-- Go: `openapi3.Operation`; `Security` lists the provider of each requirement. -/
structure Operation where
  Tags : List String
  OperationID : String
  Summary : String
  Description : String
  Deprecated : Bool
  Responses : List (String × Response)
  Parameters : List Parameter
  Security : List String
  RequestBody : Option RequestBody

/-- Go: `openapi3.PathItem`, its operation slots. -/
structure PathItem where
  Get : Option Operation
  Post : Option Operation
  Delete : Option Operation
  Put : Option Operation
  Patch : Option Operation
  Head : Option Operation
  Options : Option Operation
  Connect : Option Operation
  Trace : Option Operation

/-- Go: `&openapi3.PathItem{}`. -/
def emptyPathItem : PathItem :=
  { Get := none, Post := none, Delete := none, Put := none, Patch := none, Head := none,
    Options := none, Connect := none, Trace := none }

/-- Go: `swagger.getSecurityRequirements(securities)`, with the security-scheme table of
the document passed in and out. -/
def getSecurityRequirements (schemes : List (String × String)) (securities : List ISecurity) :
    List (String × String) × List String :=
  securities.foldl (fun acc s => (dictSet acc.1 s.Provider s.Scheme, acc.2 ++ [s.Provider]))
    (schemes, [])

/-- The operation that `getPaths` derives for a non-excluded route (lines 518-536), with the
security-scheme table passed in and out. -/
def routeOperation (fuel : Nat) (schemes : List (String × String)) (r : Router) :
    Except Fault (List (String × String) × Operation) := do
  let model := r.Model
  let responses ← getResponses fuel r.Response r.ResponseContentType
  let parameters ← getParametersByModel fuel model
  let sec := getSecurityRequirements schemes r.Securities
  let operation : Operation :=
    { Tags := r.Tags, OperationID := r.OperationID, Summary := r.Summary,
      Description := r.Description, Deprecated := r.Deprecated, Responses := responses,
      Parameters := parameters, Security := sec.2, RequestBody := none }
  match ← FieldByName model "Body" with
  | none => pure (sec.1, operation)
  | some body =>
    let requestBody ← getRequestBodyByModel fuel body.Interface r.RequestContentType
    if ← hasSchemaBody requestBody then
      pure (sec.1, { operation with RequestBody := some requestBody })
    else pure (sec.1, operation)

/-- The method dispatch of `getPaths` (lines 538-556). -/
def setOperation (pathItem : PathItem) (method : String) (operation : Operation) : PathItem :=
  if method = "GET" then { pathItem with Get := some operation }
  else if method = "POST" then { pathItem with Post := some operation }
  else if method = "DELETE" then { pathItem with Delete := some operation }
  else if method = "PUT" then { pathItem with Put := some operation }
  else if method = "PATCH" then { pathItem with Patch := some operation }
  else if method = "HEAD" then { pathItem with Head := some operation }
  else if method = "OPTIONS" then { pathItem with Options := some operation }
  else if method = "CONNECT" then { pathItem with Connect := some operation }
  else if method = "TRACE" then { pathItem with Trace := some operation }
  else pathItem

/-- The slot of a path item that belongs to a method. -/
def PathItem.slot (pathItem : PathItem) (method : String) : Option Operation :=
  if method = "GET" then pathItem.Get
  else if method = "POST" then pathItem.Post
  else if method = "DELETE" then pathItem.Delete
  else if method = "PUT" then pathItem.Put
  else if method = "PATCH" then pathItem.Patch
  else if method = "HEAD" then pathItem.Head
  else if method = "OPTIONS" then pathItem.Options
  else if method = "CONNECT" then pathItem.Connect
  else if method = "TRACE" then pathItem.Trace
  else none

/-- The test of line 558: some slot of the path item is set. -/
def PathItem.hasOperation (p : PathItem) : Bool :=
  p.Get.isSome || p.Post.isSome || p.Delete.isSome || p.Put.isSome || p.Patch.isSome ||
    p.Head.isSome || p.Options.isSome || p.Connect.isSome || p.Trace.isSome

/-- The inner loop of `getPaths` (lines 514-557) over the routes of one path. -/
def pathItemOf (fuel : Nat) (schemes : List (String × String)) (m : List (String × Router)) :
    Except Fault (List (String × String) × PathItem) :=
  m.foldlM (fun acc mr =>
    if mr.2.Exclude then pure acc
    else do
      let res ← routeOperation fuel acc.1 mr.2
      pure (res.1, setOperation acc.2 mr.1 res.2))
    (schemes, emptyPathItem)

/-- Go: `swagger.getPaths()`, over the registry `Routers` and with the security-scheme
table passed in and out. -/
def getPaths (fuel : Nat) (Routers : List (String × List (String × Router)))
    (schemes : List (String × String)) :
    Except Fault (List (String × String) × List (String × PathItem)) :=
  Routers.foldlM (fun acc pm => do
    let res ← pathItemOf fuel acc.1 pm.2
    if res.2.hasOperation then pure (res.1, dictSet acc.2 (fixPath pm.1) res.2)
    else pure (res.1, acc.2))
    (schemes, [])

/-- Go: `openapi3.Info`. -/
structure Info where
  Title : String
  Description : String
  TermsOfService : String
  Contact : Option String
  License : Option String
  Version : String
  deriving DecidableEq, Repr

/-- Go: `openapi3.T`, the document. -/
structure T where
  OpenAPI : String
  Info : Info
  Servers : List String
  SecuritySchemes : List (String × String)
  Paths : List (String × PathItem)

/-- Go: `swagger.Swagger`; a server is held by its URL. -/
structure Swagger where
  Title : String
  Description : String
  Version : String
  DocsUrl : String
  RedocUrl : String
  OpenAPIUrl : String
  Routers : List (String × List (String × Router))
  Servers : List String
  TermsOfService : String
  Contact : Option String
  License : Option String
  OpenAPI : Option T

/-- Go: `swagger.BuildOpenAPI()`. -/
def Swagger.BuildOpenAPI (fuel : Nat) (swagger : Swagger) : Except Fault Swagger := do
  let res ← getPaths fuel swagger.Routers []
  pure { swagger with
    OpenAPI := some
      { OpenAPI := "3.0.0",
        Info :=
          { Title := swagger.Title, Description := swagger.Description,
            TermsOfService := swagger.TermsOfService, Contact := swagger.Contact,
            License := swagger.License, Version := swagger.Version },
        Servers := swagger.Servers,
        SecuritySchemes := res.1,
        Paths := res.2 } }

/-- Go: `swagger.New(title, description, version)` without options. -/
def Swagger.New (title description version : String) : Swagger :=
  { Title := title, Description := description, Version := version, DocsUrl := "/docs",
    RedocUrl := "/redoc", OpenAPIUrl := "/openapi.json", Routers := [], Servers := [],
    TermsOfService := "", Contact := none, License := none, OpenAPI := none }

/-! ## Route registry and wiring (`swagin.go`) -/

/-- Go: `g.Handle(path, method, r)` on the registry `g.Routers` as it is read, with each
descriptor held by value; `Registry.Handle` is the same function on the registry in memory,
where a descriptor is held by its address. -/
def Handle (Routers : List (String × List (String × Router))) (path method : String)
    (r : Router) : List (String × List (String × Router)) :=
  let r := { r with Method := method, Path := path }
  dictSet Routers path (dictSet ((dictGet Routers path).getD []) method r)

/-- A registration made on the engine: the engine method used (`Any` for the catch-all),
the full path and the handler chain. -/
structure Registration where
  Method : String
  Path : String
  Handlers : List Nat
  deriving DecidableEq, Repr

/-- The engine method chosen by `initRouters` (lines 186-202). -/
def engineMethod (method : String) : String :=
  if method = "GET" then "GET"
  else if method = "POST" then "POST"
  else if method = "HEAD" then "HEAD"
  else if method = "PATCH" then "PATCH"
  else if method = "DELETE" then "DELETE"
  else if method = "PUT" then "PUT"
  else if method = "OPTIONS" then "OPTIONS"
  else "Any"

/-- Go: `g.initRouters()`: the registrations made on the engine, in iteration order. -/
def initRouters (rootPath : String) (Routers : List (String × List (String × Router))) :
    List Registration :=
  Routers.flatMap (fun pm =>
    pm.2.map (fun mr =>
      { Method := engineMethod mr.1, Path := rootPath ++ pm.1, Handlers := mr.2.GetHandlers }))

/-! ## The binder (`router/router.go`, `router/parser.go`) -/

/-- The codecs of `gin/binding` that `BindModel` may select. -/
inductive Codec where
  | FormMultipart | JSON | XML | Form | YAML | ProtoBuf | MsgPack
  deriving DecidableEq, Repr

/-- Go: `http.Request`, the parts the binder reads.  `Header` and `Query` map a key to its
values, `Cookies` lists name and value in request order, `Params` are the path parameters
the router extracted. -/
structure Request where
  Method : String
  Header : List (String × List String)
  Query : List (String × List String)
  Cookies : List (String × String)
  Params : List (String × String)
  Body : String
  deriving DecidableEq, Repr

/-- Go: `req.Header.Get(key)` for a canonical key: the first value, or the empty string. -/
def headerGet (header : List (String × List String)) (key : String) : String :=
  match dictGet header key with
  | some (v :: _) => v
  | _ => ""

/-- The map built by `headerBinding.Bind` and `queryBinding.Bind`: `m[k] = v[0]`. -/
def firstValues (values : List (String × List String)) : Except Fault (List (String × String)) :=
  values.foldlM (fun m kv =>
    match kv.2 with
    | [] => .error .indexPanic
    | v :: _ => .ok (dictSet m kv.1 v)) []

/-- The map built by `CookiesParser`: `params[name] = append(params[name], value)`. -/
def cookieParams (cookies : List (String × String)) : List (String × List String) :=
  cookies.foldl (fun ps c => dictSet ps c.1 ((dictGet ps c.1).getD [] ++ [c.2])) []

/-- The `switch` on the `Content-Type` header of `BindModel` (lines 73-102). -/
def selectCodec (contentType : String) : Option Codec :=
  if contentType = "multipart/form-data" then some .FormMultipart
  else if contentType = "application/json" then some .JSON
  else if contentType = "application/xml" then some .XML
  else if contentType = "application/x-www-form-urlencoded" then some .Form
  else if contentType = "application/x-yaml" then some .YAML
  else if contentType = "application/x-protobuf" then some .ProtoBuf
  else if contentType = "application/x-msgpack" then some .MsgPack
  else none

/-- The codec that `BindModel` runs on the body of a request, if any (lines 72-103). -/
def bodyCodec (req : Request) : Option Codec :=
  if req.Method = "POST" ∨ req.Method = "PUT" then
    selectCodec (headerGet req.Header "Content-Type")
  else none

/-- The libraries the binder delegates to, over the values `V` of the parts and the
intermediate data `D` a codec produces.
* `decodeMap tagName m v`: a `mapstructure` decoder with `TagName: tagName`, decoding the
  map `m` onto the part `v`;
* `codec c req v`: `c.ShouldBindWith(&bodyValue, codec)`;
* `remap d v`: the `json`-tag `mapstructure` decoder applied to the intermediate value,
  which is codec output (`inl`) or the untouched part itself (`inr`);
* `validate`, `copy`: `validate.Struct(model)` and `copier.Copy(req, model)`. -/
structure Libraries (V D M : Type) where
  decodeMap : String → List (String × String) → V → Except String V
  codec : Codec → Request → V → Except String D
  remap : D ⊕ V → V → Except String V
  validate : M → Except String Unit
  copy : M → Except String Unit

/-- The model under construction, by its recognized parts; `none` when the model type
declares no field of that name.  `Rest` stands for its other fields. -/
structure Parts (V R : Type) where
  Header : Option V
  Query : Option V
  Body : Option V
  URI : Option V
  Cookie : Option V
  Rest : R

/-- Go: `log.Panic(err)` when a library call fails. -/
def orPanic {α : Type} (r : Except String α) : Except Fault α :=
  match r with
  | .ok a => .ok a
  | .error _ => .error .logPanic

/-- The `Body` block of `BindModel` (lines 68-115) on the current value of the part. -/
def bindBody {V D M : Type} (lib : Libraries V D M) (req : Request) (body : V) :
    Except Fault V := do
  let bodyValue : D ⊕ V ←
    match bodyCodec req with
    | some c => (orPanic (lib.codec c req body)).map Sum.inl
    | none => pure (Sum.inr body)
  orPanic (lib.remap bodyValue body)

/-- Go: the handler returned by `BindModel(req)`, applied to the fresh zero model `m`: the
model handed to `copier.Copy` and then to the rest of the chain. -/
def BindModel {V D R : Type} (lib : Libraries V D (Parts V R)) (m : Parts V R)
    (req : Request) : Except Fault (Parts V R) := do
  let m ← match m.Header with
    | none => pure m
    | some header => do
      let values ← firstValues req.Header
      let headerValue ← orPanic (lib.decodeMap "header" values header)
      pure { m with Header := some headerValue }
  let m ← match m.Query with
    | none => pure m
    | some query => do
      let values ← firstValues req.Query
      let queryValue ← orPanic (lib.decodeMap "query" values query)
      pure { m with Query := some queryValue }
  let m ← match m.Body with
    | none => pure m
    | some body => do
      let bodyReq ← bindBody lib req body
      pure { m with Body := some bodyReq }
  let m ← match m.URI with
    | none => pure m
    | some uri => do
      let uriValue ← orPanic (lib.decodeMap "uri" req.Params uri)
      pure { m with URI := some uriValue }
  orPanic (lib.validate m)
  orPanic (lib.copy m)
  pure m


/-! ## The application object (`swagin.go`) -/

/-- Go: `swagin.SwaGin`, the parts that `Mount`, `fullPath` and `initRouters` touch.  The
engine and the error handler are held by identity (`none` is the nil handler), the document
generator by value (`none` is a nil `*Swagger`), the sub-applications by mount path. -/
structure SwaGin where
  Engine : Nat
  Swagger : Option Swagger
  Routers : List (String × List (String × Router))
  subApps : List (String × SwaGin)
  rootPath : String
  ErrorHandler : Option Nat

/-- Go: `g.fullPath(path)`. -/
def SwaGin.fullPath (g : SwaGin) (path : String) : String :=
  g.rootPath ++ path

/-- Go: `g.Mount(path, app)` for two distinct application objects, each with its own
generator: the pair of `g` and `app` after the call.  `app.Swagger.Servers` on a nil
`*Swagger` is a nil dereference. -/
def SwaGin.Mount (g : SwaGin) (path : String) (app : SwaGin) : Except Fault (SwaGin × SwaGin) :=
  let app := { app with rootPath := path, Engine := g.Engine }
  let app := if app.ErrorHandler.isNone then { app with ErrorHandler := g.ErrorHandler } else app
  match app.Swagger with
  | none => .error .nilDeref
  | some sw =>
    let app := { app with Swagger := some { sw with Servers := sw.Servers ++ [path] } }
    .ok ({ g with subApps := dictSet g.subApps path app }, app)

/-- The registry `g.Routers` as it lies in memory: under each path and method the address
of a `*router.Router`, and the descriptor that each address holds. -/
structure Registry where
  Routers : List (String × List (String × Nat))
  store : Nat → Router

/-- Go: the registry that `swagin.New` makes: an empty map. -/
def Registry.New (store : Nat → Router) : Registry :=
  { Routers := [], store := store }

/-- Go: `g.Handle(path, method, r)`, where `r` is the address of the descriptor: the
descriptor at `r` gets the method and the path, and the address is stored under the path
and the method. -/
def Registry.Handle (g : Registry) (path method : String) (r : Nat) : Registry :=
  { Routers := dictSet g.Routers path (dictSet ((dictGet g.Routers path).getD []) method r),
    store := fun a => if a = r then { g.store r with Method := method, Path := path }
      else g.store a }

/-- Go: `g.Routers[path][method]`, `none` when the path or the method is absent. -/
def Registry.lookup (g : Registry) (path method : String) : Option Nat :=
  (dictGet g.Routers path).bind (fun m => dictGet m method)

/-- The registry as `initRouters` and `getPaths` read it: each path and method with the
descriptor that its pointer leads to. -/
def Registry.view (g : Registry) : List (String × List (String × Router)) :=
  g.Routers.map (fun pm => (pm.1, pm.2.map (fun mr => (mr.1, g.store mr.2))))
/-! ## The specification's wording of the rewriting and of the codec table -/

/-- Join segments with `/` in between. -/
def joinSegments : List (List Char) → List Char
  | [] => []
  | [s] => s
  | s :: rest => s ++ '/' :: joinSegments rest

/-- The rewriting of one segment in the words of the specification: `:name` becomes
`{name}`, any other segment is kept. -/
def rewriteSegment (seg : List Char) : List Char :=
  match seg with
  | [] => []
  | c :: name =>
    if c = ':' ∧ name ≠ [] ∧ name.all isWordChar then
      Char.ofNat 123 :: name ++ [Char.ofNat 125]
    else seg

/-- The rewriting of a path in the words of the specification: segment by segment. -/
def rewritePath (path : String) : String :=
  String.mk (joinSegments ((splitChars '/' path.data).map rewriteSegment))

/-- A segment is a parameter `:name` with a non-empty name over letters, digits and
underscore, or holds no colon. -/
def SegmentOk (seg : List Char) : Prop :=
  (∃ name, seg = ':' :: name ∧ name ≠ [] ∧ ∀ c ∈ name, isWordChar c = true) ∨ ':' ∉ seg

/-- The same condition on a segment, as a test. -/
def segmentOk (seg : List Char) : Bool :=
  (match seg with
    | [] => false
    | c :: name => c = ':' && !name.isEmpty && name.all isWordChar) || !seg.contains ':'

/-- Every `/`-separated segment of the path is a parameter segment or free of colons. -/
def pathOk (path : String) : Bool :=
  (splitChars '/' path.data).all segmentOk

/-- The dispatch table in the words of the specification: the media types that have a codec. -/
def codecTable : List (String × Codec) :=
  [("application/json", .JSON), ("application/xml", .XML),
   ("application/x-www-form-urlencoded", .Form), ("multipart/form-data", .FormMultipart),
   ("application/x-yaml", .YAML), ("application/x-protobuf", .ProtoBuf),
   ("application/x-msgpack", .MsgPack)]

/-- The primitive kinds of the type-to-schema table of the specification. -/
inductive PrimitiveKind where
  | int | int8 | int16 | uint | uint8 | uint16 | int32 | uint32 | int64 | uint64
  | string | time | float32 | float64 | bool | bytes | file | files
  deriving DecidableEq, Repr

/-- The Go type of a primitive kind: `time` is `time.Time`, `bytes` is `[]byte`, `file` is
`*multipart.FileHeader` and `files` is `[]*multipart.FileHeader`. -/
def PrimitiveKind.goType : PrimitiveKind → GoType
  | .int => .basic .int
  | .int8 => .basic .int8
  | .int16 => .basic .int16
  | .uint => .basic .uint
  | .uint8 => .basic .uint8
  | .uint16 => .basic .uint16
  | .int32 => .basic .int32
  | .uint32 => .basic .uint32
  | .int64 => .basic .int64
  | .uint64 => .basic .uint64
  | .string => .basic .string
  | .time => timeTime
  | .float32 => .basic .float32
  | .float64 => .basic .float64
  | .bool => .basic .bool
  | .bytes => .slice (.basic .uint8)
  | .file => .ptr fileHeader
  | .files => .slice (.ptr fileHeader)

/-- The table of the specification, written out field by field. -/
def tableSchema : PrimitiveKind → Schema
  | .int | .int8 | .int16 => { emptySchema with Type_ := "integer" }
  | .uint | .uint8 | .uint16 => { emptySchema with Type_ := "integer", Min := some 0 }
  | .int32 => { emptySchema with Type_ := "integer", Format := "int32" }
  | .uint32 => { emptySchema with Type_ := "integer", Format := "int32", Min := some 0 }
  | .int64 => { emptySchema with Type_ := "integer", Format := "int64" }
  | .uint64 => { emptySchema with Type_ := "integer", Format := "int64", Min := some 0 }
  | .string => { emptySchema with Type_ := "string" }
  | .time => { emptySchema with Type_ := "string", Format := "date-time" }
  | .float32 | .float64 => { emptySchema with Type_ := "number" }
  | .bool => { emptySchema with Type_ := "boolean" }
  | .bytes => { emptySchema with Type_ := "string", Format := "byte" }
  | .file => { emptySchema with Type_ := "string", Format := "binary" }
  | .files =>
    { emptySchema with
      Type_ := "array",
      Items := some { emptySchema with Type_ := "string", Format := "binary" } }

/-- The tag holds the comma-separated parts of `value`: the first part as `Name`, the later
parts as `Options`. -/
def Tag.splitsValue (t : Tag) (value : List Char) : Prop :=
  splitChars ',' value = t.Name.data :: t.Options.map String.data

/-- The `json` name under which a field appears in a schema: the primary value of its
`json` tag, unless the field has no `json` tag or the name is `-`. -/
def jsonName (f : StructField) : Option String :=
  match parseFieldTag f.Tag with
  | .ok tags =>
    match tagsGet tags "json" with
    | some tag => if tag.Name = "-" then none else some tag.Name
    | none => none
  | .error _ => none

/-- The `json` name of a field whose `binding` tag has the primary value `required`. -/
def requiredName (f : StructField) : Option String :=
  match parseFieldTag f.Tag with
  | .ok tags =>
    match tagsGet tags "binding" with
    | some b => if b.Name = "required" then jsonName f else none
    | none => none
  | .error _ => none

/-- The location and name of the parameter that a field of a part yields: present when the
field carries the source tag `param` of the part. -/
def sourceParam (param : String) (f : StructField) : Option (String × String) :=
  match parseFieldTag f.Tag with
  | .ok tags => (tagsGet tags param).map (fun t => (paramIn param, t.Name))
  | .error _ => none

/-- The fields of the type of a struct value. -/
def structFields (v : GoValue) : List StructField :=
  match v with
  | .struct t _ =>
    match t.underlying with
    | .struct fields => fields
    | _ => []
  | _ => []

/-- A struct value of a struct type, with one value per field. -/
def IsStructValue (v : GoValue) : Prop :=
  ∃ t vals fields, v = .struct t vals ∧ t.underlying = .struct fields ∧
    vals.length = fields.length

/-- The locations and names of the parameters of one part of a model, in field order. -/
def expectedPart (model : GoValue) (name param : String) : List (String × String) :=
  match FieldByName (some model) name with
  | .ok (some part) => (structFields part).filterMap (sourceParam param)
  | _ => []

/-- The locations and names of the parameters of a model: the parts in the order `URI`,
`Query`, `Cookie`, `Header`. -/
def expectedParameters (model : GoValue) : List (String × String) :=
  expectedPart model "URI" "uri" ++ expectedPart model "Query" "query" ++
    expectedPart model "Cookie" "cookie" ++ expectedPart model "Header" "header"

/-- The step of `getParametersByModel` for one part (lines 471-474, 475-478, 479-482,
483-486), on the dereferenced model `value_`. -/
def partParameters (fuel : Nat) (value_ : Option GoValue) (name param : String)
    (parameters : List Parameter) : Except Fault (List Parameter) := do
  match ← FieldByName value_ name with
  | none => pure parameters
  | some field => pure (parameters ++ (← getParamTypeByModel fuel field.Interface param))

/-- Registration of one security requirement in the security-scheme table. -/
def registerScheme (schemes : List (String × String)) (s : ISecurity) : List (String × String) :=
  dictSet schemes s.Provider s.Scheme

/-- The security requirements of the routes that are not excluded, in iteration order. -/
def documentedSecurities (Routers : List (String × List (String × Router))) : List ISecurity :=
  Routers.flatMap (fun pm =>
    pm.2.flatMap (fun mr => if mr.2.Exclude then [] else mr.2.Securities))

/-- The methods that have a slot in a path item. -/
def standardMethods : List String :=
  ["GET", "POST", "DELETE", "PUT", "PATCH", "HEAD", "OPTIONS", "CONNECT", "TRACE"]

/-- Some route of the path is registered under a standard method and is not excluded. -/
def documented (ms : List (String × Router)) : Bool :=
  ms.any (fun mr => decide (mr.1 ∈ standardMethods) && !mr.2.Exclude)

/-- The operation that the document holds for a registered path and a method: the slot of
the method in the item under the rewritten path. -/
def docSlot (doc : T) (path method : String) : Option Operation :=
  (dictGet doc.Paths (fixPath path)).bind (fun item => item.slot method)


/-- The handler of a chain entry: entries of another dynamic type than `gin.HandlerFunc`
have none. -/
def chainHandler : ChainEntry → Option Nat
  | .handlerFunc f => some f
  | .other => none

/-- The registry states that a program can reach: the empty registry of `swagin.New` and
every state that a call of `Handle` makes from a reachable one. -/
inductive Registry.Reachable : Registry → Prop
  | new (store : Nat → Router) : Registry.Reachable (Registry.New store)
  | handle (g : Registry) (path method : String) (r : Nat) :
    Registry.Reachable g → Registry.Reachable (g.Handle path method r)

/-- The address `r` is registered under the path and the method. -/
def Registry.Registered (g : Registry) (path method : String) (r : Nat) : Prop :=
  ∃ ms, (path, ms) ∈ g.Routers ∧ (method, r) ∈ ms

/-- The keys of a registry are distinct, at both levels. -/
def Registry.KeysDistinct (g : Registry) : Prop :=
  (g.Routers.map Prod.fst).Nodup ∧ ∀ pm ∈ g.Routers, (pm.2.map Prod.fst).Nodup

/-- The program stops with a fault instead of returning a value. -/
def faults {α : Type} (r : Except Fault α) : Bool :=
  match r with
  | .error _ => true
  | .ok _ => false

/-- A struct value, with one value per field, whose type has a field with a tag that
`structtag.Parse` rejects. -/
def HasMalformedTag (v : GoValue) : Prop :=
  IsStructValue v ∧ ∃ f ∈ structFields v, structtagParse f.Tag = none

/-- A struct value, with one value per field, whose type has an exported field with a tag
that `structtag.Parse` rejects. -/
def HasMalformedExportedTag (v : GoValue) : Prop :=
  IsStructValue v ∧ ∃ f ∈ structFields v, f.IsExported = true ∧ structtagParse f.Tag = none

/-- The value whose schema the response field loop derives (lines 246-251): a pointer is
followed, a nil pointer replaced by the zero value of its element type. -/
def fieldTarget (v : GoValue) : GoValue :=
  match v with
  | .pointer t none => zeroValue (derefType t)
  | .pointer _ (some x) => x
  | v => v

/-- The derivation of the operation of a route meets a malformed tag at a field of the
`Body` part, of one of the four parameter parts, or of a response model. -/
def RouteMeetsMalformedTag (r : Router) : Prop :=
  (∃ body, FieldByName r.Model "Body" = .ok (some body) ∧ HasMalformedTag body) ∨
  (∃ t vals name part, r.Model = some (.struct t vals) ∧
    name ∈ ["URI", "Query", "Cookie", "Header"] ∧
    FieldByName (some (.struct t vals)) name = .ok (some part) ∧ HasMalformedTag part) ∨
  (∃ k item v, (k, item) ∈ r.Response ∧ item.Model = some v ∧ HasMalformedExportedTag v)
/-! ## Example models -/

/-- The model `struct { Id string }` with the raw tag
`json:"id" query:"id" rule:"regexp=^\\d+$"`, whose `rule` value is `regexp=^\d+$`. -/
def patternModel : GoType :=
  .struct [.mk "Id" "json:\"id\" query:\"id\" rule:\"regexp=^\\\\d+$\"" (.basic .string) ""]

/-- The `Pattern` of the property `key` of a derived schema. -/
def patternOf (r : Except Fault Schema) (key : String) : Except Fault (Option String) :=
  r.map (fun s => (dictGet s.Properties key).map (fun p => p.Pattern))

/-- A model `struct { Body struct { Name string } }` with the tag `json:"name"`. -/
def bodyModel : GoType :=
  .struct [.mk "Body" "" (.struct [.mk "Name" "json:\"name\"" (.basic .string) ""]) ""]

/-- A route with the model `bodyModel`, as `router.New` builds it. -/
def bodyRoute : Router :=
  { NewX 1 with Model := some (zeroValue bodyModel), Handlers := [.handlerFunc 0] }

/-- The schema of the `Body` part of `bodyModel`. -/
def bodySchema : Schema :=
  { NewObjectSchema with Properties := [("name", NewStringSchema)] }

/-- The operation derived for `bodyRoute`. -/
def bodyOperation : Operation :=
  { Tags := [], OperationID := "", Summary := "", Description := "", Deprecated := false,
    Responses := NewResponses, Parameters := [], Security := [],
    RequestBody := some { Required := true, Content := some [(MIMEJSON, bodySchema)] } }

/-- The part `struct { Id string; Code string }` with the raw tags
`query:"id" rule:"nonzero"` and `query:"code" rule:"regexp=^a$,nonzero"`. -/
def nonzeroModel : GoType :=
  .struct [
    .mk "Id" "query:\"id\" rule:\"nonzero\"" (.basic .string) "",
    .mk "Code" "query:\"code\" rule:\"regexp=^a$,nonzero\"" (.basic .string) ""]

/-- A registry with the single route `GET /ping`, built by `NewX`. -/
def pingSwagger : Swagger :=
  { Swagger.New "t" "d" "v" with Routers := [("/ping", [("GET", NewX 1)])] }

/-- Type, format and number of properties of a schema. -/
def schemaShape (s : Schema) : String × String × Nat :=
  (s.Type_, s.Format, s.Properties.length)

/-- The shapes of the properties of a derived schema. -/
def propertyShapes (r : Except Fault Schema) : Except Fault (List (String × String × String × Nat)) :=
  r.map (fun s => s.Properties.map (fun p => (p.1, schemaShape p.2)))

/-- The shape of the `Items` of a derived schema, with the type of the schema itself. -/
def itemsShape (r : Except Fault Schema) : Except Fault (String × Option (String × String × Nat)) :=
  r.map (fun s => (s.Type_, s.Items.map schemaShape))

/-- The model `struct { A *time.Time; B time.Time; C *[]byte; D []byte; E *string; F string }`,
each field with a `json` tag. -/
def pointerModel : GoType :=
  .struct [
    .mk "A" "json:\"a\"" (.ptr timeTime) "",
    .mk "B" "json:\"b\"" timeTime "",
    .mk "C" "json:\"c\"" (.ptr (.slice (.basic .uint8))) "",
    .mk "D" "json:\"d\"" (.slice (.basic .uint8)) "",
    .mk "E" "json:\"e\"" (.ptr (.basic .string)) "",
    .mk "F" "json:\"f\"" (.basic .string) ""]

/-- A binder environment over parts held as name-value lists: map decoding stores the map,
codecs succeed, re-decoding returns its target. -/
def listLibraries : Libraries (List (String × String)) Unit (Parts (List (String × String)) Unit) :=
  { decodeMap := fun _ m _ => .ok m,
    codec := fun _ _ _ => .ok (),
    remap := fun _ v => .ok v,
    validate := fun _ => .ok (),
    copy := fun _ => .ok () }

/-- The zero model of `struct { Cookie struct { Session string } }`. -/
def cookieModel : Parts (List (String × String)) Unit :=
  { Header := none, Query := none, Body := none, URI := none, Cookie := some [], Rest := () }

/-- A `GET` request that carries the cookie `Session=abc`. -/
def cookieRequest : Request :=
  { Method := "GET", Header := [("Cookie", ["Session=abc"])], Query := [],
    Cookies := [("Session", "abc")], Params := [], Body := "" }

/-- A `POST` request with the header `Content-Type: application/json; charset=utf-8`. -/
def charsetRequest : Request :=
  { Method := "POST", Header := [("Content-Type", ["application/json; charset=utf-8"])],
    Query := [], Cookies := [], Params := [], Body := "\x7b\x7d" }

/-- A registry in which `GET /ping` is excluded and `POST /body` is documented. -/
def excludedSwagger : Swagger :=
  { Swagger.New "t" "d" "v" with
    Routers := [("/ping", [("GET", { NewX 1 with Exclude := true })]),
                ("/body", [("POST", bodyRoute)])] }

/-- The document built from `excludedSwagger`. -/
def excludedDoc : T :=
  { OpenAPI := "3.0.0",
    Info := { Title := "t", Description := "d", TermsOfService := "", Contact := none,
              License := none, Version := "v" },
    Servers := [],
    SecuritySchemes := [],
    Paths := [("/body", { emptyPathItem with Post := some bodyOperation })] }

/-- `excludedSwagger` after `BuildOpenAPI`. -/
def excludedBuilt : Swagger :=
  { excludedSwagger with OpenAPI := some excludedDoc }

/-- A request whose header map holds `X-Foo: a` and `X-Foo: b`. -/
def repeatedHeader : List (String × List String) :=
  [("X-Foo", ["a", "b"])]

/-- The field `N int` with the raw tag `json:"n" default:"a,b" example:"x,y"`. -/
def commaField : StructField :=
  .mk "N" "json:\"n\" default:\"a,b\" example:\"x,y\"" (.basic .int) ""

/-- The parsed tags of `commaField`. -/
def commaTags : List Tag :=
  [⟨"json", "n", []⟩, ⟨"default", "a", ["b"]⟩, ⟨"example", "x", ["y"]⟩]

/-- The request schema of `struct { N int }` with the tags of `commaField`. -/
def commaSchema : Schema :=
  { NewObjectSchema with
    Properties := [("n", { NewIntegerSchema with Default := some "a", Example := some "x" })] }

/-- The field `T time.Time` with the raw tag `json:"t" query:"t" format:"x"`. -/
def formatField : StructField :=
  .mk "T" "json:\"t\" query:\"t\" format:\"x\"" timeTime ""

/-- The parsed tags of `formatField`. -/
def formatTags : List Tag :=
  [⟨"json", "t", []⟩, ⟨"query", "t", []⟩, ⟨"format", "x", []⟩]

/-- The request schema of `struct { T time.Time }` with the tags of `formatField`. -/
def formatSchema : Schema :=
  { NewObjectSchema with Properties := [("t", { NewDateTimeSchema with Format := "x" })] }

/-- The field `T time.Time` with the raw tag `json:"t" query:"t" format:"a,b"`. -/
def commaFormatField : StructField :=
  .mk "T" "json:\"t\" query:\"t\" format:\"a,b\"" timeTime ""

/-- The fields `Id string`, `Skip string`, `Note string`, `Age int` with the raw tags
`json:"id" binding:"required"`, `json:"-"`, `description:"x" binding:"required"` and
`json:"age" binding:"-"`. -/
def keysFields : List StructField :=
  [.mk "Id" "json:\"id\" binding:\"required\"" (.basic .string) "",
   .mk "Skip" "json:\"-\"" (.basic .string) "",
   .mk "Note" "description:\"x\" binding:\"required\"" (.basic .string) "",
   .mk "Age" "json:\"age\" binding:\"-\"" (.basic .int) ""]

/-- The request schema of the struct with the fields `keysFields`. -/
def keysSchema : Schema :=
  { NewObjectSchema with
    Required := ["id"],
    Properties := [("id", NewStringSchema), ("age", NewIntegerSchema)] }

/-- The fields of a model with the parts `URI` (fields `Id` tagged `uri:"id"` and `Note`
without a source tag), `Query` (field `Q` tagged `query:"q"`) and `Header` (field `H` tagged
`header:"X-Foo"`), and a `Body`. -/
def partsFields : List StructField :=
  [.mk "Header" "" (.struct [.mk "H" "header:\"X-Foo\"" (.basic .string) ""]) "",
   .mk "Query" "" (.struct [.mk "Q" "query:\"q\"" (.basic .string) ""]) "",
   .mk "Body" "" (.struct [.mk "Name" "json:\"name\"" (.basic .string) ""]) "",
   .mk "URI" "" (.struct [.mk "Id" "uri:\"id\"" (.basic .string) "",
                          .mk "Note" "json:\"note\"" (.basic .string) ""]) ""]

/-- A string parameter without metadata. -/
def stringParameter (loc name : String) : Parameter :=
  { emptyParameter with Name := name, In := loc, Schema := some NewStringSchema }

/-- The parameters derived for the model with the fields `partsFields`. -/
def partsParameters : List Parameter :=
  [stringParameter "path" "id", stringParameter "query" "q", stringParameter "header" "X-Foo"]

/-- A route with an empty struct model and the given security requirements. -/
def securedRoute (securities : List ISecurity) : Router :=
  { NewX 1 with Model := some (zeroValue (.struct [])), Securities := securities }

/-- A registry in which `/a` and `/b` register the provider `BasicAuth` one after the other,
`/b` also `BearerAuth`, and the excluded `/c` the provider `ApiKeyAuth`. -/
def securitySwagger : Swagger :=
  { Swagger.New "t" "d" "v" with
    Routers :=
      [("/a", [("GET", securedRoute [⟨"BasicAuth", "first", 10⟩])]),
       ("/b", [("GET", securedRoute [⟨"BasicAuth", "second", 11⟩, ⟨"BearerAuth", "third", 12⟩])]),
       ("/c", [("GET", { securedRoute [⟨"ApiKeyAuth", "fourth", 13⟩] with Exclude := true })])] }

/-- The operation of a route without parameters, with the given providers. -/
def securedOperation (providers : List String) : Operation :=
  { Tags := [], OperationID := "", Summary := "", Description := "", Deprecated := false,
    Responses := NewResponses, Parameters := [], Security := providers, RequestBody := none }

/-- The document built from `securitySwagger`. -/
def securityDoc : T :=
  { OpenAPI := "3.0.0",
    Info := { Title := "t", Description := "d", TermsOfService := "", Contact := none,
              License := none, Version := "v" },
    Servers := [],
    SecuritySchemes := [("BasicAuth", "second"), ("BearerAuth", "third")],
    Paths :=
      [("/a", { emptyPathItem with Get := some (securedOperation ["BasicAuth"]) }),
       ("/b", { emptyPathItem with
                Get := some (securedOperation ["BasicAuth", "BearerAuth"]) })] }

/-- `securitySwagger` after `BuildOpenAPI`. -/
def securityBuilt : Swagger :=
  { securitySwagger with OpenAPI := some securityDoc }

/-- A registry in which the registered paths `/a/:id` (with a `GET` route) and `/a/{id}`
(with a `POST` route) rewrite to the same key, iterated in this order. -/
def collisionSwagger : Swagger :=
  { Swagger.New "t" "d" "v" with
    Routers := [("/a/:id", [("GET", securedRoute [])]),
                ("/a/\x7bid\x7d", [("POST", securedRoute [])])] }

/-- The registry of `collisionSwagger`, iterated in the opposite order. -/
def collisionSwaggerRev : Swagger :=
  { Swagger.New "t" "d" "v" with
    Routers := [("/a/\x7bid\x7d", [("POST", securedRoute [])]),
                ("/a/:id", [("GET", securedRoute [])])] }

/-- The keys of a built document and whether it holds the operations `GET /a/:id` and
`POST /a/{id}`. -/
def collisionView (built : Except Fault Swagger) :
    Except Fault (Option (List String × Bool × Bool)) :=
  built.map (fun s => s.OpenAPI.map (fun d =>
    (d.Paths.map Prod.fst, (docSlot d "/a/:id" "GET").isSome,
      (docSlot d "/a/\x7bid\x7d" "POST").isSome)))

/-- A registry with exactly the routes `GET /ping` and `POST /ping`. -/
def pingPostSwagger : Swagger :=
  { Swagger.New "t" "d" "v" with
    Routers := [("/ping", [("GET", securedRoute []), ("POST", securedRoute [])])] }

/-- The document built from `pingPostSwagger`. -/
def pingPostDoc : T :=
  { OpenAPI := "3.0.0",
    Info := { Title := "t", Description := "d", TermsOfService := "", Contact := none,
              License := none, Version := "v" },
    Servers := [],
    SecuritySchemes := [],
    Paths := [("/ping", { emptyPathItem with
                          Get := some (securedOperation []),
                          Post := some (securedOperation []) })] }

/-- `pingPostSwagger` after `BuildOpenAPI`. -/
def pingPostBuilt : Swagger :=
  { pingPostSwagger with OpenAPI := some pingPostDoc }


/-- A route with the security requirements `basic` and `bearer`, whose chain holds the
binder (handler 0) and one more handler (handler 5), and whose own handler is handler 1. -/
def securedChainRoute : Router :=
  { NewX 1 with
    Securities := [{ Provider := "basic", Scheme := "BasicAuth", Authorize := 11 },
                   { Provider := "bearer", Scheme := "BearerAuth", Authorize := 12 }],
    Handlers := [.handlerFunc 0, .handlerFunc 5] }

/-- A store in which every address holds a descriptor fresh from `NewX`. -/
def freshStore : Nat → Router :=
  fun a => NewX a

/-- The registry after `Handle("/ping", "GET", 7)` and `Handle("/ping", "POST", 8)`. -/
def pingRegistry : Registry :=
  ((Registry.New freshStore).Handle "/ping" "GET" 7).Handle "/ping" "POST" 8

/-- A root application with the route `GET /ping` and no mounted application. -/
def rootApp : SwaGin :=
  { Engine := 1, Swagger := some (Swagger.New "root" "d" "v"),
    Routers := [("/ping", [("GET", NewX 1)])], subApps := [], rootPath := "",
    ErrorHandler := some 3 }

/-- An application with the route `GET /users/:id`, one declared server and no error
handler, not mounted yet. -/
def subApp : SwaGin :=
  { Engine := 2,
    Swagger := some { Swagger.New "sub" "d" "v" with Servers := ["https://example.org"] },
    Routers := [("/users/:id", [("GET", NewX 2)])], subApps := [], rootPath := "",
    ErrorHandler := none }

/-- A binder environment for the model `struct { Name string }` with the tag
`validate:"required"`, whose field is held in `Rest`: map decoding stores the map, codecs
succeed, and `validate.Struct` rejects an empty `Name`, which is what the `required` rule
of the validation library answers for a zero value. -/
def requiredLibraries :
    Libraries (List (String × String)) Unit
      (Parts (List (String × String)) (List (String × String))) :=
  { decodeMap := fun _ m _ => .ok m,
    codec := fun _ _ _ => .ok (),
    remap := fun _ v => .ok v,
    validate := fun m =>
      if dictGet m.Rest "Name" = some "" then .error "Name: failed on the required tag"
      else .ok (),
    copy := fun _ => .ok () }

/-- The zero model of `struct { Name string }`: no recognized part, `Name` empty. -/
def requiredModel : Parts (List (String × String)) (List (String × String)) :=
  { Header := none, Query := none, Body := none, URI := none, Cookie := none,
    Rest := [("Name", "")] }

/-- A `GET` request without headers, query, cookies or body. -/
def plainRequest : Request :=
  { Method := "GET", Header := [], Query := [], Cookies := [], Params := [], Body := "" }

/-- The zero model of a struct without fields. -/
def emptyModel : Parts (List (String × String)) Unit :=
  { Header := none, Query := none, Body := none, URI := none, Cookie := none, Rest := () }

/-- A binder environment whose codecs return the request body under the key `body` and
whose re-decoding stores the output of the codec, or the part itself when no codec ran. -/
def decodingLibraries :
    Libraries (List (String × String)) (List (String × String))
      (Parts (List (String × String)) Unit) :=
  { decodeMap := fun _ m _ => .ok m,
    codec := fun _ req _ => .ok [("body", req.Body)],
    remap := fun d v =>
      match d with
      | .inl x => .ok x
      | .inr _ => .ok v,
    validate := fun _ => .ok (),
    copy := fun _ => .ok () }

/-- A request of the given method with the header `Content-Type: application/json` and the
body `{}`. -/
def jsonRequest (method : String) : Request :=
  { Method := method, Header := [("Content-Type", ["application/json"])], Query := [],
    Cookies := [], Params := [], Body := "\x7b\x7d" }

/-- The zero model of `struct { Body struct { Name string } }`. -/
def bodyPartModel : Parts (List (String × String)) Unit :=
  { Header := none, Query := none, Body := some [], URI := none, Cookie := none, Rest := () }

/-- The part `struct { Name string }` with the raw tag `json:name`, whose value lacks the
quotes. -/
def malformedModel : GoType :=
  .struct [.mk "Name" "json:name" (.basic .string) ""]

/-- A route whose model `struct { Body struct { Name string } }` has the part
`malformedModel`. -/
def malformedRoute : Router :=
  { NewX 1 with
    Model := some (zeroValue (.struct [.mk "Body" "" malformedModel ""])),
    Handlers := [.handlerFunc 0] }

/-- A registry with the route `POST /body` and the route `POST /bad` of `malformedRoute`. -/
def malformedSwagger : Swagger :=
  { Swagger.New "t" "d" "v" with
    Routers := [("/body", [("POST", bodyRoute)]), ("/bad", [("POST", malformedRoute)])] }

/-- The route of `bodyRoute` with the request content type `multipart/form-data`. -/
def uploadRoute : Router :=
  { bodyRoute with RequestContentType := "multipart/form-data" }

/-- A registry with the single route `POST /upload` of `uploadRoute`. -/
def uploadSwagger : Swagger :=
  { Swagger.New "t" "d" "v" with Routers := [("/upload", [("POST", uploadRoute)])] }

/-- The same registry with the request content type left empty. -/
def jsonUploadSwagger : Swagger :=
  { Swagger.New "t" "d" "v" with Routers := [("/upload", [("POST", bodyRoute)])] }

/-- The `Body` part of `bodyModel`: `struct { Name string }` with the tag `json:"name"`. -/
def bodyPart : GoValue :=
  zeroValue (.struct [.mk "Name" "json:\"name\"" (.basic .string) ""])

/-- The content of a request body: its media types with the shape of their schemas. -/
def contentShape (b : RequestBody) : Option (List (String × String × String × Nat)) :=
  b.Content.map (fun c => c.map (fun e => (e.1, schemaShape e.2)))

/-- The part `struct { Id string; Code string; Name string }` with the raw tags
`json:"id" rule:"nonzero"`, `json:"code" rule:"regexp=^a$,nonzero"` and
`json:"name" binding:"required"`. -/
def markerModel : GoType :=
  .struct [
    .mk "Id" "json:\"id\" rule:\"nonzero\"" (.basic .string) "",
    .mk "Code" "json:\"code\" rule:\"regexp=^a$,nonzero\"" (.basic .string) "",
    .mk "Name" "json:\"name\" binding:\"required\"" (.basic .string) ""]

/-- The `Required` list of a derived schema with the `Required` list of each property. -/
def requiredShape (r : Except Fault Schema) :
    Except Fault (List String × List (String × List String)) :=
  r.map (fun s => (s.Required, s.Properties.map (fun p => (p.1, p.2.Required))))

/-- The defined type `type Status string`. -/
def statusType : GoType :=
  .named "Status" (.basic .string)

/-- The model `struct { S Status }` with the tag `json:"s"`. -/
def statusModel : GoType :=
  .struct [.mk "S" "json:\"s\"" statusType ""]

/-- A response model `new(int)`: a pointer to a scalar. -/
def intPointer : GoValue :=
  .pointer (.ptr (.basic .int)) (some (.plain (.basic .int)))

/-- A registry in which `GET /a/:id` is excluded and `GET /a/{id}` is documented; both paths
rewrite to `/a/{id}`. -/
def shadowSwagger : Swagger :=
  { Swagger.New "t" "d" "v" with
    Routers := [("/a/:id", [("GET", { securedRoute [] with Exclude := true })]),
                ("/a/\x7bid\x7d", [("GET", securedRoute [])])] }

/-- The registry of `shadowSwagger`, iterated in the opposite order. -/
def shadowSwaggerRev : Swagger :=
  { Swagger.New "t" "d" "v" with
    Routers := [("/a/\x7bid\x7d", [("GET", securedRoute [])]),
                ("/a/:id", [("GET", { securedRoute [] with Exclude := true })])] }

/-- Whether a built document holds an operation in the slot of `GET` under the rewritten
path of `/a/:id`. -/
def shadowSlot (built : Except Fault Swagger) : Except Fault (Option Bool) :=
  built.map (fun s => s.OpenAPI.map (fun d => (docSlot d "/a/:id" "GET").isSome))

/-- The keys of the paths of a built document. -/
def pathKeys (built : Except Fault Swagger) : Except Fault (Option (List String)) :=
  built.map (fun s => s.OpenAPI.map (fun d => d.Paths.map Prod.fst))

/-- The model `struct { Éa string }` with the tag `json:"e"`: a field whose exported name
starts with an upper-case letter outside ASCII. -/
def accentModel : GoType :=
  .struct [.mk "Éa" "json:\"e\"" (.basic .string) ""]
/-! # Theorems -/

/-- C1 (defect): the raw tag `rule:"regexp=^\\d+$"` parses to the primary value
`regexp=^\d+$`, and the schema derived for the field by `getRequestSchemaByModel`, by
`getResponseSchemaByModel` and by `getParamTypeByModel` has an empty `Pattern`. -/
theorem C1_primary_regexp_pattern_lost :
    structtagParse "json:\"id\" query:\"id\" rule:\"regexp=^\\\\d+$\"" =
      some (some [⟨"json", "id", []⟩, ⟨"query", "id", []⟩, ⟨"rule", "regexp=^\\d+$", []⟩]) ∧
    patternOf (getRequestSchemaByModel 2 (some (zeroValue patternModel))) "id" = .ok (some "") ∧
    patternOf (getResponseSchemaByModel 2 (some (zeroValue patternModel))) "id" = .ok (some "") ∧
    (getParamTypeByModel 2 (some (zeroValue patternModel)) "query").map
      (fun ps => ps.map (fun p => (p.Name, p.Schema.map (fun s => s.Pattern)))) =
      .ok [("id", some "")] := by
  decide

/-- C2 (defect): a field tagged `query:"id" rule:"nonzero"` yields a parameter with
`Required = false`, while `rule:"regexp=^a$,nonzero"` yields `Required = true`. -/
theorem C2_primary_nonzero_not_required :
    (getParamTypeByModel 2 (some (zeroValue nonzeroModel)) "query").map
      (fun ps => ps.map (fun p => (p.Name, p.In, p.Required))) =
      .ok [("id", "query", false), ("code", "query", true)] := by
  decide

/-- `hasSchemaBody` on a body whose content is keyed by `application/json`. -/
theorem hasSchemaBody_json (schema : Schema) (req : Bool) (b : Bool)
    (h : hasSchemaBody { Required := req, Content := some [(MIMEJSON, schema)] } = .ok b) :
    b = true ↔
      (schema.Type_ = "object" ∧ schema.Properties ≠ []) ∨
      (schema.Type_ = "array" ∧ ∃ items, schema.Items = some items ∧ items.Properties ≠ []) := by
  simp only [hasSchemaBody, dictGet, List.find?, decide_True, Option.map] at h
  by_cases hobj : schema.Type_ = "object"
  · have hne : schema.Type_ ≠ "array" := by rw [hobj]; decide
    simp only [hobj, if_true, Except.ok.injEq] at h
    subst h
    cases hp : schema.Properties <;> simp [hobj]
  · by_cases harr : schema.Type_ = "array"
    · have hne : ¬ ("array" : String) = "object" := by decide
      simp only [harr, hne, if_false, if_true] at h
      cases hi : schema.Items with
      | none => simp [hi] at h
      | some items =>
        simp only [hi, Except.ok.injEq] at h
        subst h
        cases hp : items.Properties <;> simp [hobj, harr, hi, hp]
    · simp only [hobj, harr, if_false, Except.ok.injEq] at h
      subst h
      simp [hobj, harr]

/-- C3: for a route whose model has a `Body` part and whose request content type is empty or
`application/json`, the operation derived by `getPaths` carries a request body if and only if
the schema derived from the `Body` is an object with at least one property or an array whose
item schema has at least one property; the body then holds exactly that schema. -/
theorem C3_requestBody_iff (fuel : Nat) (schemes : List (String × String)) (r : Router)
    (res : List (String × String) × Operation) (body : GoValue) (schema : Schema)
    (hct : r.RequestContentType = "" ∨ r.RequestContentType = MIMEJSON)
    (hbody : FieldByName r.Model "Body" = .ok (some body))
    (hschema : getRequestSchemaByModel fuel body.Interface = .ok schema)
    (hop : routeOperation fuel schemes r = .ok res) :
    (res.2.RequestBody.isSome ↔
      (schema.Type_ = "object" ∧ schema.Properties ≠ []) ∨
      (schema.Type_ = "array" ∧ ∃ items, schema.Items = some items ∧ items.Properties ≠ [])) ∧
    (∀ rb, res.2.RequestBody = some rb →
      rb = { Required := true, Content := some [(MIMEJSON, schema)] }) := by
  have hmodel : ∃ v, body.Interface = some v := by
    cases hb : body.Interface with
    | none => rw [hb] at hschema; cases fuel <;> simp [getRequestSchemaByModel] at hschema
    | some v => exact ⟨v, rfl⟩
  obtain ⟨v, hv⟩ := hmodel
  have hrb : getRequestBodyByModel fuel body.Interface r.RequestContentType =
      .ok { Required := true, Content := some [(MIMEJSON, schema)] } := by
    rw [hv] at hschema
    simp only [getRequestBodyByModel, hv, hschema, bind, Except.bind, pure, Except.pure]
    rcases hct with h | h <;> simp [h, MIMEJSON]
  unfold routeOperation at hop
  simp only [bind, Except.bind, hbody, hrb, pure, Except.pure] at hop
  cases hresp : getResponses fuel r.Response r.ResponseContentType with
  | error e => simp [hresp] at hop
  | ok responses =>
    cases hpar : getParametersByModel fuel r.Model with
    | error e => simp [hresp, hpar] at hop
    | ok parameters =>
      simp only [hresp, hpar] at hop
      cases hhas : hasSchemaBody { Required := true, Content := some [(MIMEJSON, schema)] } with
      | error e => simp [hhas] at hop
      | ok b =>
        have hiff := hasSchemaBody_json schema true b hhas
        simp only [hhas] at hop
        cases b with
        | true =>
          simp only [if_true, Except.ok.injEq] at hop
          subst hop
          simp only [Option.isSome_some, true_iff]
          exact ⟨hiff.mp rfl, fun rb h => by simpa using h.symm⟩
        | false =>
          simp only [Bool.false_eq_true, if_false, Except.ok.injEq] at hop
          subst hop
          simp only [Option.isSome_none, Bool.false_eq_true, false_iff]
          exact ⟨fun h => by simpa using hiff.mpr h, fun rb h => by simp at h⟩

/-- Witness for C3: the route `bodyRoute`, whose `Body` derives an object
with the property `name`, gets a request body. -/
theorem C3_requestBody_iff_witness :
    routeOperation 3 [] bodyRoute = .ok ([], bodyOperation) ∧
    ((bodyOperation.RequestBody.isSome ↔
      (bodySchema.Type_ = "object" ∧ bodySchema.Properties ≠ []) ∨
      (bodySchema.Type_ = "array" ∧
        ∃ items, bodySchema.Items = some items ∧ items.Properties ≠ [])) ∧
    (∀ rb, bodyOperation.RequestBody = some rb →
      rb = { Required := true, Content := some [(MIMEJSON, bodySchema)] })) :=
  ⟨rfl, C3_requestBody_iff 3 [] bodyRoute ([], bodyOperation)
    (zeroValue (.struct [.mk "Name" "json:\"name\"" (.basic .string) ""])) bodySchema
    (Or.inl rfl) rfl rfl rfl⟩

/-- C4 (defect): with the single route `GET /ping` built by `NewX` (no model),
`BuildOpenAPI` panics in `reflect.ValueOf(model).FieldByName("Body")`, whatever the
recursion budget. -/
theorem C4_route_without_model_panics (fuel : Nat) :
    (pingSwagger.BuildOpenAPI fuel).map (fun s => s.OpenAPI.isSome) = .error .reflectPanic :=
  rfl

/-- The binder never writes the `Cookie` part. -/
theorem BindModel_Cookie_unchanged {V D R : Type} (lib : Libraries V D (Parts V R))
    (m m1 : Parts V R) (req : Request) (h : BindModel lib m req = .ok m1) :
    m1.Cookie = m.Cookie := by
  unfold BindModel at h
  simp only [bind, Except.bind, pure, Except.pure] at h
  repeat' split at h
  all_goals first
    | (injection h with h; subst h; rfl)
    | cases h

/-- C5 (defect): for a model with a `Cookie` part and a request carrying the cookie
`Session=abc`, whose `CookiesParser` mapping is `Session ↦ [abc]`, `BindModel` hands on
the model with the `Cookie` part still at its zero value. -/
theorem C5_cookie_part_not_bound :
    cookieParams cookieRequest.Cookies = [("Session", ["abc"])] ∧
    (BindModel listLibraries cookieModel cookieRequest).map (fun m => m.Cookie) =
      .ok (some []) := by
  decide

/-- C6 (defect): in `getRequestSchemaByModel` a field of type `*time.Time` derives an object
schema without properties and a field of type `*[]byte` an array of integers, while
`time.Time` derives the date-time string schema and `[]byte` the byte string schema;
`getResponseSchemaByModel` derives the same schema for both members of each pair. -/
theorem C6_pointer_field_schema_differs :
    propertyShapes (getRequestSchemaByModel 5 (some (zeroValue pointerModel))) =
      .ok [("a", "object", "", 0), ("b", "string", "date-time", 0),
           ("c", "array", "", 0), ("d", "string", "byte", 0),
           ("e", "string", "", 0), ("f", "string", "", 0)] ∧
    propertyShapes (getResponseSchemaByModel 5 (some (zeroValue pointerModel))) =
      .ok [("a", "string", "date-time", 0), ("b", "string", "date-time", 0),
           ("c", "string", "byte", 0), ("d", "string", "byte", 0),
           ("e", "string", "", 0), ("f", "string", "", 0)] := by
  decide

/-- C7 (defect): the schema derived for `[]time.Time`, in both directions, is an array whose
items are an object without properties, and for `map[string]time.Time` an object with such
items, while `getSchemaByType` derives the date-time string schema for `time.Time`. -/
theorem C7_slice_of_time_items_differ :
    itemsShape (getRequestSchemaByModel 3 (some (zeroValue (.slice timeTime)))) =
      .ok ("array", some ("object", "", 0)) ∧
    itemsShape (getResponseSchemaByModel 3 (some (zeroValue (.slice timeTime)))) =
      .ok ("array", some ("object", "", 0)) ∧
    itemsShape (getRequestSchemaByModel 3 (some (zeroValue (.map (.basic .string) timeTime)))) =
      .ok ("object", some ("object", "", 0)) ∧
    (getSchemaByType 3 (some (zeroValue timeTime)) true).map schemaShape =
      .ok ("string", "date-time", 0) ∧
    (getSchemaByType 3 (some (zeroValue timeTime)) false).map schemaShape =
      .ok ("string", "date-time", 0) ∧
    itemsShape (getRequestSchemaByModel 3 (some (zeroValue (.slice (.basic .string))))) =
      .ok ("array", some ("string", "", 0)) ∧
    itemsShape (getRequestSchemaByModel 3 (some (zeroValue (.slice (.basic .int32))))) =
      .ok ("array", some ("integer", "int32", 0)) := by
  refine ⟨?_, ?_, ?_, ?_, ?_, ?_, ?_⟩ <;> decide

/-- A split always yields at least one segment. -/
theorem splitChars_ne_nil (sep : Char) (l : List Char) : splitChars sep l ≠ [] := by
  cases l with
  | nil => simp [splitChars]
  | cons c cs =>
    simp only [splitChars]
    split
    · simp
    · split <;> simp

/-- Joining a segment in front of a non-empty list puts a slash after it. -/
theorem joinSegments_cons (s : List Char) (rest : List (List Char)) (h : rest ≠ []) :
    joinSegments (s :: rest) = s ++ '/' :: joinSegments rest := by
  cases rest with
  | nil => exact absurd rfl h
  | cons a b => rfl

/-- Joining the segments of a text gives the text back. -/
theorem joinSegments_splitChars (l : List Char) : joinSegments (splitChars '/' l) = l := by
  induction l with
  | nil => rfl
  | cons c cs ih =>
    simp only [splitChars]
    split
    · next h => 
      rw [joinSegments_cons _ _ (splitChars_ne_nil _ _), ih, h]; rfl
    · next h =>
      have hne := splitChars_ne_nil '/' cs
      cases hs : splitChars '/' cs with
      | nil => exact absurd hs hne
      | cons w ws =>
        rw [hs] at ih
        simp only
        cases ws with
        | nil => simp [joinSegments] at ih ⊢; exact ih
        | cons a b =>
          simp only [joinSegments] at ih ⊢
          simp [← ih]

/-- No segment of a split holds the separator. -/
theorem splitChars_no_sep (sep : Char) (l : List Char) :
    ∀ seg ∈ splitChars sep l, sep ∉ seg := by
  induction l with
  | nil => simp [splitChars]
  | cons c cs ih =>
    simp only [splitChars]
    split
    · intro seg hseg
      simp only [List.mem_cons] at hseg
      rcases hseg with h | h
      · subst h; simp
      · exact ih seg h
    · next hc =>
      cases hs : splitChars sep cs with
      | nil => exact absurd hs (splitChars_ne_nil _ _)
      | cons w ws =>
        rw [hs] at ih
        intro seg hseg
        simp only [List.mem_cons] at hseg
        rcases hseg with h | h
        · subst h
          simp only [List.mem_cons, not_or]
          exact ⟨fun h => hc h.symm, ih w (by simp)⟩
        · exact ih seg (by simp [h])

/-- The loop returns the empty text on the empty text. -/
theorem fixPathLoop_nil (n : Nat) : fixPathLoop n [] = [] := by
  cases n <;> rfl

/-- The loop does not depend on its budget once the budget covers the text. -/
theorem fixPathLoop_fuel (n : Nat) : ∀ (m : Nat) (l : List Char), l.length ≤ n → l.length ≤ m →
    fixPathLoop n l = fixPathLoop m l := by
  induction n with
  | zero =>
    intro m l hn _
    have : l = [] := List.length_eq_zero.mp (Nat.le_zero.mp hn)
    subst this
    rw [fixPathLoop_nil, fixPathLoop_nil]
  | succ n ih =>
    intro m l hn hm
    cases l with
    | nil => rw [fixPathLoop_nil, fixPathLoop_nil]
    | cons c cs =>
      cases m with
      | zero => simp at hm
      | succ m =>
        have hcs : cs.length ≤ n := by simpa using hn
        have hcm : cs.length ≤ m := by simpa using hm
        have hd : (cs.dropWhile isWordChar).length ≤ cs.length :=
          (List.dropWhile_sublist _).length_le
        simp only [fixPathLoop]
        rw [ih m cs hcs hcm,
          ih m (cs.dropWhile isWordChar) (le_trans hd hcs) (le_trans hd hcm)]

/-- The loop copies a prefix that holds no colon. -/
theorem fixPathLoop_plain (seg : List Char) (hseg : ':' ∉ seg) (rest : List Char) (n : Nat)
    (hn : (seg ++ rest).length ≤ n) :
    fixPathLoop n (seg ++ rest) = seg ++ fixPathLoop rest.length rest := by
  induction seg generalizing n with
  | nil => exact fixPathLoop_fuel _ _ _ (by simpa using hn) (le_refl _)
  | cons c seg ih =>
    simp only [List.mem_cons, not_or] at hseg
    cases n with
    | zero => simp at hn
    | succ n =>
      have hc : ¬ c = ':' := fun h => hseg.1 h.symm
      simp only [List.cons_append, fixPathLoop, hc, if_false, List.append_eq]
      rw [ih hseg.2 n (by simpa using hn)]

/-- A name that is followed by a slash or by nothing is the longest run of word characters. -/
theorem takeWhile_word_append (name rest : List Char) (hname : ∀ c ∈ name, isWordChar c = true)
    (hrest : rest = [] ∨ ∃ r, rest = '/' :: r) :
    (name ++ rest).takeWhile isWordChar = name ∧ (name ++ rest).dropWhile isWordChar = rest := by
  induction name with
  | nil =>
    rcases hrest with h | ⟨r, h⟩
    · subst h; simp
    · subst h
      have : isWordChar '/' = false := by decide
      simp [List.takeWhile, List.dropWhile, this]
  | cons c name ih =>
    have hc : isWordChar c = true := hname c (by simp)
    have := ih (fun x hx => hname x (by simp [hx]))
    simp [List.takeWhile, List.dropWhile, hc, this.1, this.2]

/-- The loop rewrites a parameter that is followed by a slash or by nothing. -/
theorem fixPathLoop_param (name rest : List Char) (hne : name ≠ [])
    (hname : ∀ c ∈ name, isWordChar c = true) (hrest : rest = [] ∨ ∃ r, rest = '/' :: r)
    (n : Nat) (hn : (':' :: name ++ rest).length ≤ n) :
    fixPathLoop n (':' :: name ++ rest) =
      Char.ofNat 123 :: name ++ Char.ofNat 125 :: fixPathLoop rest.length rest := by
  cases n with
  | zero => simp at hn
  | succ n =>
    obtain ⟨h1, h2⟩ := takeWhile_word_append name rest hname hrest
    have hemp : name.isEmpty = false := by cases name <;> simp_all
    have hr : rest.length ≤ n := by
      simp only [List.cons_append, List.length_cons, List.length_append] at hn
      omega
    simp only [List.cons_append, fixPathLoop, if_true, List.append_eq, h1, h2, hemp,
      Bool.false_eq_true, if_false]
    rw [fixPathLoop_fuel n rest.length rest hr (le_refl _)]

/-- A segment without a colon is kept. -/
theorem rewriteSegment_plain (seg : List Char) (hseg : ':' ∉ seg) : rewriteSegment seg = seg := by
  cases seg with
  | nil => rfl
  | cons c name =>
    simp only [List.mem_cons, not_or] at hseg
    have hc : ¬ c = ':' := fun h => hseg.1 h.symm
    simp [rewriteSegment, hc]

/-- A parameter segment is put in braces. -/
theorem rewriteSegment_param (name : List Char) (hne : name ≠ [])
    (hname : ∀ c ∈ name, isWordChar c = true) :
    rewriteSegment (':' :: name) = Char.ofNat 123 :: name ++ [Char.ofNat 125] := by
  have : name.all isWordChar = true := by simpa using hname
  simp [rewriteSegment, hne, this]

/-- The loop rewrites one leading segment as the specification words it. -/
theorem fixPathLoop_segment (seg rest : List Char) (hok : SegmentOk seg)
    (hrest : rest = [] ∨ ∃ r, rest = '/' :: r) (n : Nat) (hn : (seg ++ rest).length ≤ n) :
    fixPathLoop n (seg ++ rest) = rewriteSegment seg ++ fixPathLoop rest.length rest := by
  rcases hok with ⟨name, rfl, hne, hname⟩ | hplain
  · rw [rewriteSegment_param name hne hname]
    have h := fixPathLoop_param name rest hne hname hrest n (by simpa using hn)
    simp only [List.cons_append] at h ⊢
    rw [h]
    simp
  · rw [rewriteSegment_plain seg hplain]
    exact fixPathLoop_plain seg hplain rest n hn

/-- The loop rewrites a joined list of segments segment by segment. -/
theorem fixPathLoop_join (segs : List (List Char)) (hne : segs ≠ [])
    (hok : ∀ seg ∈ segs, SegmentOk seg) (n : Nat) (hn : (joinSegments segs).length ≤ n) :
    fixPathLoop n (joinSegments segs) = joinSegments (segs.map rewriteSegment) := by
  induction segs generalizing n with
  | nil => exact absurd rfl hne
  | cons s rest ih =>
    cases rest with
    | nil =>
      have h := fixPathLoop_segment s [] (hok s (by simp)) (Or.inl rfl) n (by simpa [joinSegments] using hn)
      simpa [joinSegments, fixPathLoop_nil] using h
    | cons a b =>
      have hj : joinSegments (s :: a :: b) = s ++ '/' :: joinSegments (a :: b) := rfl
      rw [hj] at hn ⊢
      rw [fixPathLoop_segment s _ (hok s (by simp)) (Or.inr ⟨_, rfl⟩) n hn]
      have hrec := ih (by simp) (fun seg h => hok seg (by simp [h]))
        (joinSegments (a :: b)).length (le_refl _)
      have hslash : ¬ ('/' = ':') := by decide
      simp only [List.length_cons, fixPathLoop, hslash, if_false, hrec]
      rfl

/-- The test on a segment establishes the condition on it. -/
theorem segmentOk_sound (seg : List Char) (h : segmentOk seg = true) : SegmentOk seg := by
  unfold segmentOk at h
  rw [Bool.or_eq_true] at h
  rcases h with h | h
  · cases seg with
    | nil => simp at h
    | cons c name =>
      simp only [Bool.and_eq_true, decide_eq_true_eq, Bool.not_eq_true', List.all_eq_true] at h
      obtain ⟨⟨hc, hne⟩, hall⟩ := h
      subst hc
      exact Or.inl ⟨name, rfl, by cases name <;> simp_all, hall⟩
  · exact Or.inr (by simpa using h)

/-- C9: on a path whose segments are parameter segments `:name` or free of colons, `fixPath`
returns the path with every `:name` segment replaced by `{name}` and every other segment
unchanged; a path without a colon is returned unchanged. -/
theorem C9_fixPath_rewrites_parameters (path : String) (h : pathOk path = true) :
    fixPath path = rewritePath path ∧ (':' ∉ path.data → fixPath path = path) := by
  have hok : ∀ seg ∈ splitChars '/' path.data, SegmentOk seg := fun seg hseg =>
    segmentOk_sound seg (List.all_eq_true.mp h seg hseg)
  constructor
  · unfold fixPath rewritePath
    congr 1
    have hj := joinSegments_splitChars path.data
    have := fixPathLoop_join (splitChars '/' path.data) (splitChars_ne_nil _ _) hok path.length
      (by rw [hj]; exact le_refl _)
    rw [hj] at this
    exact this
  · intro hc
    have := fixPathLoop_plain path.data hc [] path.length (by rw [List.append_nil]; exact le_refl _)
    simp only [List.append_nil, fixPathLoop_nil] at this
    unfold fixPath
    rw [this]

/-- Witness for C9: `/users/:id/items/:itemId` becomes
`/users/{id}/items/{itemId}`. -/
theorem C9_fixPath_rewrites_parameters_witness :
    pathOk "/users/:id/items/:itemId" = true ∧
    fixPath "/users/:id/items/:itemId" = "/users/\x7bid\x7d/items/\x7bitemId\x7d" ∧
    rewritePath "/users/:id/items/:itemId" = "/users/\x7bid\x7d/items/\x7bitemId\x7d" :=
  have h := C9_fixPath_rewrites_parameters "/users/:id/items/:itemId" (by decide)
  ⟨by decide, h.1.trans (by decide), by decide⟩

/-- The `switch` of `BindModel` selects a codec exactly on the entries of the table. -/
theorem selectCodec_iff (ct : String) (c : Codec) :
    selectCodec ct = some c ↔ (ct, c) ∈ codecTable := by
  unfold selectCodec codecTable
  by_cases h1 : ct = "multipart/form-data"
  · subst h1; cases c <;> simp
  by_cases h2 : ct = "application/json"
  · subst h2; cases c <;> simp
  by_cases h3 : ct = "application/xml"
  · subst h3; cases c <;> simp
  by_cases h4 : ct = "application/x-www-form-urlencoded"
  · subst h4; cases c <;> simp
  by_cases h5 : ct = "application/x-yaml"
  · subst h5; cases c <;> simp
  by_cases h6 : ct = "application/x-protobuf"
  · subst h6; cases c <;> simp
  by_cases h7 : ct = "application/x-msgpack"
  · subst h7; cases c <;> simp
  simp [h1, h2, h3, h4, h5, h6, h7]

/-- C8: on a `POST` or `PUT` request the `Body` block of `BindModel` selects a codec if and
only if the first `Content-Type` value is exactly an entry of the table, and then runs the
codec of that entry; on any other value no codec runs: the untouched part goes to the
`json`-tag re-decoding, and when that returns its input (the direct assignment that
`mapstructure` makes between equal types) no fault is raised and the part keeps its
value. -/
theorem C8_codec_by_exact_content_type {V D M : Type} (lib : Libraries V D M) (req : Request)
    (body : V) (hm : req.Method = "POST" ∨ req.Method = "PUT") :
    (∀ c, bodyCodec req = some c ↔ (headerGet req.Header "Content-Type", c) ∈ codecTable) ∧
    (∀ c, bodyCodec req = some c →
      bindBody lib req body =
        (orPanic (lib.codec c req body)).bind (fun d => orPanic (lib.remap (.inl d) body))) ∧
    ((∀ c, (headerGet req.Header "Content-Type", c) ∉ codecTable) →
      bodyCodec req = none ∧
      bindBody lib req body = orPanic (lib.remap (.inr body) body) ∧
      (lib.remap (.inr body) body = .ok body → bindBody lib req body = .ok body)) := by
  have hb : bodyCodec req = selectCodec (headerGet req.Header "Content-Type") := by
    unfold bodyCodec; rw [if_pos hm]
  refine ⟨fun c => by rw [hb]; exact selectCodec_iff _ c, ?_, ?_⟩
  · intro c hc
    unfold bindBody
    simp only [hc, bind, Except.bind, Except.map, pure, Except.pure]
    cases orPanic (lib.codec c req body) <;> rfl
  · intro hno
    have hnone : bodyCodec req = none := by
      cases hc : bodyCodec req with
      | none => rfl
      | some c => rw [hb] at hc; exact absurd ((selectCodec_iff _ c).mp hc) (hno c)
    have hrun : bindBody lib req body = orPanic (lib.remap (.inr body) body) := by
      unfold bindBody
      simp only [hnone, bind, Except.bind, pure, Except.pure]
    exact ⟨hnone, hrun, fun h => by rw [hrun, h]; rfl⟩

/-- Witness for C8: a `POST` request with the header
`Content-Type: application/json; charset=utf-8`. -/
theorem C8_codec_by_exact_content_type_witness :
    (charsetRequest.Method = "POST" ∨ charsetRequest.Method = "PUT") ∧
    (∀ c, (headerGet charsetRequest.Header "Content-Type", c) ∉ codecTable) ∧
    bodyCodec charsetRequest = none ∧
    bindBody listLibraries charsetRequest [("name", "")] = .ok [("name", "")] :=
  have h := C8_codec_by_exact_content_type listLibraries charsetRequest [("name", "")]
    (Or.inl rfl)
  have hno : ∀ c, (headerGet charsetRequest.Header "Content-Type", c) ∉ codecTable :=
    fun c => by cases c <;> decide
  ⟨Or.inl rfl, hno, (h.2.2 hno).1, (h.2.2 hno).2.2 rfl⟩

/-- An entry of a map after an assignment is an old entry or the assigned one. -/
theorem mem_dictSet {α : Type} (m : List (String × α)) (k : String) (v : α) (e : String × α)
    (h : e ∈ dictSet m k v) : e ∈ m ∨ e = (k, v) := by
  induction m with
  | nil => simp [dictSet] at h; exact Or.inr h
  | cons a rest ih =>
    obtain ⟨k1, v1⟩ := a
    simp only [dictSet] at h
    split at h
    · simp only [List.mem_cons] at h
      rcases h with h | h
      · exact Or.inr h
      · exact Or.inl (by simp [h])
    · simp only [List.mem_cons] at h
      rcases h with h | h
      · exact Or.inl (by simp [h])
      · rcases ih h with h | h
        · exact Or.inl (by simp [h])
        · exact Or.inr h

/-- A filled slot after the method dispatch is the slot just set or was filled before. -/
theorem slot_setOperation (item : PathItem) (method m : String) (op op1 : Operation)
    (h : (setOperation item method op).slot m = some op1) :
    (m = method ∧ op1 = op) ∨ item.slot m = some op1 := by
  by_cases hGet : method = "GET"
  · subst hGet
    have hset : setOperation item "GET" op = { item with Get := some op } := by
      simp [setOperation]
    rw [hset] at h
    by_cases hm : m = "GET"
    · subst hm
      simp only [PathItem.slot] at h
      exact Or.inl ⟨rfl, by simpa using h.symm⟩
    · exact Or.inr (by simpa [PathItem.slot, hm] using h)
  by_cases hPost : method = "POST"
  · subst hPost
    have hset : setOperation item "POST" op = { item with Post := some op } := by
      simp [setOperation]
    rw [hset] at h
    by_cases hm : m = "POST"
    · subst hm
      simp only [PathItem.slot] at h
      exact Or.inl ⟨rfl, by simpa using h.symm⟩
    · exact Or.inr (by simpa [PathItem.slot, hm] using h)
  by_cases hDelete : method = "DELETE"
  · subst hDelete
    have hset : setOperation item "DELETE" op = { item with Delete := some op } := by
      simp [setOperation]
    rw [hset] at h
    by_cases hm : m = "DELETE"
    · subst hm
      simp only [PathItem.slot] at h
      exact Or.inl ⟨rfl, by simpa using h.symm⟩
    · exact Or.inr (by simpa [PathItem.slot, hm] using h)
  by_cases hPut : method = "PUT"
  · subst hPut
    have hset : setOperation item "PUT" op = { item with Put := some op } := by
      simp [setOperation]
    rw [hset] at h
    by_cases hm : m = "PUT"
    · subst hm
      simp only [PathItem.slot] at h
      exact Or.inl ⟨rfl, by simpa using h.symm⟩
    · exact Or.inr (by simpa [PathItem.slot, hm] using h)
  by_cases hPatch : method = "PATCH"
  · subst hPatch
    have hset : setOperation item "PATCH" op = { item with Patch := some op } := by
      simp [setOperation]
    rw [hset] at h
    by_cases hm : m = "PATCH"
    · subst hm
      simp only [PathItem.slot] at h
      exact Or.inl ⟨rfl, by simpa using h.symm⟩
    · exact Or.inr (by simpa [PathItem.slot, hm] using h)
  by_cases hHead : method = "HEAD"
  · subst hHead
    have hset : setOperation item "HEAD" op = { item with Head := some op } := by
      simp [setOperation]
    rw [hset] at h
    by_cases hm : m = "HEAD"
    · subst hm
      simp only [PathItem.slot] at h
      exact Or.inl ⟨rfl, by simpa using h.symm⟩
    · exact Or.inr (by simpa [PathItem.slot, hm] using h)
  by_cases hOptions : method = "OPTIONS"
  · subst hOptions
    have hset : setOperation item "OPTIONS" op = { item with Options := some op } := by
      simp [setOperation]
    rw [hset] at h
    by_cases hm : m = "OPTIONS"
    · subst hm
      simp only [PathItem.slot] at h
      exact Or.inl ⟨rfl, by simpa using h.symm⟩
    · exact Or.inr (by simpa [PathItem.slot, hm] using h)
  by_cases hConnect : method = "CONNECT"
  · subst hConnect
    have hset : setOperation item "CONNECT" op = { item with Connect := some op } := by
      simp [setOperation]
    rw [hset] at h
    by_cases hm : m = "CONNECT"
    · subst hm
      simp only [PathItem.slot] at h
      exact Or.inl ⟨rfl, by simpa using h.symm⟩
    · exact Or.inr (by simpa [PathItem.slot, hm] using h)
  by_cases hTrace : method = "TRACE"
  · subst hTrace
    have hset : setOperation item "TRACE" op = { item with Trace := some op } := by
      simp [setOperation]
    rw [hset] at h
    by_cases hm : m = "TRACE"
    · subst hm
      simp only [PathItem.slot] at h
      exact Or.inl ⟨rfl, by simpa using h.symm⟩
    · exact Or.inr (by simpa [PathItem.slot, hm] using h)
  have hset : setOperation item method op = item := by
    simp [setOperation, hGet, hPost, hDelete, hPut, hPatch, hHead, hOptions, hConnect, hTrace]
  rw [hset] at h
  exact Or.inr h

/-- Every operation of a path item comes from a route of the path that is not excluded. -/
theorem pathItemOf_slot (fuel : Nat) (m : List (String × Router)) :
    ∀ (acc res : List (String × String) × PathItem),
      m.foldlM (fun acc mr =>
        if mr.2.Exclude then pure acc
        else do
          let res ← routeOperation fuel acc.1 mr.2
          pure (res.1, setOperation acc.2 mr.1 res.2)) acc = Except.ok res →
      ∀ meth op, res.2.slot meth = some op →
        acc.2.slot meth = some op ∨
        ∃ r sch, (meth, r) ∈ m ∧ r.Exclude = false ∧
          (routeOperation fuel sch r).map Prod.snd = .ok op := by
  induction m with
  | nil =>
    intro acc res h meth op hs
    simp only [List.foldlM, pure, Except.pure, Except.ok.injEq] at h
    subst h
    exact Or.inl hs
  | cons mr rest ih =>
    intro acc res h meth op hs
    simp only [List.foldlM_cons, bind, Except.bind] at h
    by_cases hex : mr.2.Exclude = true
    · simp only [hex, if_true, pure, Except.pure] at h
      rcases ih acc res h meth op hs with h1 | ⟨r, sch, hmem, hr⟩
      · exact Or.inl h1
      · exact Or.inr ⟨r, sch, by simp [hmem], hr⟩
    · simp only [hex, Bool.false_eq_true, if_false, pure, Except.pure] at h
      cases hro : routeOperation fuel acc.1 mr.2 with
      | error e => simp [hro] at h
      | ok ro =>
        simp only [hro] at h
        rcases ih _ res h meth op hs with h1 | ⟨r, sch, hmem, hr⟩
        · rcases slot_setOperation _ _ _ _ _ h1 with ⟨hm, hop⟩ | h2
          · refine Or.inr ⟨mr.2, acc.1, ?_, by simpa using hex, ?_⟩
            · subst hm; simp
            · rw [hro, hop]; rfl
          · exact Or.inl h2
        · exact Or.inr ⟨r, sch, by simp [hmem], hr⟩

/-- Every path item of the document was built from a registered path, under its rewritten key. -/
theorem getPaths_item (fuel : Nat) (Routers : List (String × List (String × Router))) :
    ∀ (acc res : List (String × String) × List (String × PathItem)),
      Routers.foldlM (fun acc pm => do
        let res ← pathItemOf fuel acc.1 pm.2
        if res.2.hasOperation then pure (res.1, dictSet acc.2 (fixPath pm.1) res.2)
        else pure (res.1, acc.2)) acc = Except.ok res →
      ∀ k item, (k, item) ∈ res.2 →
        (k, item) ∈ acc.2 ∨
        ∃ path ms sch sch1, (path, ms) ∈ Routers ∧ fixPath path = k ∧
          pathItemOf fuel sch ms = .ok (sch1, item) := by
  induction Routers with
  | nil =>
    intro acc res h k item hk
    simp only [List.foldlM, pure, Except.pure, Except.ok.injEq] at h
    subst h
    exact Or.inl hk
  | cons pm rest ih =>
    intro acc res h k item hk
    simp only [List.foldlM_cons, bind, Except.bind] at h
    cases hp : pathItemOf fuel acc.1 pm.2 with
    | error e => simp [hp] at h
    | ok pi =>
      simp only [hp] at h
      by_cases hhas : pi.2.hasOperation = true
      · simp only [hhas, if_true, pure, Except.pure] at h
        rcases ih _ res h k item hk with h1 | ⟨path, ms, sch, sch1, hmem, hfix, hpi⟩
        · rcases mem_dictSet _ _ _ _ h1 with h2 | h2
          · exact Or.inl h2
          · simp only [Prod.mk.injEq] at h2
            refine Or.inr ⟨pm.1, pm.2, acc.1, pi.1, by simp, h2.1.symm, ?_⟩
            rw [hp, h2.2]
        · exact Or.inr ⟨path, ms, sch, sch1, by simp [hmem], hfix, hpi⟩
      · simp only [hhas, Bool.false_eq_true, if_false, pure, Except.pure] at h
        rcases ih _ res h k item hk with h1 | ⟨path, ms, sch, sch1, hmem, hfix, hpi⟩
        · exact Or.inl h1
        · exact Or.inr ⟨path, ms, sch, sch1, by simp [hmem], hfix, hpi⟩

/-- The empty path item has no operation. -/
theorem emptyPathItem_slot (m : String) : emptyPathItem.slot m = none := by
  unfold PathItem.slot emptyPathItem
  split_ifs <;> rfl

/-- Every operation of the document comes from a registered route that is not excluded. -/
theorem document_operation_origin (fuel : Nat) (Routers : List (String × List (String × Router)))
    (res : List (String × String) × List (String × PathItem))
    (h : getPaths fuel Routers [] = .ok res) (k : String) (item : PathItem) (m : String)
    (op : Operation) (hk : (k, item) ∈ res.2) (hs : item.slot m = some op) :
    ∃ path ms r, (path, ms) ∈ Routers ∧ (m, r) ∈ ms ∧ fixPath path = k ∧ r.Exclude = false ∧
      ∃ sch, (routeOperation fuel sch r).map Prod.snd = .ok op := by
  rcases getPaths_item fuel Routers _ res h k item hk with h1 | ⟨path, ms, sch, sch1, hmem, hfix, hpi⟩
  · simp at h1
  · rcases pathItemOf_slot fuel ms _ _ hpi m op hs with h2 | ⟨r, sch2, hmr, hex, hro⟩
    · rw [emptyPathItem_slot] at h2; cases h2
    · exact ⟨path, ms, r, hmem, hmr, hfix, hex, sch2, hro⟩

/-- C10 (amended): after `BuildOpenAPI` the registry is unchanged; every operation of the
document was derived from a registered route that is not excluded, under the rewritten path
of that route and its method; for an excluded route whose rewritten path no other
registered path shares, the slot of its method under its rewritten path is empty; and
`initRouters` registers every route of the registry with its handler chain, which does not
depend on the `Exclude` flag. -/
theorem C10_excluded_route_absent_but_served (fuel : Nat) (sw sw1 : Swagger) (doc : T)
    (rootPath : String) (hbuild : sw.BuildOpenAPI fuel = .ok sw1)
    (hdoc : sw1.OpenAPI = some doc) :
    sw1.Routers = sw.Routers ∧
    (∀ k item m op, (k, item) ∈ doc.Paths → item.slot m = some op →
      ∃ path ms r, (path, ms) ∈ sw.Routers ∧ (m, r) ∈ ms ∧ fixPath path = k ∧
        r.Exclude = false ∧ ∃ sch, (routeOperation fuel sch r).map Prod.snd = .ok op) ∧
    (∀ path ms m r, (path, ms) ∈ sw.Routers → (m, r) ∈ ms → r.Exclude = true →
      (∀ path1 ms1, (path1, ms1) ∈ sw.Routers → fixPath path1 = fixPath path → ms1 = ms) →
      (∀ r1, (m, r1) ∈ ms → r1 = r) →
      ∀ item, (fixPath path, item) ∈ doc.Paths → item.slot m = none) ∧
    (∀ path ms m r, (path, ms) ∈ sw.Routers → (m, r) ∈ ms →
      { Method := engineMethod m, Path := rootPath ++ path, Handlers := r.GetHandlers } ∈
        initRouters rootPath sw1.Routers ∧
      ({ r with Exclude := true }).GetHandlers = ({ r with Exclude := false }).GetHandlers) := by
  unfold Swagger.BuildOpenAPI at hbuild
  simp only [bind, Except.bind, pure, Except.pure] at hbuild
  cases hp : getPaths fuel sw.Routers [] with
  | error e => simp [hp] at hbuild
  | ok res =>
    simp only [hp, Except.ok.injEq] at hbuild
    subst hbuild
    simp only [Option.some.injEq] at hdoc
    subst hdoc
    have horigin := document_operation_origin fuel sw.Routers res hp
    refine ⟨rfl, fun k item m op hk hs => horigin k item m op hk hs, ?_, ?_⟩
    · intro path ms m r hmem hmr hex huniq hone item hk
      cases hs : item.slot m with
      | none => rfl
      | some op =>
        obtain ⟨path1, ms1, r1, hmem1, hmr1, hfix, hex1, _⟩ := horigin _ item m op hk hs
        have hms : ms1 = ms := huniq path1 ms1 hmem1 hfix
        subst hms
        have hr : r1 = r := hone r1 hmr1
        subst hr
        rw [hex] at hex1
        cases hex1
    · intro path ms m r hmem hmr
      refine ⟨?_, rfl⟩
      simp only [initRouters, List.mem_flatMap, List.mem_map]
      exact ⟨(path, ms), hmem, (m, r), hmr, rfl⟩


/-- Witness for C10: with `GET /ping` excluded and
`POST /body` documented, the document has no `GET` operation under `/ping`. -/
theorem C10_excluded_route_absent_but_served_witness :
    excludedSwagger.BuildOpenAPI 3 = .ok excludedBuilt ∧
    excludedBuilt.OpenAPI = some excludedDoc ∧
    excludedBuilt.Routers = excludedSwagger.Routers ∧
    (∀ item, (fixPath "/ping", item) ∈ excludedDoc.Paths → item.slot "GET" = none) ∧
    { Method := "GET", Path := "/ping", Handlers := [1] } ∈
      initRouters "" excludedBuilt.Routers :=
  have h := C10_excluded_route_absent_but_served 3 excludedSwagger excludedBuilt excludedDoc ""
    rfl rfl
  ⟨rfl, rfl, h.1,
    h.2.2.1 "/ping" [("GET", { NewX 1 with Exclude := true })] "GET" { NewX 1 with Exclude := true }
      (by simp [excludedSwagger]) (by simp) rfl
      (by
        intro path1 ms1 hmem hfix
        simp only [excludedSwagger, List.mem_cons, Prod.mk.injEq, List.mem_singleton,
          List.not_mem_nil, or_false] at hmem
        rcases hmem with ⟨_, h2⟩ | ⟨h1, _⟩
        · exact h2
        · subst h1; exact absurd hfix (by decide))
      (by
        intro r1 hr1
        simpa using hr1),
    (h.2.2.2 "/ping" [("GET", { NewX 1 with Exclude := true })] "GET" { NewX 1 with Exclude := true }
      (by simp [excludedSwagger]) (by simp)).1⟩

/-- C13: for a value of each primitive kind, `getSchemaByType` returns the schema of the
table, for `request = true` and for `request = false` alike, with any positive budget. -/
theorem C13_primitive_table (k : PrimitiveKind) (fuel : Nat) (request : Bool) (v : GoValue)
    (hv : v.typeOf = k.goType) :
    getSchemaByType (fuel + 1) (some v) request = .ok (tableSchema k) := by
  cases k <;>
    simp [getSchemaByType, hv, PrimitiveKind.goType, primitiveSchema, tableSchema, timeTime,
      fileHeader, NewIntegerSchema, NewInt32Schema, NewInt64Schema, NewStringSchema,
      NewDateTimeSchema, NewFloat64Schema, NewBoolSchema, NewBytesSchema, NewArraySchema,
      emptySchema]

/-- Witness for C13: the zero `time.Time` derives the date-time string schema in the
response direction. -/
theorem C13_primitive_table_witness :
    (zeroValue timeTime).typeOf = PrimitiveKind.time.goType ∧
    getSchemaByType 1 (some (zeroValue timeTime)) false = .ok (tableSchema .time) :=
  ⟨rfl, C13_primitive_table .time 0 false (zeroValue timeTime) rfl⟩

/-- Assigning a key that the map does not hold appends the entry. -/
theorem dictSet_fresh {α : Type} (m : List (String × α)) (k : String) (v : α)
    (hk : k ∉ m.map Prod.fst) : dictSet m k v = m ++ [(k, v)] := by
  induction m with
  | nil => rfl
  | cons a rest ih =>
    obtain ⟨k1, v1⟩ := a
    simp only [List.map_cons, List.mem_cons, not_or] at hk
    have hne : ¬ k1 = k := fun h => hk.1 h.symm
    simp only [dictSet, hne, if_false, List.cons_append, ih hk.2]

/-- In a map with distinct keys, the lookup of a key gives the value of its entry. -/
theorem dictGet_of_mem {α : Type} (m : List (String × α)) (k : String) (v : α)
    (hnd : (m.map Prod.fst).Nodup) (hmem : (k, v) ∈ m) : dictGet m k = some v := by
  induction m with
  | nil => simp at hmem
  | cons a rest ih =>
    obtain ⟨k1, v1⟩ := a
    simp only [List.map_cons, List.nodup_cons] at hnd
    simp only [List.mem_cons, Prod.mk.injEq] at hmem
    rcases hmem with ⟨hk, hv⟩ | hmem
    · subst hk; subst hv
      simp [dictGet]
    · have hne : ¬ k1 = k := fun e => hnd.1 (e ▸ List.mem_map_of_mem Prod.fst hmem)
      have := ih hnd.2 hmem
      simp only [dictGet, List.find?, hne, decide_False] at this ⊢
      exact this

/-- The first-value map of a list of entries that all hold a value and have distinct keys. -/
theorem firstValues_from (values : List (String × List String)) :
    ∀ (m : List (String × String)),
      (∀ kv ∈ values, kv.2 ≠ []) →
      (∀ kv ∈ values, kv.1 ∉ m.map Prod.fst) →
      (values.map Prod.fst).Nodup →
      values.foldlM (fun m kv =>
        match kv.2 with
        | [] => Except.error Fault.indexPanic
        | v :: _ => Except.ok (dictSet m kv.1 v)) m =
        .ok (m ++ values.map (fun kv => (kv.1, kv.2.headD ""))) := by
  induction values with
  | nil => intro m _ _ _; simp [List.foldlM, pure, Except.pure]
  | cons kv rest ih =>
    intro m hne hfresh hnd
    obtain ⟨k, vs⟩ := kv
    cases vs with
    | nil => exact absurd rfl (hne (k, []) (by simp))
    | cons v vs =>
      simp only [List.foldlM_cons, bind, Except.bind]
      have hk : k ∉ m.map Prod.fst := hfresh (k, v :: vs) (by simp)
      rw [dictSet_fresh m k v hk]
      simp only [List.map_cons, List.nodup_cons] at hnd
      rw [ih (m ++ [(k, v)]) (fun kv h => hne kv (by simp [h]))
        (fun kv h => by
          have h1 := hfresh kv (by simp [h])
          have h2 : kv.1 ≠ k := fun e => hnd.1 (e ▸ List.mem_map_of_mem Prod.fst h)
          simp only [List.map_append, List.map_cons, List.map_nil, List.mem_append,
            List.mem_singleton, not_or]
          exact ⟨h1, h2⟩)
        hnd.2]
      simp

/-- C20: for a header or query map (its keys distinct) in which every key has at least one
value, the map that `headerBinding.Bind` and `queryBinding.Bind` hand to the decoder is
built without fault, has the same keys in the same order and maps each key to the first of
its values. -/
theorem C20_first_value_of_each_key (values : List (String × List String))
    (hne : ∀ kv ∈ values, kv.2 ≠ []) (hkeys : (values.map Prod.fst).Nodup) :
    firstValues values = .ok (values.map (fun kv => (kv.1, kv.2.headD ""))) ∧
    (∀ m, firstValues values = .ok m →
      m.map Prod.fst = values.map Prod.fst ∧
      ∀ k vs, (k, vs) ∈ values → dictGet m k = vs.head?) := by
  have h := firstValues_from values [] hne (fun _ _ => by simp) hkeys
  simp only [List.nil_append] at h
  refine ⟨h, ?_⟩
  intro m hm
  have hm2 : Except.ok (values.map (fun kv => (kv.1, kv.2.headD ""))) = Except.ok m :=
    h.symm.trans hm
  injection hm2 with hm2
  subst hm2
  have hfst : (values.map (fun kv => (kv.1, kv.2.headD ""))).map Prod.fst =
      values.map Prod.fst := by
    simp [List.map_map, Function.comp]
  refine ⟨hfst, ?_⟩
  intro k vs hmem
  have hin : (k, vs.headD "") ∈ values.map (fun kv => (kv.1, kv.2.headD "")) :=
    List.mem_map.mpr ⟨(k, vs), hmem, rfl⟩
  rw [dictGet_of_mem _ k _ (by rw [hfst]; exact hkeys) hin]
  cases vs with
  | nil => exact absurd rfl (hne (k, []) hmem)
  | cons v vs => rfl

/-- Witness for C20: a header map with `X-Foo: a` and `X-Foo: b` maps `X-Foo` to `a`. -/
theorem C20_first_value_of_each_key_witness :
    (∀ kv ∈ repeatedHeader, kv.2 ≠ []) ∧ (repeatedHeader.map Prod.fst).Nodup ∧
    firstValues repeatedHeader = .ok [("X-Foo", "a")] :=
  have hne : ∀ kv ∈ repeatedHeader, kv.2 ≠ [] := by decide
  have hnd : (repeatedHeader.map Prod.fst).Nodup := by decide
  ⟨hne, hnd, (C20_first_value_of_each_key repeatedHeader hne hnd).1⟩

/-- The lookup of a key right after its assignment gives the assigned value. -/
theorem dictGet_dictSet_same {α : Type} (m : List (String × α)) (k : String) (v : α) :
    dictGet (dictSet m k v) k = some v := by
  induction m with
  | nil => simp [dictSet, dictGet]
  | cons a rest ih =>
    obtain ⟨k1, v1⟩ := a
    by_cases h : k1 = k
    · simp [dictSet, dictGet, h]
    · simp only [dictSet, h, if_false]
      simp only [dictGet, List.find?, h, decide_False] at ih ⊢
      exact ih

/-- One visit of `getRequestSchemaByModel` to a field with a `json` name other than `-`:
the field is exported, its schema is derived, the tag overlay is stored under the name and
the name is listed as required when `binding` says so. -/
theorem requestField_tagged (g : Option GoValue → Except Fault Schema) (schema s1 : Schema)
    (f : StructField) (v : GoValue) (tags : List Tag) (tag : Tag)
    (hparse : parseFieldTag f.Tag = .ok tags) (hjson : tagsGet tags "json" = some tag)
    (hname : tag.Name ≠ "-") (h : requestField g schema (f, v) = .ok s1) :
    ∃ base, g v.Interface = .ok base ∧ f.IsExported = true ∧
      s1.Properties = dictSet schema.Properties tag.Name (applyFieldTags tags base) ∧
      s1.Required =
        (if bindingRequired tags then schema.Required ++ [tag.Name] else schema.Required) := by
  unfold requestField at h
  simp only [hparse, hjson, hname, bind, Except.bind, if_false, pure, Except.pure] at h
  cases hex : f.IsExported with
  | false => simp [hex, throw, throwThe, MonadExceptOf.throw] at h
  | true =>
    simp only [hex, Bool.not_true, Bool.false_eq_true, if_false] at h
    cases hg : g v.Interface with
    | error e => simp [hg] at h
    | ok base =>
      simp only [hg, Except.ok.injEq] at h
      subst h
      refine ⟨base, rfl, rfl, ?_, ?_⟩
      · split <;> rfl
      · split <;> rfl

/-- One visit of `getRequestSchemaByModel` to a field without a `json` tag, or with the
`json` name `-`: the schema under construction is left as it is. -/
theorem requestField_skipped (g : Option GoValue → Except Fault Schema) (schema s1 : Schema)
    (f : StructField) (v : GoValue) (tags : List Tag)
    (hparse : parseFieldTag f.Tag = .ok tags)
    (hjson : ∀ tag, tagsGet tags "json" = some tag → tag.Name = "-")
    (h : requestField g schema (f, v) = .ok s1) : s1 = schema := by
  unfold requestField at h
  simp only [hparse, bind, Except.bind, pure, Except.pure] at h
  cases ht : tagsGet tags "json" with
  | none => simp only [ht, Except.ok.injEq] at h; exact h.symm
  | some tag =>
    have := hjson tag ht
    simp only [ht, this, if_true, Except.ok.injEq] at h
    exact h.symm

/-- One visit of `getResponseSchemaByModel` to an exported field of a valid value with a
`json` name other than `-`: the schema of the (dereferenced) field value is derived, the tag
overlay is stored under the name and the name is listed as required when `binding` says
so. -/
theorem responseField_tagged (g : Option GoValue → Except Fault Schema) (schema s1 : Schema)
    (f : StructField) (v : GoValue) (tags : List Tag) (tag : Tag)
    (hex : f.IsExported = true)
    (hparse : parseFieldTag f.Tag = .ok tags) (hjson : tagsGet tags "json" = some tag)
    (hname : tag.Name ≠ "-") (h : responseField g schema (f, some v) = .ok s1) :
    ∃ w base, g w = .ok base ∧
      s1.Properties = dictSet schema.Properties tag.Name (applyFieldTags tags base) ∧
      s1.Required =
        (if bindingRequired tags then schema.Required ++ [tag.Name] else schema.Required) := by
  unfold responseField at h
  simp only [hex, Bool.not_true, Bool.false_eq_true, if_false, bind, Except.bind, pure,
    Except.pure] at h
  split at h
  · cases h
  · next base hg =>
    simp only [hparse, hjson, hname, if_false, Except.ok.injEq] at h
    subst h
    refine ⟨_, base, hg, ?_, ?_⟩
    · split <;> rfl
    · split <;> rfl

/-- One visit of `getResponseSchemaByModel` to a field that is unexported, or has no
`json` tag, or has the `json` name `-`: the schema under construction is left as it is. -/
theorem responseField_skipped (g : Option GoValue → Except Fault Schema) (schema s1 : Schema)
    (f : StructField) (v : Option GoValue)
    (hskip : v = none ∨ f.IsExported = false ∨
      ∃ tags, parseFieldTag f.Tag = .ok tags ∧
        ∀ tag, tagsGet tags "json" = some tag → tag.Name = "-")
    (h : responseField g schema (f, v) = .ok s1) : s1 = schema := by
  unfold responseField at h
  cases v with
  | none => simp only [pure, Except.pure, Except.ok.injEq] at h; exact h.symm
  | some v =>
    cases hex : f.IsExported with
    | false =>
      simp only [hex, Bool.not_false, if_true, pure, Except.pure, Except.ok.injEq] at h
      exact h.symm
    | true =>
      rcases hskip with h0 | h0 | ⟨tags, hparse, hjson⟩
      · cases h0
      · rw [hex] at h0; cases h0
      · simp only [hex, Bool.not_true, Bool.false_eq_true, if_false, bind, Except.bind, pure,
          Except.pure] at h
        split at h
        · cases h
        · simp only [hparse] at h
          cases ht : tagsGet tags "json" with
          | none => simp only [ht, Except.ok.injEq] at h; exact h.symm
          | some tag =>
            have := hjson tag ht
            simp only [ht, this, if_true, Except.ok.injEq] at h
            exact h.symm

/-- The overlay sets `Default` from the primary value of the `default` tag and leaves it
alone without the tag. -/
theorem applyFieldTags_Default (tags : List Tag) (s : Schema) :
    (applyFieldTags tags s).Default =
      match tagsGet tags "default" with
      | some t => some t.Name
      | none => s.Default := by
  unfold applyFieldTags
  cases tagsGet tags "description" <;> cases tagsGet tags "default" <;>
    cases tagsGet tags "example" <;> cases hr : tagsGet tags "rule" <;>
    cases tagsGet tags "format" <;> simp only [] <;>
    (try cases rulePattern _) <;> (try cases ruleRequired _) <;> rfl

/-- The overlay sets `Example` from the primary value of the `example` tag and leaves it
alone without the tag. -/
theorem applyFieldTags_Example (tags : List Tag) (s : Schema) :
    (applyFieldTags tags s).Example =
      match tagsGet tags "example" with
      | some t => some t.Name
      | none => s.Example := by
  unfold applyFieldTags
  cases tagsGet tags "description" <;> cases tagsGet tags "default" <;>
    cases tagsGet tags "example" <;> cases hr : tagsGet tags "rule" <;>
    cases tagsGet tags "format" <;> simp only [] <;>
    (try cases rulePattern _) <;> (try cases ruleRequired _) <;> rfl

/-- The overlay sets `Format` from the primary value of the `format` tag and leaves it
alone without the tag. -/
theorem applyFieldTags_Format (tags : List Tag) (s : Schema) :
    (applyFieldTags tags s).Format =
      match tagsGet tags "format" with
      | some t => t.Name
      | none => s.Format := by
  unfold applyFieldTags
  cases tagsGet tags "description" <;> cases tagsGet tags "default" <;>
    cases tagsGet tags "example" <;> cases hr : tagsGet tags "rule" <;>
    cases tagsGet tags "format" <;> simp only [] <;>
    (try cases rulePattern _) <;> (try cases ruleRequired _) <;> rfl

/-- Every tag that the parse loop adds is the comma split of its unquoted value. -/
theorem parseLoop_splitsValue (n : Nat) : ∀ (tag : List Char) (tags res : List Tag),
    parseLoop n tag tags = some res →
    (∀ t ∈ tags, ∃ value, t.splitsValue value) →
    ∀ t ∈ res, ∃ value, t.splitsValue value := by
  induction n with
  | zero => intro tag tags res h; simp [parseLoop] at h
  | succ n ih =>
    intro tag tags res h hacc
    unfold parseLoop at h
    simp only at h
    repeat' split at h
    all_goals try (first | (cases h; done) | (injection h with h; subst h; exact hacc))
    next value _ _ w ws hsplit =>
      refine ih _ _ res h ?_
      intro t ht
      simp only [List.mem_append, List.mem_singleton] at ht
      rcases ht with ht | ht
      · exact hacc t ht
      · subst ht
        refine ⟨value, ?_⟩
        simp only [Tag.splitsValue, hsplit, List.map_map]
        have hid : (String.data ∘ String.mk) = id := by funext c; rfl
        rw [hid, List.map_id]

/-- Every tag of a parsed field tag is the comma split of its unquoted value: its `Name` is
the text before the first comma. -/
theorem parseFieldTag_splitsValue (raw : String) (tags : List Tag)
    (h : parseFieldTag raw = .ok tags) : ∀ t ∈ tags, ∃ value, t.splitsValue value := by
  unfold parseFieldTag structtagParse at h
  cases hp : parseLoop (raw.length + 1) raw.data [] with
  | none => simp [hp] at h
  | some res =>
    simp only [hp] at h
    split at h
    · cases h
    · cases h
    · next tags1 heq =>
      injection h with h
      subst h
      split at heq
      · cases heq
      · injection heq with heq
        injection heq with heq
        subst heq
        exact parseLoop_splitsValue _ _ _ _ hp (fun _ h => by simp at h)

/-- One visit of `getParamTypeByModel` to a field that carries the source tag: one parameter
is appended, located by the part, named by the tag, with the schema of the field value
whose `Format` is the primary value of the `format` tag when there is one. -/
theorem paramField_tagged (g : Option GoValue → Except Fault Schema) (param : String)
    (ps ps1 : List Parameter) (f : StructField) (v : GoValue) (tags : List Tag) (pt : Tag)
    (hparam : paramIn param ≠ "") (hparse : parseFieldTag f.Tag = .ok tags)
    (htag : tagsGet tags param = some pt)
    (h : paramField g param ps (f, some v) = .ok ps1) :
    ∃ base p s, g v.Interface = .ok base ∧ ps1 = ps ++ [p] ∧ p.In = paramIn param ∧
      p.Name = pt.Name ∧ p.Schema = some s ∧
      s.Format = (match tagsGet tags "format" with
        | some t => t.Name
        | none => base.Format) := by
  unfold paramField at h
  simp only [hparse, htag, bind, Except.bind, pure, Except.pure, hparam, if_false] at h
  cases hex : f.IsExported with
  | false => simp [hex, throw, throwThe, MonadExceptOf.throw] at h
  | true =>
    simp only [hex, Bool.not_true, Bool.false_eq_true, if_false] at h
    cases hg : g v.Interface with
    | error e => simp [hg] at h
    | ok base =>
      simp only [hg, Except.ok.injEq] at h
      subst h
      refine ⟨base, _, _, rfl, rfl, ?_, ?_, rfl, ?_⟩
      · cases tagsGet tags "description" <;> cases tagsGet tags "binding" <;>
          cases tagsGet tags "example" <;> cases tagsGet tags "rule" <;> simp only [] <;>
          (try split) <;> rfl
      · cases tagsGet tags "description" <;> cases tagsGet tags "binding" <;>
          cases tagsGet tags "example" <;> cases tagsGet tags "rule" <;> simp only [] <;>
          (try split) <;> rfl
      · cases tagsGet tags "format" <;> cases tagsGet tags "default" <;>
          cases (tagsGet tags "rule").bind rulePattern <;> rfl

/-- One visit of `getParamTypeByModel` to a field without the source tag: no parameter is
appended. -/
theorem paramField_skipped (g : Option GoValue → Except Fault Schema) (param : String)
    (ps ps1 : List Parameter) (f : StructField) (v : GoValue) (tags : List Tag)
    (hparse : parseFieldTag f.Tag = .ok tags) (htag : tagsGet tags param = none)
    (h : paramField g param ps (f, some v) = .ok ps1) : ps1 = ps := by
  unfold paramField at h
  simp only [hparse, htag, bind, Except.bind, pure, Except.pure, emptyParameter, if_true,
    Except.ok.injEq] at h
  exact h.symm

/-- A tag found by `tags.Get` is one of the tags. -/
theorem tagsGet_mem (tags : List Tag) (key : String) (t : Tag)
    (h : tagsGet tags key = some t) : t ∈ tags :=
  List.mem_of_find?_eq_some h

/-- A text without the separator is its own single segment. -/
theorem splitChars_of_not_mem (sep : Char) (l : List Char) (h : sep ∉ l) :
    splitChars sep l = [l] := by
  induction l with
  | nil => rfl
  | cons c cs ih =>
    simp only [List.mem_cons, not_or] at h
    have hc : ¬ c = sep := fun e => h.1 e.symm
    simp only [splitChars, hc, if_false, ih h.2]

/-- The `Name` of a parsed tag is the first comma-separated part of its unquoted value, and
the whole value when that holds no comma. -/
theorem parsed_tag_primary (raw : String) (tags : List Tag) (key : String) (t : Tag)
    (hparse : parseFieldTag raw = .ok tags) (ht : tagsGet tags key = some t) :
    ∃ value, t.splitsValue value ∧ (',' ∉ value → t.Name.data = value) := by
  obtain ⟨value, hv⟩ := parseFieldTag_splitsValue raw tags hparse t (tagsGet_mem _ _ _ ht)
  refine ⟨value, hv, fun hno => ?_⟩
  unfold Tag.splitsValue at hv
  rw [splitChars_of_not_mem ',' value hno] at hv
  injection hv with h1 _
  exact h1.symm

/-- The property stored by a visit of either field loop to a field with a `json` name other
than `-`: the tag overlay on a schema that `getSchemaByType` derived. -/
theorem field_property (g : Option GoValue → Except Fault Schema) (schema s1 : Schema)
    (f : StructField) (v : GoValue) (tags : List Tag) (tag : Tag)
    (hparse : parseFieldTag f.Tag = .ok tags) (hjson : tagsGet tags "json" = some tag)
    (hname : tag.Name ≠ "-")
    (h : requestField g schema (f, v) = .ok s1 ∨
      (f.IsExported = true ∧ responseField g schema (f, some v) = .ok s1)) :
    ∃ w base, g w = .ok base ∧
      dictGet s1.Properties tag.Name = some (applyFieldTags tags base) := by
  rcases h with h | ⟨hex, h⟩
  · obtain ⟨base, hg, _, hp, _⟩ := requestField_tagged g schema s1 f v tags tag hparse hjson hname h
    exact ⟨_, base, hg, by rw [hp, dictGet_dictSet_same]⟩
  · obtain ⟨w, base, hg, hp, _⟩ :=
      responseField_tagged g schema s1 f v tags tag hex hparse hjson hname h
    exact ⟨w, base, hg, by rw [hp, dictGet_dictSet_same]⟩

/-- C16 (counterexample): with the raw tag `json:"n" default:"a,b" example:"x,y"` the
derived field schema has `Default` `a` and `Example` `x`, not the whole literal values
`a,b` and `x,y`, in the request and in the response direction. -/
theorem C16_comma_value_is_cut :
    parseFieldTag commaField.Tag = .ok commaTags ∧
    (getRequestSchemaByModel 2 (some (zeroValue (.struct [commaField])))).map
      (fun s => (dictGet s.Properties "n").map (fun p => (p.Default, p.Example))) =
      .ok (some (some "a", some "x")) ∧
    (getResponseSchemaByModel 2 (some (zeroValue (.struct [commaField])))).map
      (fun s => (dictGet s.Properties "n").map (fun p => (p.Default, p.Example))) =
      .ok (some (some "a", some "x")) := by
  decide

/-- C16 (amended): for a field with a `json` name other than `-`, visited by the request or
the response field loop, the stored field schema has as `Default` the primary value of the
`default` tag and as `Example` the primary value of the `example` tag, as strings; the
primary value is the first comma-separated part of the unquoted tag value, and the whole
value when that holds no comma. -/
theorem C16_default_is_primary_value (g : Option GoValue → Except Fault Schema)
    (schema s1 : Schema) (f : StructField) (v : GoValue) (tags : List Tag) (tag : Tag)
    (hparse : parseFieldTag f.Tag = .ok tags) (hjson : tagsGet tags "json" = some tag)
    (hname : tag.Name ≠ "-")
    (h : requestField g schema (f, v) = .ok s1 ∨
      (f.IsExported = true ∧ responseField g schema (f, some v) = .ok s1)) :
    ∃ p, dictGet s1.Properties tag.Name = some p ∧
      (∀ t, tagsGet tags "default" = some t →
        p.Default = some t.Name ∧
          ∃ value, t.splitsValue value ∧ (',' ∉ value → t.Name.data = value)) ∧
      (∀ t, tagsGet tags "example" = some t →
        p.Example = some t.Name ∧
          ∃ value, t.splitsValue value ∧ (',' ∉ value → t.Name.data = value)) := by
  obtain ⟨w, base, _, hp⟩ := field_property g schema s1 f v tags tag hparse hjson hname h
  refine ⟨_, hp, ?_, ?_⟩
  · intro t ht
    refine ⟨?_, parsed_tag_primary _ _ _ t hparse ht⟩
    rw [applyFieldTags_Default, ht]
  · intro t ht
    refine ⟨?_, parsed_tag_primary _ _ _ t hparse ht⟩
    rw [applyFieldTags_Example, ht]

/-- Witness for C16: the field `N int` tagged `json:"n" default:"a,b" example:"x,y"`. -/
theorem C16_default_is_primary_value_witness :
    parseFieldTag commaField.Tag = .ok commaTags ∧
    requestField (fun t => getSchemaByType 1 t true) NewObjectSchema
      (commaField, GoValue.plain (.basic .int)) = .ok commaSchema ∧
    ∃ p, dictGet commaSchema.Properties "n" = some p ∧
      (∀ t, tagsGet commaTags "default" = some t →
        p.Default = some t.Name ∧
          ∃ value, t.splitsValue value ∧ (',' ∉ value → t.Name.data = value)) ∧
      (∀ t, tagsGet commaTags "example" = some t →
        p.Example = some t.Name ∧
          ∃ value, t.splitsValue value ∧ (',' ∉ value → t.Name.data = value)) :=
  ⟨by decide, rfl,
    C16_default_is_primary_value (fun t => getSchemaByType 1 t true) NewObjectSchema commaSchema
      commaField (GoValue.plain (.basic .int)) commaTags ⟨"json", "n", []⟩ (by decide)
      (by decide) (by decide) (Or.inl rfl)⟩

/-- C17 (counterexample): with the raw tag `json:"t" query:"t" format:"a,b"` on a
`time.Time` field the derived schemas have the format `a`, not the tag value `a,b`, in the
request direction, the response direction and the parameter schema. -/
theorem C17_comma_format_is_cut :
    (getRequestSchemaByModel 2 (some (zeroValue (.struct [commaFormatField])))).map
      (fun s => (dictGet s.Properties "t").map (fun p => p.Format)) = .ok (some "a") ∧
    (getResponseSchemaByModel 2 (some (zeroValue (.struct [commaFormatField])))).map
      (fun s => (dictGet s.Properties "t").map (fun p => p.Format)) = .ok (some "a") ∧
    (getParamTypeByModel 2 (some (zeroValue (.struct [commaFormatField]))) "query").map
      (fun ps => ps.map (fun p => p.Schema.map (fun s => s.Format))) = .ok [some "a"] := by
  decide

/-- C17 (amended): the field schema stored by the request or the response field loop, and
the schema of the parameter emitted by `getParamTypeByModel`, have as `Format` the primary
value of the `format` tag when the field has one (the first comma-separated part of the
unquoted tag value, the whole value when that holds no comma), whatever format the type
implied, and otherwise the format of the schema that `getSchemaByType` derived. -/
theorem C17_format_is_primary_value (g : Option GoValue → Except Fault Schema)
    (f : StructField) (v : GoValue) (tags : List Tag)
    (hparse : parseFieldTag f.Tag = .ok tags) :
    (∀ schema s1 tag, tagsGet tags "json" = some tag → tag.Name ≠ "-" →
      (requestField g schema (f, v) = .ok s1 ∨
        (f.IsExported = true ∧ responseField g schema (f, some v) = .ok s1)) →
      ∃ w base p, g w = .ok base ∧ dictGet s1.Properties tag.Name = some p ∧
        (∀ t, tagsGet tags "format" = some t → p.Format = t.Name) ∧
        (tagsGet tags "format" = none → p.Format = base.Format)) ∧
    (∀ param ps ps1 pt, paramIn param ≠ "" → tagsGet tags param = some pt →
      paramField g param ps (f, some v) = .ok ps1 →
      ∃ base p s, g v.Interface = .ok base ∧ ps1 = ps ++ [p] ∧ p.Schema = some s ∧
        (∀ t, tagsGet tags "format" = some t → s.Format = t.Name) ∧
        (tagsGet tags "format" = none → s.Format = base.Format)) ∧
    (∀ t, tagsGet tags "format" = some t →
      ∃ value, t.splitsValue value ∧ (',' ∉ value → t.Name.data = value)) := by
  refine ⟨?_, ?_, fun t ht => parsed_tag_primary _ _ _ t hparse ht⟩
  · intro schema s1 tag hjson hname h
    obtain ⟨w, base, hg, hp⟩ := field_property g schema s1 f v tags tag hparse hjson hname h
    refine ⟨w, base, _, hg, hp, ?_, ?_⟩
    · intro t ht; rw [applyFieldTags_Format, ht]
    · intro ht; rw [applyFieldTags_Format, ht]
  · intro param ps ps1 pt hparam htag h
    obtain ⟨base, p, s, hg, hps, _, _, hs, hf⟩ :=
      paramField_tagged g param ps ps1 f v tags pt hparam hparse htag h
    refine ⟨base, p, s, hg, hps, hs, ?_, ?_⟩
    · intro t ht; rw [hf, ht]
    · intro ht; rw [hf, ht]

/-- Witness for C17: the field `T time.Time` tagged `json:"t" query:"t" format:"x"` gets
the format `x` in place of `date-time`. -/
theorem C17_format_is_primary_value_witness :
    parseFieldTag formatField.Tag = .ok formatTags ∧
    requestField (fun t => getSchemaByType 1 t true) NewObjectSchema
      (formatField, zeroValue timeTime) = .ok formatSchema ∧
    ∃ w base p, getSchemaByType 1 w true = .ok base ∧
      dictGet formatSchema.Properties "t" = some p ∧
      (∀ t, tagsGet formatTags "format" = some t → p.Format = t.Name) ∧
      (tagsGet formatTags "format" = none → p.Format = base.Format) :=
  ⟨by decide, rfl,
    (C17_format_is_primary_value (fun t => getSchemaByType 1 t true) formatField
      (zeroValue timeTime) formatTags (by decide)).1 NewObjectSchema formatSchema
      ⟨"json", "t", []⟩ (by decide) (by decide) (Or.inl rfl)⟩

/-- The keys of a map after an assignment are the old keys and the assigned key. -/
theorem mem_keys_dictSet {α : Type} (m : List (String × α)) (k : String) (v : α) (k1 : String) :
    k1 ∈ (dictSet m k v).map Prod.fst ↔ k1 ∈ m.map Prod.fst ∨ k1 = k := by
  induction m with
  | nil => simp [dictSet]
  | cons a rest ih =>
    obtain ⟨k2, v2⟩ := a
    by_cases h : k2 = k
    · subst h
      simp only [dictSet, if_true, List.map_cons, List.mem_cons]
      tauto
    · simp only [dictSet, h, if_false, List.map_cons, List.mem_cons, ih]
      tauto

/-- The required name of a field is its `json` name when `binding` says `required`. -/
theorem requiredName_eq (f : StructField) (tags : List Tag)
    (hparse : parseFieldTag f.Tag = .ok tags) :
    requiredName f = if bindingRequired tags then jsonName f else none := by
  unfold requiredName bindingRequired
  simp only [hparse]
  cases tagsGet tags "binding" with
  | none => rfl
  | some b =>
    by_cases h : b.Name = "required"
    · simp [h]
    · simp [h]

/-- The request field loop: the `Required` list grows by the `json` names of the fields
bound as required, in order, and the property keys by the `json` names of the fields. -/
theorem requestFields_fold (g : Option GoValue → Except Fault Schema) :
    ∀ (fvs : List (StructField × GoValue)) (acc s : Schema),
      fvs.foldlM (requestField g) acc = .ok s →
      s.Required = acc.Required ++ fvs.filterMap (fun fv => requiredName fv.1) ∧
      ∀ k, k ∈ s.Properties.map Prod.fst ↔
        k ∈ acc.Properties.map Prod.fst ∨ k ∈ fvs.filterMap (fun fv => jsonName fv.1) := by
  intro fvs
  induction fvs with
  | nil =>
    intro acc s h
    simp only [List.foldlM, pure, Except.pure, Except.ok.injEq] at h
    subst h
    simp
  | cons fv rest ih =>
    intro acc s h
    obtain ⟨f, v⟩ := fv
    simp only [List.foldlM_cons, bind, Except.bind] at h
    cases hstep : requestField g acc (f, v) with
    | error e => simp [hstep] at h
    | ok s1 =>
      simp only [hstep] at h
      obtain ⟨hreq, hkeys⟩ := ih s1 s h
      cases hparse : parseFieldTag f.Tag with
      | error e =>
        simp [requestField, hparse, bind, Except.bind] at hstep
      | ok tags =>
        by_cases hj : ∃ tag, tagsGet tags "json" = some tag ∧ tag.Name ≠ "-"
        · obtain ⟨tag, hjson, hname⟩ := hj
          obtain ⟨base, _, _, hp, hr⟩ :=
            requestField_tagged g acc s1 f v tags tag hparse hjson hname hstep
          have hjn : jsonName f = some tag.Name := by
            simp [jsonName, hparse, hjson, hname]
          have hrn : requiredName f = if bindingRequired tags then some tag.Name else none := by
            rw [requiredName_eq f tags hparse, hjn]
          constructor
          · rw [hreq, hr, List.filterMap_cons, hrn]
            by_cases hb : bindingRequired tags = true
            · simp [hb]
            · simp [hb]
          · intro k
            rw [hkeys, hp, mem_keys_dictSet, List.filterMap_cons, hjn]
            simp only [List.mem_cons]
            tauto
        · have hskip : ∀ tag, tagsGet tags "json" = some tag → tag.Name = "-" := by
            intro tag ht
            by_contra hne
            exact hj ⟨tag, ht, hne⟩
          have hs1 := requestField_skipped g acc s1 f v tags hparse hskip hstep
          subst hs1
          have hjn : jsonName f = none := by
            simp only [jsonName, hparse]
            cases ht : tagsGet tags "json" with
            | none => rfl
            | some tag => simp [hskip tag ht]
          have hrn : requiredName f = none := by
            rw [requiredName_eq f tags hparse, hjn]
            split <;> rfl
          constructor
          · rw [hreq, List.filterMap_cons, hrn]
          · intro k; rw [hkeys, List.filterMap_cons, hjn]

/-- The response field loop over exported fields of a valid value: the property keys grow by
the `json` names of the fields. -/
theorem responseFields_fold (g : Option GoValue → Except Fault Schema) :
    ∀ (fvs : List (StructField × Option GoValue)) (acc s : Schema),
      (∀ fv ∈ fvs, fv.1.IsExported = true ∧ ∃ v, fv.2 = some v) →
      fvs.foldlM (responseField g) acc = .ok s →
      ∀ k, k ∈ s.Properties.map Prod.fst ↔
        k ∈ acc.Properties.map Prod.fst ∨ k ∈ fvs.filterMap (fun fv => jsonName fv.1) := by
  intro fvs
  induction fvs with
  | nil =>
    intro acc s _ h
    simp only [List.foldlM, pure, Except.pure, Except.ok.injEq] at h
    subst h
    simp
  | cons fv rest ih =>
    intro acc s hall h
    obtain ⟨f, ov⟩ := fv
    obtain ⟨hex, v, hv⟩ := hall (f, ov) (by simp)
    simp only at hv hex
    subst hv
    simp only [List.foldlM_cons, bind, Except.bind] at h
    cases hstep : responseField g acc (f, some v) with
    | error e => simp [hstep] at h
    | ok s1 =>
      simp only [hstep] at h
      have hkeys := ih s1 s (fun fv hfv => hall fv (by simp [hfv])) h
      cases hparse : parseFieldTag f.Tag with
      | error e =>
        exfalso
        unfold responseField at hstep
        simp only [hex, Bool.not_true, Bool.false_eq_true, if_false, bind, Except.bind, pure,
          Except.pure, hparse] at hstep
        split at hstep <;> cases hstep
      | ok tags =>
        by_cases hj : ∃ tag, tagsGet tags "json" = some tag ∧ tag.Name ≠ "-"
        · obtain ⟨tag, hjson, hname⟩ := hj
          obtain ⟨w, base, _, hp, _⟩ :=
            responseField_tagged g acc s1 f v tags tag hex hparse hjson hname hstep
          have hjn : jsonName f = some tag.Name := by
            simp [jsonName, hparse, hjson, hname]
          intro k
          rw [hkeys, hp, mem_keys_dictSet, List.filterMap_cons, hjn]
          simp only [List.mem_cons]
          tauto
        · have hskip : ∀ tag, tagsGet tags "json" = some tag → tag.Name = "-" := by
            intro tag ht
            by_contra hne
            exact hj ⟨tag, ht, hne⟩
          have hs1 := responseField_skipped g acc s1 f (some v)
            (Or.inr (Or.inr ⟨tags, hparse, hskip⟩)) hstep
          subst hs1
          have hjn : jsonName f = none := by
            simp only [jsonName, hparse]
            cases ht : tagsGet tags "json" with
            | none => rfl
            | some tag => simp [hskip tag ht]
          intro k
          rw [hkeys, List.filterMap_cons, hjn]

/-- The field names seen by a loop over the fields zipped with as many values. -/
theorem filterMap_zip_fst {α β γ : Type} (p : α → Option γ) :
    ∀ (l : List α) (vs : List β), vs.length = l.length →
      (l.zip vs).filterMap (fun fv => p fv.1) = l.filterMap p := by
  intro l
  induction l with
  | nil => intro vs _; simp
  | cons a rest ih =>
    intro vs h
    cases vs with
    | nil => simp at h
    | cons b vs =>
      simp only [List.zip_cons_cons, List.filterMap_cons]
      rw [ih vs (by simpa using h)]

/-- The request derivation on a struct value is the field loop over its fields. -/
theorem getRequestSchemaByModel_struct (fuel : Nat) (t : GoType) (fields : List StructField)
    (vals : List GoValue) (ht : t.underlying = .struct fields) :
    getRequestSchemaByModel (fuel + 1) (some (.struct t vals)) =
      (fields.zip vals).foldlM (requestField (fun x => getSchemaByType fuel x true))
        NewObjectSchema := by
  simp only [getRequestSchemaByModel, GoValue.typeOf, derefType, ht, GoValue.fields]

/-- The response derivation on a struct value is the field loop over its fields. -/
theorem getResponseSchemaByModel_struct (fuel : Nat) (t : GoType) (fields : List StructField)
    (vals : List GoValue) (ht : t.underlying = .struct fields) :
    getResponseSchemaByModel (fuel + 1) (some (.struct t vals)) =
      (fields.zip (vals.map some)).foldlM
        (responseField (fun x => getSchemaByType fuel x false)) NewObjectSchema := by
  simp only [getResponseSchemaByModel, GoValue.typeOf, derefType, ht, GoValue.fields]

/-- A visit of the request field loop keeps the type of the schema under construction. -/
theorem requestField_Type (g : Option GoValue → Except Fault Schema) (acc s1 : Schema)
    (fv : StructField × GoValue) (h : requestField g acc fv = .ok s1) :
    s1.Type_ = acc.Type_ := by
  cases hparse : parseFieldTag fv.1.Tag with
  | error e => simp [requestField, hparse, bind, Except.bind] at h
  | ok tags =>
    by_cases hj : ∃ tag, tagsGet tags "json" = some tag ∧ tag.Name ≠ "-"
    · obtain ⟨tag, hjson, hname⟩ := hj
      unfold requestField at h
      simp only [hparse, hjson, hname, bind, Except.bind, if_false, pure, Except.pure] at h
      split at h
      · cases h
      · split at h
        · cases h
        · injection h with h
          subst h
          simp only []
          split <;> rfl
    · have hskip : ∀ tag, tagsGet tags "json" = some tag → tag.Name = "-" := by
        intro tag ht
        by_contra hne
        exact hj ⟨tag, ht, hne⟩
      rw [requestField_skipped g acc s1 fv.1 fv.2 tags hparse hskip h]

/-- The request field loop keeps the type of the schema under construction. -/
theorem requestFields_Type (g : Option GoValue → Except Fault Schema) :
    ∀ (fvs : List (StructField × GoValue)) (acc s : Schema),
      fvs.foldlM (requestField g) acc = .ok s → s.Type_ = acc.Type_ := by
  intro fvs
  induction fvs with
  | nil =>
    intro acc s h
    simp only [List.foldlM, pure, Except.pure, Except.ok.injEq] at h
    rw [h]
  | cons fv rest ih =>
    intro acc s h
    simp only [List.foldlM_cons, bind, Except.bind] at h
    cases hstep : requestField g acc fv with
    | error e => simp [hstep] at h
    | ok s1 =>
      simp only [hstep] at h
      rw [ih s1 s h, requestField_Type g acc s1 fv hstep]

/-- A visit of the response field loop keeps the type of the schema under construction. -/
theorem responseField_Type (g : Option GoValue → Except Fault Schema) (acc s1 : Schema)
    (fv : StructField × Option GoValue) (h : responseField g acc fv = .ok s1) :
    s1.Type_ = acc.Type_ := by
  unfold responseField at h
  simp only [bind, Except.bind, pure, Except.pure] at h
  repeat' split at h
  all_goals first
    | (cases h; done)
    | (cases h; rfl)

/-- The response field loop keeps the type of the schema under construction. -/
theorem responseFields_Type (g : Option GoValue → Except Fault Schema) :
    ∀ (fvs : List (StructField × Option GoValue)) (acc s : Schema),
      fvs.foldlM (responseField g) acc = .ok s → s.Type_ = acc.Type_ := by
  intro fvs
  induction fvs with
  | nil =>
    intro acc s h
    simp only [List.foldlM, pure, Except.pure, Except.ok.injEq] at h
    rw [h]
  | cons fv rest ih =>
    intro acc s h
    simp only [List.foldlM_cons, bind, Except.bind] at h
    cases hstep : responseField g acc fv with
    | error e => simp [hstep] at h
    | ok s1 =>
      simp only [hstep] at h
      rw [ih s1 s h, responseField_Type g acc s1 fv hstep]

/-- C14: for a struct value whose fields are all exported, the property keys of the object
schema derived by `getRequestSchemaByModel`, and of the one derived by
`getResponseSchemaByModel`, are exactly the `json` names of the fields that have a `json`
tag with a name other than `-`. -/
theorem C14_property_keys (fuel : Nat) (t : GoType) (fields : List StructField)
    (vals : List GoValue) (schema : Schema) (ht : t.underlying = .struct fields)
    (hlen : vals.length = fields.length) (hexp : ∀ f ∈ fields, f.IsExported = true)
    (h : getRequestSchemaByModel fuel (some (.struct t vals)) = .ok schema ∨
      getResponseSchemaByModel fuel (some (.struct t vals)) = .ok schema) :
    schema.Type_ = "object" ∧
    ∀ k, k ∈ schema.Properties.map Prod.fst ↔ k ∈ fields.filterMap jsonName := by
  cases fuel with
  | zero => rcases h with h | h <;> simp [getRequestSchemaByModel, getResponseSchemaByModel] at h
  | succ fuel =>
    rcases h with h | h
    · rw [getRequestSchemaByModel_struct fuel t fields vals ht] at h
      refine ⟨by rw [requestFields_Type _ _ _ _ h]; rfl, fun k => ?_⟩
      rw [(requestFields_fold _ _ _ _ h).2 k, filterMap_zip_fst jsonName fields vals hlen]
      simp [NewObjectSchema, emptySchema]
    · rw [getResponseSchemaByModel_struct fuel t fields vals ht] at h
      refine ⟨by rw [responseFields_Type _ _ _ _ h]; rfl, fun k => ?_⟩
      have hall : ∀ fv ∈ fields.zip (vals.map some),
          fv.1.IsExported = true ∧ ∃ v, fv.2 = some v := by
        intro fv hfv
        obtain ⟨f, ov⟩ := fv
        have h1 := List.of_mem_zip hfv
        obtain ⟨v, _, hv⟩ := List.mem_map.mp h1.2
        exact ⟨hexp f h1.1, v, hv.symm⟩
      rw [responseFields_fold _ _ _ _ hall h k,
        filterMap_zip_fst jsonName fields (vals.map some) (by simpa using hlen)]
      simp [NewObjectSchema, emptySchema]

/-- Witness for C14: a struct with the fields `Id` (`json:"id"`), `Skip` (`json:"-"`),
`Note` (no `json` tag) and `Age` (`json:"age"`) derives the property keys `id` and `age`. -/
theorem C14_property_keys_witness :
    (GoType.struct keysFields).underlying = .struct keysFields ∧
    (zeroFields keysFields).length = keysFields.length ∧
    (∀ f ∈ keysFields, f.IsExported = true) ∧
    getRequestSchemaByModel 2 (some (.struct (.struct keysFields) (zeroFields keysFields))) =
      .ok keysSchema ∧
    keysFields.filterMap jsonName = ["id", "age"] ∧
    keysSchema.Type_ = "object" ∧
    ∀ k, k ∈ keysSchema.Properties.map Prod.fst ↔ k ∈ keysFields.filterMap jsonName :=
  have hexp : ∀ f ∈ keysFields, f.IsExported = true := by decide
  have h := C14_property_keys 2 (.struct keysFields) keysFields (zeroFields keysFields)
    keysSchema rfl rfl hexp (Or.inl rfl)
  ⟨rfl, rfl, hexp, rfl, by decide, h.1, h.2⟩

/-- C15: the `Required` list of the object schema that `getRequestSchemaByModel` derives for
a struct value is exactly the list, in field declaration order, of the `json` names of the
fields that have a `json` tag with a name other than `-` and a `binding` tag with the
primary value `required`. -/
theorem C15_required_list (fuel : Nat) (t : GoType) (fields : List StructField)
    (vals : List GoValue) (schema : Schema) (ht : t.underlying = .struct fields)
    (hlen : vals.length = fields.length)
    (h : getRequestSchemaByModel fuel (some (.struct t vals)) = .ok schema) :
    schema.Required = fields.filterMap requiredName := by
  cases fuel with
  | zero => simp [getRequestSchemaByModel] at h
  | succ fuel =>
    rw [getRequestSchemaByModel_struct fuel t fields vals ht] at h
    rw [(requestFields_fold _ _ _ _ h).1, filterMap_zip_fst requiredName fields vals hlen]
    simp [NewObjectSchema, emptySchema]

/-- Witness for C15: of the fields `Id` (`binding:"required"`), `Note` (`binding:"required"`
without a `json` tag) and `Age` (`binding:"-"`), only `id` is listed as required. -/
theorem C15_required_list_witness :
    (GoType.struct keysFields).underlying = .struct keysFields ∧
    (zeroFields keysFields).length = keysFields.length ∧
    getRequestSchemaByModel 2 (some (.struct (.struct keysFields) (zeroFields keysFields))) =
      .ok keysSchema ∧
    keysFields.filterMap requiredName = ["id"] ∧
    keysSchema.Required = keysFields.filterMap requiredName :=
  ⟨rfl, rfl, rfl, by decide,
    C15_required_list 2 (.struct keysFields) keysFields (zeroFields keysFields) keysSchema
      rfl rfl rfl⟩

/-- `getParametersByModel` on a struct value runs the four part steps in order. -/
theorem getParametersByModel_parts (fuel : Nat) (t : GoType) (vals : List GoValue) :
    getParametersByModel fuel (some (.struct t vals)) =
      (partParameters fuel (some (.struct t vals)) "URI" "uri" []).bind (fun p1 =>
        (partParameters fuel (some (.struct t vals)) "Query" "query" p1).bind (fun p2 =>
          (partParameters fuel (some (.struct t vals)) "Cookie" "cookie" p2).bind (fun p3 =>
            partParameters fuel (some (.struct t vals)) "Header" "header" p3))) := rfl

/-- The parameter field loop over fields with valid values: the locations and names grow by
those of the fields that carry the source tag, in order. -/
theorem paramFields_fold (g : Option GoValue → Except Fault Schema) (param : String)
    (hparam : paramIn param ≠ "") :
    ∀ (fvs : List (StructField × Option GoValue)) (acc ps : List Parameter),
      (∀ fv ∈ fvs, ∃ v, fv.2 = some v) →
      fvs.foldlM (paramField g param) acc = .ok ps →
      ps.map (fun p => (p.In, p.Name)) =
        acc.map (fun p => (p.In, p.Name)) ++ fvs.filterMap (fun fv => sourceParam param fv.1) := by
  intro fvs
  induction fvs with
  | nil =>
    intro acc ps _ h
    simp only [List.foldlM, pure, Except.pure, Except.ok.injEq] at h
    subst h
    simp
  | cons fv rest ih =>
    intro acc ps hall h
    obtain ⟨f, ov⟩ := fv
    obtain ⟨v, hv⟩ := hall (f, ov) (by simp)
    simp only at hv
    subst hv
    simp only [List.foldlM_cons, bind, Except.bind] at h
    cases hstep : paramField g param acc (f, some v) with
    | error e => simp [hstep] at h
    | ok ps1 =>
      simp only [hstep] at h
      have hrest := ih ps1 ps (fun fv hfv => hall fv (by simp [hfv])) h
      cases hparse : parseFieldTag f.Tag with
      | error e =>
        simp [paramField, hparse, bind, Except.bind, pure, Except.pure] at hstep
      | ok tags =>
        cases htag : tagsGet tags param with
        | none =>
          have := paramField_skipped g param acc ps1 f v tags hparse htag hstep
          subst this
          have hsp : sourceParam param f = none := by simp [sourceParam, hparse, htag]
          rw [hrest, List.filterMap_cons, hsp]
        | some pt =>
          obtain ⟨base, p, s, _, hps, hin, hname, _, _⟩ :=
            paramField_tagged g param acc ps1 f v tags pt hparam hparse htag hstep
          have hsp : sourceParam param f = some (paramIn param, pt.Name) := by
            simp [sourceParam, hparse, htag]
          rw [hrest, List.filterMap_cons, hsp, hps]
          simp [hin, hname]

/-- One part step of `getParametersByModel` on a struct model whose part, when present, is
a struct value: the locations and names grow by those of the part. -/
theorem partParameters_keys (fuel : Nat) (model : GoValue) (name param : String)
    (ps ps1 : List Parameter) (hparam : paramIn param ≠ "")
    (hpart : ∀ part, FieldByName (some model) name = .ok (some part) → IsStructValue part)
    (h : partParameters fuel (some model) name param ps = .ok ps1) :
    ps1.map (fun p => (p.In, p.Name)) =
      ps.map (fun p => (p.In, p.Name)) ++ expectedPart model name param := by
  unfold partParameters at h
  unfold expectedPart
  simp only [bind, Except.bind, pure, Except.pure] at h
  cases hf : FieldByName (some model) name with
  | error e => simp [hf] at h
  | ok opart =>
    cases opart with
    | none =>
      simp only [hf, Except.ok.injEq] at h
      subst h
      simp
    | some part =>
      obtain ⟨t, vals, fields, rfl, ht, hlen⟩ := hpart part hf
      simp only [hf, GoValue.Interface] at h
      cases hg : getParamTypeByModel fuel (some (.struct t vals)) param with
      | error e => simp [hg] at h
      | ok qs =>
        simp only [hg, Except.ok.injEq] at h
        subst h
        simp only [getParamTypeByModel, GoValue.typeOf, derefType, ht, GoValue.fields] at hg
        have hall : ∀ fv ∈ fields.zip (vals.map some), ∃ v, fv.2 = some v := by
          intro fv hfv
          obtain ⟨v, _, hv⟩ := List.mem_map.mp (List.of_mem_zip hfv).2
          exact ⟨v, hv.symm⟩
        have hq := paramFields_fold _ param hparam _ _ _ hall hg
        rw [filterMap_zip_fst (sourceParam param) fields (vals.map some)
          (by simpa using hlen)] at hq
        simp only [List.map_append, hq, List.map_nil, List.nil_append, structFields, ht]

/-- C18: for a struct model whose parts `URI`, `Query`, `Cookie` and `Header`, where
present, are struct values, `getParametersByModel` returns one parameter per field of a part
that carries the source tag of the part (`uri`, `query`, `cookie`, `header`), located in
`path`, `query`, `cookie`, `header` respectively and named by the tag, in the order of the
parts and, within a part, of the fields; a field without the source tag yields none. -/
theorem C18_parameters_of_parts (fuel : Nat) (t : GoType) (vals : List GoValue)
    (ps : List Parameter)
    (hparts : ∀ name ∈ ["URI", "Query", "Cookie", "Header"], ∀ part,
      FieldByName (some (.struct t vals)) name = .ok (some part) → IsStructValue part)
    (h : getParametersByModel fuel (some (.struct t vals)) = .ok ps) :
    ps.map (fun p => (p.In, p.Name)) = expectedParameters (.struct t vals) := by
  rw [getParametersByModel_parts] at h
  cases h1 : partParameters fuel (some (.struct t vals)) "URI" "uri" [] with
  | error e => simp [h1, Except.bind] at h
  | ok p1 =>
    simp only [h1, Except.bind] at h
    cases h2 : partParameters fuel (some (.struct t vals)) "Query" "query" p1 with
    | error e => simp [h2] at h
    | ok p2 =>
      simp only [h2] at h
      cases h3 : partParameters fuel (some (.struct t vals)) "Cookie" "cookie" p2 with
      | error e => simp [h3] at h
      | ok p3 =>
        simp only [h3] at h
        have k1 := partParameters_keys fuel _ "URI" "uri" [] p1 (by decide)
          (hparts "URI" (by simp)) h1
        have k2 := partParameters_keys fuel _ "Query" "query" p1 p2 (by decide)
          (hparts "Query" (by simp)) h2
        have k3 := partParameters_keys fuel _ "Cookie" "cookie" p2 p3 (by decide)
          (hparts "Cookie" (by simp)) h3
        have k4 := partParameters_keys fuel _ "Header" "header" p3 ps (by decide)
          (hparts "Header" (by simp)) h
        rw [k4, k3, k2, k1]
        simp [expectedParameters]

/-- Witness for C18: a model with the parts `Header`, `Query`, `Body` and `URI` yields the
parameters `id` in `path`, `q` in `query` and `X-Foo` in `header`, in this order. -/
theorem C18_parameters_of_parts_witness :
    getParametersByModel 2 (some (.struct (.struct partsFields) (zeroFields partsFields))) =
      .ok partsParameters ∧
    expectedParameters (.struct (.struct partsFields) (zeroFields partsFields)) =
      [("path", "id"), ("query", "q"), ("header", "X-Foo")] ∧
    partsParameters.map (fun p => (p.In, p.Name)) =
      expectedParameters (.struct (.struct partsFields) (zeroFields partsFields)) :=
  ⟨rfl, by decide,
    C18_parameters_of_parts 2 (.struct partsFields) (zeroFields partsFields) partsParameters
      (by
        intro name hname part hp
        simp only [List.mem_cons, List.mem_singleton, List.not_mem_nil, or_false] at hname
        rcases hname with rfl | rfl | rfl | rfl
        · have hv : FieldByName (some (.struct (.struct partsFields) (zeroFields partsFields)))
              "URI" = .ok (some (zeroValue (.struct [.mk "Id" "uri:\"id\"" (.basic .string) "",
                .mk "Note" "json:\"note\"" (.basic .string) ""]))) := rfl
          rw [hv] at hp
          injection hp with hp
          injection hp with hp
          subst hp
          exact ⟨_, _, _, rfl, rfl, rfl⟩
        · have hv : FieldByName (some (.struct (.struct partsFields) (zeroFields partsFields)))
              "Query" = .ok (some (zeroValue (.struct [.mk "Q" "query:\"q\"" (.basic .string) ""]))) := rfl
          rw [hv] at hp
          injection hp with hp
          injection hp with hp
          subst hp
          exact ⟨_, _, _, rfl, rfl, rfl⟩
        · have hv : FieldByName (some (.struct (.struct partsFields) (zeroFields partsFields)))
              "Cookie" = .ok none := rfl
          rw [hv] at hp
          injection hp with hp
          cases hp
        · have hv : FieldByName (some (.struct (.struct partsFields) (zeroFields partsFields)))
              "Header" = .ok (some (zeroValue (.struct [.mk "H" "header:\"X-Foo\""
                (.basic .string) ""]))) := rfl
          rw [hv] at hp
          injection hp with hp
          injection hp with hp
          subst hp
          exact ⟨_, _, _, rfl, rfl, rfl⟩)
      rfl⟩

/-- `getSecurityRequirements` registers every requirement in turn and lists the providers. -/
theorem getSecurityRequirements_eq (securities : List ISecurity) :
    ∀ (schemes : List (String × String)) (acc : List String),
      securities.foldl
        (fun acc s => (dictSet acc.1 s.Provider s.Scheme, acc.2 ++ [s.Provider]))
        (schemes, acc) =
      (securities.foldl registerScheme schemes, acc ++ securities.map (fun s => s.Provider)) := by
  induction securities with
  | nil => intro schemes acc; simp
  | cons s rest ih =>
    intro schemes acc
    simp only [List.foldl_cons, ih, List.map_cons, registerScheme, List.append_assoc,
      List.singleton_append]

/-- The operation of a route lists the providers of its security requirements, and the
table gets the requirements of the route registered. -/
theorem routeOperation_security (fuel : Nat) (schemes : List (String × String)) (r : Router)
    (res : List (String × String) × Operation) (h : routeOperation fuel schemes r = .ok res) :
    res.1 = r.Securities.foldl registerScheme schemes ∧
    res.2.Security = r.Securities.map (fun s => s.Provider) := by
  have hsec := getSecurityRequirements_eq r.Securities schemes []
  unfold routeOperation at h
  simp only [bind, Except.bind, pure, Except.pure, getSecurityRequirements, hsec,
    List.nil_append] at h
  repeat' split at h
  all_goals first
    | (cases h; done)
    | (cases h; exact ⟨rfl, rfl⟩)

/-- The inner loop of `getPaths` registers the requirements of the routes that are not
excluded. -/
theorem pathItemOf_schemes (fuel : Nat) (m : List (String × Router)) :
    ∀ (acc res : List (String × String) × PathItem),
      m.foldlM (fun acc mr =>
        if mr.2.Exclude then pure acc
        else do
          let res ← routeOperation fuel acc.1 mr.2
          pure (res.1, setOperation acc.2 mr.1 res.2)) acc = Except.ok res →
      res.1 = (m.flatMap (fun mr => if mr.2.Exclude then [] else mr.2.Securities)).foldl
        registerScheme acc.1 := by
  induction m with
  | nil =>
    intro acc res h
    simp only [List.foldlM, pure, Except.pure, Except.ok.injEq] at h
    subst h
    rfl
  | cons mr rest ih =>
    intro acc res h
    simp only [List.foldlM_cons, bind, Except.bind] at h
    by_cases hex : mr.2.Exclude = true
    · simp only [hex, if_true, pure, Except.pure] at h
      rw [ih acc res h]
      simp [List.flatMap_cons, hex]
    · simp only [hex, Bool.false_eq_true, if_false, pure, Except.pure] at h
      cases hro : routeOperation fuel acc.1 mr.2 with
      | error e => simp [hro] at h
      | ok ro =>
        simp only [hro] at h
        rw [ih _ res h]
        simp only [List.flatMap_cons, hex, Bool.false_eq_true, if_false, List.foldl_append,
          (routeOperation_security fuel acc.1 mr.2 ro hro).1]

/-- `getPaths` registers the requirements of the routes that are not excluded. -/
theorem getPaths_schemes (fuel : Nat) (Routers : List (String × List (String × Router))) :
    ∀ (acc res : List (String × String) × List (String × PathItem)),
      Routers.foldlM (fun acc pm => do
        let res ← pathItemOf fuel acc.1 pm.2
        if res.2.hasOperation then pure (res.1, dictSet acc.2 (fixPath pm.1) res.2)
        else pure (res.1, acc.2)) acc = Except.ok res →
      res.1 = (documentedSecurities Routers).foldl registerScheme acc.1 := by
  induction Routers with
  | nil =>
    intro acc res h
    simp only [List.foldlM, pure, Except.pure, Except.ok.injEq] at h
    subst h
    rfl
  | cons pm rest ih =>
    intro acc res h
    simp only [List.foldlM_cons, bind, Except.bind] at h
    cases hp : pathItemOf fuel acc.1 pm.2 with
    | error e => simp [hp] at h
    | ok pi =>
      simp only [hp] at h
      have hpi := pathItemOf_schemes fuel pm.2 _ pi hp
      simp only at hpi
      by_cases hhas : pi.2.hasOperation = true
      · simp only [hhas, if_true, pure, Except.pure] at h
        rw [ih _ res h]
        simp only [documentedSecurities, List.flatMap_cons, List.foldl_append, hpi]
      · simp only [hhas, Bool.false_eq_true, if_false, pure, Except.pure] at h
        rw [ih _ res h]
        simp only [documentedSecurities, List.flatMap_cons, List.foldl_append, hpi]

/-- The lookup of another key is not changed by an assignment. -/
theorem dictGet_dictSet_other {α : Type} (m : List (String × α)) (k k1 : String) (v : α)
    (hne : k1 ≠ k) : dictGet (dictSet m k v) k1 = dictGet m k1 := by
  induction m with
  | nil =>
    have : ¬ k = k1 := fun e => hne e.symm
    simp [dictSet, dictGet, this]
  | cons a rest ih =>
    obtain ⟨k2, v2⟩ := a
    by_cases h : k2 = k
    · subst h
      have : ¬ k2 = k1 := fun e => hne e.symm
      simp [dictSet, dictGet, this]
    · simp only [dictSet, h, if_false]
      by_cases h2 : k2 = k1
      · simp [dictGet, h2]
      · simp only [dictGet, List.find?, h2, decide_False] at ih ⊢
        exact ih

/-- The keys of the table after registering a list of requirements. -/
theorem mem_keys_registered (l : List ISecurity) :
    ∀ (acc : List (String × String)) (k : String),
      k ∈ (l.foldl registerScheme acc).map Prod.fst ↔
        k ∈ acc.map Prod.fst ∨ ∃ s ∈ l, s.Provider = k := by
  induction l with
  | nil => intro acc k; simp
  | cons s rest ih =>
    intro acc k
    simp only [List.foldl_cons, ih, registerScheme, mem_keys_dictSet, List.mem_cons,
      exists_eq_or_imp]
    constructor
    · rintro ((h | h) | h)
      · exact Or.inl h
      · exact Or.inr (Or.inl h.symm)
      · exact Or.inr (Or.inr h)
    · rintro (h | h | h)
      · exact Or.inl (Or.inl h)
      · exact Or.inl (Or.inr h.symm)
      · exact Or.inr h

/-- The table after registering a list of requirements maps a key to the scheme of the last
requirement with that provider, and else to what it held before. -/
theorem dictGet_registered (l : List ISecurity) :
    ∀ (acc : List (String × String)) (k : String),
      dictGet (l.foldl registerScheme acc) k =
        match l.reverse.find? (fun s => s.Provider = k) with
        | some s => some s.Scheme
        | none => dictGet acc k := by
  induction l with
  | nil => intro acc k; simp
  | cons s rest ih =>
    intro acc k
    simp only [List.foldl_cons, ih, List.reverse_cons, List.find?_append]
    cases hr : rest.reverse.find? (fun s => s.Provider = k) with
    | some s1 => simp
    | none =>
      by_cases hk : s.Provider = k
      · subst hk
        simp [registerScheme, dictGet_dictSet_same]
      · have hk' : k ≠ s.Provider := fun e => hk e.symm
        simp [hk, registerScheme, dictGet_dictSet_other _ _ _ _ hk']

/-- C19: after `BuildOpenAPI` the security-scheme table of the document is the result of
registering, from the empty table, the security requirements of the routes that are not
excluded, in iteration order: its keys are exactly their providers and each key maps to the
scheme of the last requirement registered with that provider; every operation of the
document lists the providers of the requirements of its route, in the order of the route;
and the result does not depend on a document built before. -/
theorem C19_security_schemes (fuel : Nat) (sw sw1 : Swagger) (doc : T)
    (hbuild : sw.BuildOpenAPI fuel = .ok sw1) (hdoc : sw1.OpenAPI = some doc) :
    doc.SecuritySchemes = (documentedSecurities sw.Routers).foldl registerScheme [] ∧
    (∀ k, k ∈ doc.SecuritySchemes.map Prod.fst ↔
      ∃ s ∈ documentedSecurities sw.Routers, s.Provider = k) ∧
    (∀ k, dictGet doc.SecuritySchemes k =
      ((documentedSecurities sw.Routers).reverse.find? (fun s => s.Provider = k)).map
        (fun s => s.Scheme)) ∧
    (∀ k item m op, (k, item) ∈ doc.Paths → item.slot m = some op →
      ∃ path ms r, (path, ms) ∈ sw.Routers ∧ (m, r) ∈ ms ∧ fixPath path = k ∧
        r.Exclude = false ∧ op.Security = r.Securities.map (fun s => s.Provider)) ∧
    (∀ old, ({ sw with OpenAPI := old }).BuildOpenAPI fuel = sw.BuildOpenAPI fuel) := by
  unfold Swagger.BuildOpenAPI at hbuild
  simp only [bind, Except.bind, pure, Except.pure] at hbuild
  cases hp : getPaths fuel sw.Routers [] with
  | error e => simp [hp] at hbuild
  | ok res =>
    simp only [hp, Except.ok.injEq] at hbuild
    subst hbuild
    simp only [Option.some.injEq] at hdoc
    subst hdoc
    have hs : res.1 = (documentedSecurities sw.Routers).foldl registerScheme [] :=
      getPaths_schemes fuel sw.Routers _ res hp
    refine ⟨hs, ?_, ?_, ?_, fun old => rfl⟩
    · intro k
      simp only [hs, mem_keys_registered, List.map_nil, List.not_mem_nil, false_or]
    · intro k
      simp only [hs, dictGet_registered]
      cases (documentedSecurities sw.Routers).reverse.find? (fun s => s.Provider = k) with
      | some s => rfl
      | none => rfl
    · intro k item m op hk hslot
      obtain ⟨path, ms, r, hmem, hmr, hfix, hex, sch, hro⟩ :=
        document_operation_origin fuel sw.Routers res hp k item m op hk hslot
      refine ⟨path, ms, r, hmem, hmr, hfix, hex, ?_⟩
      cases hr : routeOperation fuel sch r with
      | error e => simp [hr, Except.map] at hro
      | ok ro =>
        simp only [hr, Except.map, Except.ok.injEq] at hro
        rw [← hro]
        exact (routeOperation_security fuel sch r ro hr).2

/-- Witness for C19: with `BasicAuth` registered by `/a` and then by `/b`, `BearerAuth` by
`/b` and `ApiKeyAuth` only by an excluded route, the table holds `BasicAuth` with the scheme
of `/b` and `BearerAuth`. -/
theorem C19_security_schemes_witness :
    securitySwagger.BuildOpenAPI 2 = .ok securityBuilt ∧
    securityBuilt.OpenAPI = some securityDoc ∧
    documentedSecurities securitySwagger.Routers =
      [⟨"BasicAuth", "first", 10⟩, ⟨"BasicAuth", "second", 11⟩, ⟨"BearerAuth", "third", 12⟩] ∧
    securityDoc.SecuritySchemes =
      (documentedSecurities securitySwagger.Routers).foldl registerScheme [] ∧
    dictGet securityDoc.SecuritySchemes "BasicAuth" =
      ((documentedSecurities securitySwagger.Routers).reverse.find?
        (fun s => s.Provider = "BasicAuth")).map (fun s => s.Scheme) :=
  have h := C19_security_schemes 2 securitySwagger securityBuilt securityDoc rfl rfl
  ⟨rfl, rfl, by decide, h.1, h.2.2.1 "BasicAuth"⟩

/-- The slots of a path item after the method dispatch: the slot of a standard method just
set holds the operation, every other slot is as before. -/
theorem slot_setOperation_eq (item : PathItem) (method m : String) (op : Operation) :
    (setOperation item method op).slot m =
      if m = method ∧ m ∈ standardMethods then some op else item.slot m := by
  by_cases hGet : method = "GET"
  · subst hGet
    have hset : setOperation item "GET" op = { item with Get := some op } := by
      simp [setOperation]
    rw [hset]
    by_cases hm : m = "GET"
    · subst hm
      simp [PathItem.slot, standardMethods]
    · simp [PathItem.slot, hm]
  by_cases hPost : method = "POST"
  · subst hPost
    have hset : setOperation item "POST" op = { item with Post := some op } := by
      simp [setOperation]
    rw [hset]
    by_cases hm : m = "POST"
    · subst hm
      simp [PathItem.slot, standardMethods]
    · simp [PathItem.slot, hm]
  by_cases hDelete : method = "DELETE"
  · subst hDelete
    have hset : setOperation item "DELETE" op = { item with Delete := some op } := by
      simp [setOperation]
    rw [hset]
    by_cases hm : m = "DELETE"
    · subst hm
      simp [PathItem.slot, standardMethods]
    · simp [PathItem.slot, hm]
  by_cases hPut : method = "PUT"
  · subst hPut
    have hset : setOperation item "PUT" op = { item with Put := some op } := by
      simp [setOperation]
    rw [hset]
    by_cases hm : m = "PUT"
    · subst hm
      simp [PathItem.slot, standardMethods]
    · simp [PathItem.slot, hm]
  by_cases hPatch : method = "PATCH"
  · subst hPatch
    have hset : setOperation item "PATCH" op = { item with Patch := some op } := by
      simp [setOperation]
    rw [hset]
    by_cases hm : m = "PATCH"
    · subst hm
      simp [PathItem.slot, standardMethods]
    · simp [PathItem.slot, hm]
  by_cases hHead : method = "HEAD"
  · subst hHead
    have hset : setOperation item "HEAD" op = { item with Head := some op } := by
      simp [setOperation]
    rw [hset]
    by_cases hm : m = "HEAD"
    · subst hm
      simp [PathItem.slot, standardMethods]
    · simp [PathItem.slot, hm]
  by_cases hOptions : method = "OPTIONS"
  · subst hOptions
    have hset : setOperation item "OPTIONS" op = { item with Options := some op } := by
      simp [setOperation]
    rw [hset]
    by_cases hm : m = "OPTIONS"
    · subst hm
      simp [PathItem.slot, standardMethods]
    · simp [PathItem.slot, hm]
  by_cases hConnect : method = "CONNECT"
  · subst hConnect
    have hset : setOperation item "CONNECT" op = { item with Connect := some op } := by
      simp [setOperation]
    rw [hset]
    by_cases hm : m = "CONNECT"
    · subst hm
      simp [PathItem.slot, standardMethods]
    · simp [PathItem.slot, hm]
  by_cases hTrace : method = "TRACE"
  · subst hTrace
    have hset : setOperation item "TRACE" op = { item with Trace := some op } := by
      simp [setOperation]
    rw [hset]
    by_cases hm : m = "TRACE"
    · subst hm
      simp [PathItem.slot, standardMethods]
    · simp [PathItem.slot, hm]
  have hset : setOperation item method op = item := by
    simp [setOperation, hGet, hPost, hDelete, hPut, hPatch, hHead, hOptions, hConnect, hTrace]
  rw [hset]
  by_cases hm : m = method
  · subst hm
    simp [standardMethods, hGet, hPost, hDelete, hPut, hPatch, hHead, hOptions, hConnect, hTrace]
  · simp [hm]

/-- A path item passes the test of line 558 exactly when a standard slot is set. -/
theorem hasOperation_iff (item : PathItem) :
    item.hasOperation = true ↔ ∃ m ∈ standardMethods, (item.slot m).isSome = true := by
  simp [PathItem.hasOperation, standardMethods, PathItem.slot]
  tauto

/-- A path has a documented route exactly when some route under a standard method is not
excluded. -/
theorem documented_iff (ms : List (String × Router)) :
    documented ms = true ↔
      ∃ m ∈ standardMethods, ∃ r, (m, r) ∈ ms ∧ r.Exclude = false := by
  simp only [documented, List.any_eq_true, Bool.and_eq_true, decide_eq_true_eq,
    Bool.not_eq_true']
  constructor
  · rintro ⟨⟨m, r⟩, hmem, hstd, hex⟩
    exact ⟨m, hstd, r, hmem, hex⟩
  · rintro ⟨m, hstd, r, hmem, hex⟩
    exact ⟨(m, r), hmem, hstd, hex⟩

/-- The inner loop of `getPaths` fills the slot of every standard method that has a route
which is not excluded, and keeps the slots that were filled. -/
theorem pathItemOf_slot_isSome (fuel : Nat) (ms : List (String × Router)) :
    ∀ (acc res : List (String × String) × PathItem),
      ms.foldlM (fun acc mr =>
        if mr.2.Exclude then pure acc
        else do
          let res ← routeOperation fuel acc.1 mr.2
          pure (res.1, setOperation acc.2 mr.1 res.2)) acc = Except.ok res →
      ∀ m ∈ standardMethods,
        ((acc.2.slot m).isSome = true ∨ ∃ r, (m, r) ∈ ms ∧ r.Exclude = false) →
        (res.2.slot m).isSome = true := by
  induction ms with
  | nil =>
    intro acc res h m _ hor
    simp only [List.foldlM, pure, Except.pure, Except.ok.injEq] at h
    subst h
    rcases hor with h | ⟨r, hmem, _⟩
    · exact h
    · simp at hmem
  | cons mr rest ih =>
    intro acc res h m hstd hor
    simp only [List.foldlM_cons, bind, Except.bind] at h
    by_cases hex : mr.2.Exclude = true
    · simp only [hex, if_true, pure, Except.pure] at h
      refine ih acc res h m hstd ?_
      rcases hor with h1 | ⟨r, hmem, hr⟩
      · exact Or.inl h1
      · simp only [List.mem_cons] at hmem
        rcases hmem with hmem | hmem
        · rw [← hmem] at hex
          simp only at hex
          rw [hex] at hr
          cases hr
        · exact Or.inr ⟨r, hmem, hr⟩
    · simp only [hex, Bool.false_eq_true, if_false, pure, Except.pure] at h
      cases hro : routeOperation fuel acc.1 mr.2 with
      | error e => simp [hro] at h
      | ok ro =>
        simp only [hro] at h
        refine ih _ res h m hstd ?_
        simp only [slot_setOperation_eq]
        by_cases hm : m = mr.1
        · left
          rw [if_pos ⟨hm, hstd⟩]
          rfl
        · rcases hor with h1 | ⟨r, hmem, hr⟩
          · left
            rw [if_neg (fun h => hm h.1)]
            exact h1
          · simp only [List.mem_cons] at hmem
            rcases hmem with hmem | hmem
            · exact absurd (congrArg Prod.fst hmem) hm
            · exact Or.inr ⟨r, hmem, hr⟩

/-- The path item built for a path has the slot of a standard method filled exactly when a
route of the path under that method is not excluded. -/
theorem pathItemOf_slot_iff (fuel : Nat) (schemes : List (String × String))
    (ms : List (String × Router)) (res : List (String × String) × PathItem)
    (h : pathItemOf fuel schemes ms = .ok res) (m : String) (hstd : m ∈ standardMethods) :
    (res.2.slot m).isSome = true ↔ ∃ r, (m, r) ∈ ms ∧ r.Exclude = false := by
  constructor
  · intro hs
    obtain ⟨op, hop⟩ := Option.isSome_iff_exists.mp hs
    rcases pathItemOf_slot fuel ms _ _ h m op hop with h1 | ⟨r, _, hmem, hex, _⟩
    · rw [emptyPathItem_slot] at h1; cases h1
    · exact ⟨r, hmem, hex⟩
  · intro hr
    exact pathItemOf_slot_isSome fuel ms _ _ h m hstd (Or.inr hr)

/-- The path item built for a path passes the test of line 558 exactly when the path has a
documented route. -/
theorem pathItemOf_hasOperation (fuel : Nat) (schemes : List (String × String))
    (ms : List (String × Router)) (res : List (String × String) × PathItem)
    (h : pathItemOf fuel schemes ms = .ok res) :
    res.2.hasOperation = true ↔ documented ms = true := by
  rw [hasOperation_iff, documented_iff]
  constructor
  · rintro ⟨m, hstd, hs⟩
    exact ⟨m, hstd, (pathItemOf_slot_iff fuel schemes ms res h m hstd).mp hs⟩
  · rintro ⟨m, hstd, hr⟩
    exact ⟨m, hstd, (pathItemOf_slot_iff fuel schemes ms res h m hstd).mpr hr⟩

/-- The keys of the paths that `getPaths` builds are the keys held before and the rewritten
paths of the registered paths with a documented route; every item added has an
operation. -/
theorem getPaths_keys (fuel : Nat) (Routers : List (String × List (String × Router))) :
    ∀ (acc res : List (String × String) × List (String × PathItem)),
      Routers.foldlM (fun acc pm => do
        let res ← pathItemOf fuel acc.1 pm.2
        if res.2.hasOperation then pure (res.1, dictSet acc.2 (fixPath pm.1) res.2)
        else pure (res.1, acc.2)) acc = Except.ok res →
      (∀ k, k ∈ res.2.map Prod.fst ↔
        k ∈ acc.2.map Prod.fst ∨
        ∃ path ms, (path, ms) ∈ Routers ∧ fixPath path = k ∧ documented ms = true) ∧
      (∀ e ∈ res.2, e ∈ acc.2 ∨ e.2.hasOperation = true) := by
  induction Routers with
  | nil =>
    intro acc res h
    simp only [List.foldlM, pure, Except.pure, Except.ok.injEq] at h
    subst h
    exact ⟨fun k => by simp, fun e he => Or.inl he⟩
  | cons pm rest ih =>
    intro acc res h
    simp only [List.foldlM_cons, bind, Except.bind] at h
    cases hp : pathItemOf fuel acc.1 pm.2 with
    | error e => simp [hp] at h
    | ok pi =>
      simp only [hp] at h
      have hdoc := pathItemOf_hasOperation fuel acc.1 pm.2 pi hp
      by_cases hhas : pi.2.hasOperation = true
      · simp only [hhas, if_true, pure, Except.pure] at h
        obtain ⟨hk, hi⟩ := ih _ res h
        constructor
        · intro k
          rw [hk k]
          simp only [mem_keys_dictSet, List.mem_cons, exists_eq_or_imp]
          constructor
          · rintro ((h1 | h1) | ⟨path, ms, hmem, hfix, hd⟩)
            · exact Or.inl h1
            · exact Or.inr ⟨pm.1, pm.2, Or.inl rfl, h1.symm, hdoc.mp hhas⟩
            · exact Or.inr ⟨path, ms, Or.inr hmem, hfix, hd⟩
          · rintro (h1 | ⟨path, ms, hmem | hmem, hfix, hd⟩)
            · exact Or.inl (Or.inl h1)
            · subst hmem
              exact Or.inl (Or.inr hfix.symm)
            · exact Or.inr ⟨path, ms, hmem, hfix, hd⟩
        · intro e he
          rcases hi e he with h1 | h1
          · rcases mem_dictSet _ _ _ _ h1 with h2 | h2
            · exact Or.inl h2
            · subst h2
              exact Or.inr hhas
          · exact Or.inr h1
      · simp only [hhas, Bool.false_eq_true, if_false, pure, Except.pure] at h
        obtain ⟨hk, hi⟩ := ih _ res h
        have hnd : ¬ documented pm.2 = true := fun hd => hhas (hdoc.mpr hd)
        constructor
        · intro k
          rw [hk k]
          simp only [List.mem_cons]
          constructor
          · rintro (h1 | ⟨path, ms, hmem, hfix, hd⟩)
            · exact Or.inl h1
            · exact Or.inr ⟨path, ms, Or.inr hmem, hfix, hd⟩
          · rintro (h1 | ⟨path, ms, hmem | hmem, hfix, hd⟩)
            · exact Or.inl h1
            · subst hmem
              exact absurd hd hnd
            · exact Or.inr ⟨path, ms, hmem, hfix, hd⟩
        · exact hi

/-- C12 (amended): after `BuildOpenAPI` the keys of the paths of the document are exactly
the rewritten paths of the registered paths that have a route under a standard method that
is not excluded; every path item of the document has an operation; and the rewritten path
of a registered path without such a route, which no other registered path shares, is no key
of the document. -/
theorem C12_document_path_keys (fuel : Nat) (sw sw1 : Swagger) (doc : T)
    (hbuild : sw.BuildOpenAPI fuel = .ok sw1) (hdoc : sw1.OpenAPI = some doc) :
    (∀ k, k ∈ doc.Paths.map Prod.fst ↔
      ∃ path ms, (path, ms) ∈ sw.Routers ∧ fixPath path = k ∧ documented ms = true) ∧
    (∀ k item, (k, item) ∈ doc.Paths → item.hasOperation = true) ∧
    (∀ path ms, (path, ms) ∈ sw.Routers → documented ms = false →
      (∀ path1 ms1, (path1, ms1) ∈ sw.Routers → fixPath path1 = fixPath path → ms1 = ms) →
      fixPath path ∉ doc.Paths.map Prod.fst) := by
  unfold Swagger.BuildOpenAPI at hbuild
  simp only [bind, Except.bind, pure, Except.pure] at hbuild
  cases hp : getPaths fuel sw.Routers [] with
  | error e => simp [hp] at hbuild
  | ok res =>
    simp only [hp, Except.ok.injEq] at hbuild
    subst hbuild
    simp only [Option.some.injEq] at hdoc
    subst hdoc
    obtain ⟨hk, hi⟩ := getPaths_keys fuel sw.Routers _ res hp
    have hkeys : ∀ k, k ∈ res.2.map Prod.fst ↔
        ∃ path ms, (path, ms) ∈ sw.Routers ∧ fixPath path = k ∧ documented ms = true := by
      intro k
      rw [hk k]
      simp
    refine ⟨hkeys, ?_, ?_⟩
    · intro k item hmem
      rcases hi (k, item) hmem with h1 | h1
      · simp at h1
      · exact h1
    · intro path ms hmem hnd hsame hin
      obtain ⟨path1, ms1, hmem1, hfix, hd⟩ := (hkeys _).mp hin
      rw [hsame path1 ms1 hmem1 hfix, hnd] at hd
      cases hd

/-- Witness for C12: with `GET /ping` excluded and `POST /body` documented, the only key of
the document is `/body`. -/
theorem C12_document_path_keys_witness :
    excludedSwagger.BuildOpenAPI 3 = .ok excludedBuilt ∧
    excludedBuilt.OpenAPI = some excludedDoc ∧
    excludedDoc.Paths.map Prod.fst = ["/body"] ∧
    (∀ k, k ∈ excludedDoc.Paths.map Prod.fst ↔
      ∃ path ms, (path, ms) ∈ excludedSwagger.Routers ∧ fixPath path = k ∧
        documented ms = true) ∧
    fixPath "/ping" ∉ excludedDoc.Paths.map Prod.fst :=
  have h := C12_document_path_keys 3 excludedSwagger excludedBuilt excludedDoc rfl rfl
  ⟨rfl, rfl, rfl, h.1,
    h.2.2 "/ping" [("GET", { NewX 1 with Exclude := true })] (by simp [excludedSwagger]) rfl
      (by
        intro path1 ms1 hmem hfix
        simp only [excludedSwagger, List.mem_cons, Prod.mk.injEq, List.mem_singleton,
          List.not_mem_nil, or_false] at hmem
        rcases hmem with ⟨_, h2⟩ | ⟨h1, _⟩
        · exact h2
        · subst h1; exact absurd hfix (by decide))⟩

/-- A value found by a lookup is the value of an entry. -/
theorem dictGet_mem {α : Type} (m : List (String × α)) (k : String) (v : α)
    (h : dictGet m k = some v) : (k, v) ∈ m := by
  unfold dictGet at h
  cases hf : m.find? (fun e => e.1 = k) with
  | none => simp [hf] at h
  | some e =>
    simp only [hf, Option.map_some', Option.some.injEq] at h
    have hk : e.1 = k := by simpa using List.find?_some hf
    have hmem := List.mem_of_find?_eq_some hf
    obtain ⟨k1, v1⟩ := e
    simp only at hk h
    subst hk; subst h
    exact hmem

/-- Once the document holds, under a key, an item with the slot of a method filled, it still
does after `getPaths` has gone through further paths, provided each of them with the same
rewritten key has routes that fill the slot. -/
theorem getPaths_slot_kept (fuel : Nat) (k m : String) (hstd : m ∈ standardMethods)
    (Routers : List (String × List (String × Router))) :
    ∀ (acc res : List (String × String) × List (String × PathItem)),
      Routers.foldlM (fun acc pm => do
        let res ← pathItemOf fuel acc.1 pm.2
        if res.2.hasOperation then pure (res.1, dictSet acc.2 (fixPath pm.1) res.2)
        else pure (res.1, acc.2)) acc = Except.ok res →
      (∀ pm ∈ Routers, fixPath pm.1 = k → ∃ r, (m, r) ∈ pm.2 ∧ r.Exclude = false) →
      (∃ item, dictGet acc.2 k = some item ∧ (item.slot m).isSome = true) →
      ∃ item, dictGet res.2 k = some item ∧ (item.slot m).isSome = true := by
  induction Routers with
  | nil =>
    intro acc res h _ hgood
    simp only [List.foldlM, pure, Except.pure, Except.ok.injEq] at h
    subst h
    exact hgood
  | cons pm rest ih =>
    intro acc res h hall hgood
    simp only [List.foldlM_cons, bind, Except.bind] at h
    cases hp : pathItemOf fuel acc.1 pm.2 with
    | error e => simp [hp] at h
    | ok pi =>
      simp only [hp] at h
      have hrest : ∀ pm1 ∈ rest, fixPath pm1.1 = k → ∃ r, (m, r) ∈ pm1.2 ∧ r.Exclude = false :=
        fun pm1 h1 => hall pm1 (by simp [h1])
      by_cases hhas : pi.2.hasOperation = true
      · simp only [hhas, if_true, pure, Except.pure] at h
        refine ih _ res h hrest ?_
        by_cases hk : fixPath pm.1 = k
        · refine ⟨pi.2, by rw [hk, dictGet_dictSet_same], ?_⟩
          exact (pathItemOf_slot_iff fuel acc.1 pm.2 pi hp m hstd).mpr (hall pm (by simp) hk)
        · obtain ⟨item, hget, hs⟩ := hgood
          exact ⟨item, by rw [dictGet_dictSet_other _ _ _ _ (fun e => hk e.symm)]; exact hget, hs⟩
      · simp only [hhas, Bool.false_eq_true, if_false, pure, Except.pure] at h
        exact ih _ res h hrest hgood

/-- After `getPaths` the document holds, under the rewritten key of a registered path, an
item with the slot of a standard method filled, when the path has a route under the method
that is not excluded and so has every registered path with the same rewritten key. -/
theorem getPaths_slot_filled (fuel : Nat) (k m : String) (hstd : m ∈ standardMethods)
    (Routers : List (String × List (String × Router))) :
    ∀ (acc res : List (String × String) × List (String × PathItem)),
      Routers.foldlM (fun acc pm => do
        let res ← pathItemOf fuel acc.1 pm.2
        if res.2.hasOperation then pure (res.1, dictSet acc.2 (fixPath pm.1) res.2)
        else pure (res.1, acc.2)) acc = Except.ok res →
      (∀ pm ∈ Routers, fixPath pm.1 = k → ∃ r, (m, r) ∈ pm.2 ∧ r.Exclude = false) →
      (∃ pm ∈ Routers, fixPath pm.1 = k) →
      ∃ item, dictGet res.2 k = some item ∧ (item.slot m).isSome = true := by
  induction Routers with
  | nil => intro acc res _ _ hex; simp at hex
  | cons pm rest ih =>
    intro acc res h hall hex
    have h0 := h
    simp only [List.foldlM_cons, bind, Except.bind] at h
    cases hp : pathItemOf fuel acc.1 pm.2 with
    | error e => simp [hp] at h
    | ok pi =>
      simp only [hp] at h
      have hrest : ∀ pm1 ∈ rest, fixPath pm1.1 = k → ∃ r, (m, r) ∈ pm1.2 ∧ r.Exclude = false :=
        fun pm1 h1 => hall pm1 (by simp [h1])
      by_cases hk : fixPath pm.1 = k
      · have hslot := (pathItemOf_slot_iff fuel acc.1 pm.2 pi hp m hstd).mpr
          (hall pm (by simp) hk)
        have hhas : pi.2.hasOperation = true := (hasOperation_iff _).mpr ⟨m, hstd, hslot⟩
        simp only [hhas, if_true, pure, Except.pure] at h
        exact getPaths_slot_kept fuel k m hstd rest _ res h hrest
          ⟨pi.2, by rw [hk, dictGet_dictSet_same], hslot⟩
      · have hex1 : ∃ pm1 ∈ rest, fixPath pm1.1 = k := by
          obtain ⟨pm1, hmem, hfix⟩ := hex
          simp only [List.mem_cons] at hmem
          rcases hmem with hmem | hmem
          · subst hmem; exact absurd hfix hk
          · exact ⟨pm1, hmem, hfix⟩
        by_cases hhas : pi.2.hasOperation = true
        · simp only [hhas, if_true, pure, Except.pure] at h
          exact ih _ res h hrest hex1
        · simp only [hhas, Bool.false_eq_true, if_false, pure, Except.pure] at h
          exact ih _ res h hrest hex1

/-- C11 (counterexample): with `GET /a/:id` and `POST /a/{id}` registered, neither excluded,
the document has the single key `/a/{id}` and holds only the operation of the path iterated
last: the `GET` slot of `/a/:id` is empty in one iteration order, the `POST` slot of
`/a/{id}` in the other. -/
theorem C11_shared_key_loses_slot :
    collisionView (collisionSwagger.BuildOpenAPI 2) =
      .ok (some (["/a/\x7bid\x7d"], false, true)) ∧
    collisionView (collisionSwaggerRev.BuildOpenAPI 2) =
      .ok (some (["/a/\x7bid\x7d"], true, false)) := by
  constructor <;> decide

/-- C11 (amended): for a registered path whose rewritten key no other registered path
shares, and a standard method, the slot of the method in the item that the document holds
under the rewritten path is filled if and only if a route that is not excluded is
registered for the path and the method, and the operation in the slot is the one derived
from such a route. -/
theorem C11_slot_iff_route (fuel : Nat) (sw sw1 : Swagger) (doc : T)
    (hbuild : sw.BuildOpenAPI fuel = .ok sw1) (hdoc : sw1.OpenAPI = some doc)
    (path : String) (ms : List (String × Router)) (m : String)
    (hmem : (path, ms) ∈ sw.Routers)
    (hsame : ∀ path1 ms1, (path1, ms1) ∈ sw.Routers → fixPath path1 = fixPath path → ms1 = ms)
    (hstd : m ∈ standardMethods) :
    ((docSlot doc path m).isSome = true ↔ ∃ r, (m, r) ∈ ms ∧ r.Exclude = false) ∧
    (∀ op, docSlot doc path m = some op →
      ∃ r sch, (m, r) ∈ ms ∧ r.Exclude = false ∧
        (routeOperation fuel sch r).map Prod.snd = .ok op) := by
  unfold Swagger.BuildOpenAPI at hbuild
  simp only [bind, Except.bind, pure, Except.pure] at hbuild
  cases hp : getPaths fuel sw.Routers [] with
  | error e => simp [hp] at hbuild
  | ok res =>
    simp only [hp, Except.ok.injEq] at hbuild
    subst hbuild
    simp only [Option.some.injEq] at hdoc
    have hpaths : doc.Paths = res.2 := by rw [← hdoc]
    have horigin : ∀ op, docSlot doc path m = some op →
        ∃ r sch, (m, r) ∈ ms ∧ r.Exclude = false ∧
          (routeOperation fuel sch r).map Prod.snd = .ok op := by
      intro op hop
      unfold docSlot at hop
      rw [hpaths] at hop
      cases hget : dictGet res.2 (fixPath path) with
      | none => simp [hget] at hop
      | some item =>
        simp only [hget, Option.bind] at hop
        obtain ⟨path1, ms1, r, hmem1, hmr, hfix, hex, sch, hro⟩ :=
          document_operation_origin fuel sw.Routers res hp _ item m op
            (dictGet_mem _ _ _ hget) hop
        rw [hsame path1 ms1 hmem1 hfix] at hmr
        exact ⟨r, sch, hmr, hex, hro⟩
    refine ⟨⟨?_, ?_⟩, horigin⟩
    · intro hs
      obtain ⟨op, hop⟩ := Option.isSome_iff_exists.mp hs
      obtain ⟨r, _, hmr, hex, _⟩ := horigin op hop
      exact ⟨r, hmr, hex⟩
    · intro hr
      have hall : ∀ pm ∈ sw.Routers, fixPath pm.1 = fixPath path →
          ∃ r, (m, r) ∈ pm.2 ∧ r.Exclude = false := by
        intro pm hpm hfix
        rw [hsame pm.1 pm.2 hpm hfix]
        exact hr
      obtain ⟨item, hget, hs⟩ := getPaths_slot_filled fuel (fixPath path) m hstd sw.Routers
        _ res hp hall ⟨(path, ms), hmem, rfl⟩
      unfold docSlot
      rw [hpaths]
      simp only [hget, Option.bind]
      exact hs

/-- Witness for C11: with exactly `GET /ping` and `POST /ping` registered, the item of
`/ping` has the `GET` and the `POST` slot filled and the seven other slots empty. -/
theorem C11_slot_iff_route_witness :
    pingPostSwagger.BuildOpenAPI 2 = .ok pingPostBuilt ∧
    pingPostBuilt.OpenAPI = some pingPostDoc ∧
    standardMethods.map (fun m => (docSlot pingPostDoc "/ping" m).isSome) =
      [true, true, false, false, false, false, false, false, false] ∧
    ((docSlot pingPostDoc "/ping" "POST").isSome = true ↔
      ∃ r, ("POST", r) ∈ [("GET", securedRoute []), ("POST", securedRoute [])] ∧
        r.Exclude = false) :=
  have h := C11_slot_iff_route 2 pingPostSwagger pingPostBuilt pingPostDoc rfl rfl "/ping"
    [("GET", securedRoute []), ("POST", securedRoute [])] "POST" (by simp [pingPostSwagger])
    (by
      intro path1 ms1 hmem _
      simp only [pingPostSwagger, List.mem_singleton, Prod.mk.injEq] at hmem
      exact hmem.2)
    (by decide)
  ⟨rfl, rfl, by decide, h.1⟩

/-- A chain made of handler functions keeps its length under the type assertion. -/
theorem filterMap_chainHandler_length (l : List ChainEntry)
    (hall : ∀ h ∈ l, ∃ f, h = .handlerFunc f) :
    (l.filterMap chainHandler).length = l.length := by
  induction l with
  | nil => rfl
  | cons a rest ih =>
    obtain ⟨f, hf⟩ := hall a (by simp)
    subst hf
    have hrest := ih (fun h hh => hall h (by simp [hh]))
    simp [chainHandler, hrest]

/-- C23: `GetHandlers` returns the `Authorize` hooks of the security requirements of the
route in their order, then the handler functions of the handler chain in chain order, then
the handler `API` of the route as last element; so the hook of the requirement at position
`i` stands at position `i`, before the position of `API`, and when every chain entry is a
handler function the result has `|Securities| + |Handlers| + 1` elements. -/
theorem C23_authorize_then_chain_then_api (r : Router) :
    r.GetHandlers =
      r.Securities.map (fun s => s.Authorize) ++ r.Handlers.filterMap chainHandler ++ [r.API] ∧
    r.GetHandlers.getLast? = some r.API ∧
    (∀ i, i < r.Securities.length →
      r.GetHandlers[i]? = (r.Securities[i]?).map (fun s => s.Authorize) ∧
      i < r.GetHandlers.length - 1) ∧
    r.GetHandlers[r.GetHandlers.length - 1]? = some r.API ∧
    ((∀ h ∈ r.Handlers, ∃ f, h = .handlerFunc f) →
      r.GetHandlers.length = r.Securities.length + r.Handlers.length + 1) := by
  have heq : r.GetHandlers =
      r.Securities.map (fun s => s.Authorize) ++ r.Handlers.filterMap chainHandler ++ [r.API] := by
    unfold Router.GetHandlers
    congr 3
  have hlen : r.GetHandlers.length =
      r.Securities.length + (r.Handlers.filterMap chainHandler).length + 1 := by
    rw [heq]; simp; omega
  have hlast : r.GetHandlers.getLast? = some r.API := by
    rw [heq]; simp
  refine ⟨heq, hlast, ?_, ?_, ?_⟩
  · intro i hi
    constructor
    · rw [heq, List.append_assoc,
        List.getElem?_append_left (by simpa using hi)]
      simp
    · omega
  · rw [← List.getLast?_eq_getElem?]
    exact hlast
  · intro hall
    rw [hlen, filterMap_chainHandler_length _ hall]

/-- Witness for C23: a route with two security requirements and a chain of the binder and
one more handler. -/
theorem C23_authorize_then_chain_then_api_witness :
    (∀ h ∈ securedChainRoute.Handlers, ∃ f, h = ChainEntry.handlerFunc f) ∧
    securedChainRoute.GetHandlers = [11, 12, 0, 5, 1] ∧
    securedChainRoute.GetHandlers.length =
      securedChainRoute.Securities.length + securedChainRoute.Handlers.length + 1 :=
  have hall : ∀ h ∈ securedChainRoute.Handlers, ∃ f, h = ChainEntry.handlerFunc f := by
    intro h hh
    simp only [securedChainRoute, NewX, List.mem_cons, List.mem_singleton, List.not_mem_nil,
      or_false] at hh
    rcases hh with hh | hh
    · exact ⟨0, hh⟩
    · exact ⟨5, hh⟩
  ⟨hall, (C23_authorize_then_chain_then_api securedChainRoute).1.trans (by decide),
    (C23_authorize_then_chain_then_api securedChainRoute).2.2.2.2 hall⟩

/-- An assignment keeps the keys of a map distinct. -/
theorem nodup_keys_dictSet {α : Type} (m : List (String × α)) (k : String) (v : α)
    (h : (m.map Prod.fst).Nodup) : ((dictSet m k v).map Prod.fst).Nodup := by
  induction m with
  | nil => simp [dictSet]
  | cons a rest ih =>
    obtain ⟨k1, v1⟩ := a
    simp only [List.map_cons, List.nodup_cons] at h
    by_cases hk : k1 = k
    · subst hk
      simp only [dictSet, if_true, List.map_cons, List.nodup_cons]
      exact h
    · simp only [dictSet, hk, if_false, List.map_cons, List.nodup_cons]
      refine ⟨?_, ih h.2⟩
      intro hmem
      rcases (mem_keys_dictSet rest k v k1).mp hmem with h1 | h1
      · exact h.1 h1
      · exact hk h1

/-- In a map with distinct keys a key has one value. -/
theorem mem_unique_of_nodup {α : Type} (m : List (String × α)) (k : String) (v w : α)
    (hnd : (m.map Prod.fst).Nodup) (hv : (k, v) ∈ m) (hw : (k, w) ∈ m) : v = w := by
  have h1 := dictGet_of_mem m k v hnd hv
  have h2 := dictGet_of_mem m k w hnd hw
  rw [h1] at h2
  exact Option.some.inj h2

/-- `Handle` keeps the keys of the registry distinct. -/
theorem Registry.keysDistinct_Handle (g : Registry) (path method : String) (r : Nat)
    (h : g.KeysDistinct) : (g.Handle path method r).KeysDistinct := by
  refine ⟨nodup_keys_dictSet _ _ _ h.1, ?_⟩
  intro pm hpm
  rcases mem_dictSet _ _ _ _ hpm with hold | hnew
  · exact h.2 pm hold
  · subst hnew
    apply nodup_keys_dictSet
    cases hget : dictGet g.Routers path with
    | none => simp
    | some ms => exact h.2 (path, ms) (dictGet_mem _ _ _ hget)

/-- In every reachable registry the keys are distinct. -/
theorem Registry.keysDistinct_of_reachable (g : Registry) (h : g.Reachable) :
    g.KeysDistinct := by
  induction h with
  | new store => exact ⟨by simp [Registry.New], by simp [Registry.New]⟩
  | handle g path method r _ ih => exact Registry.keysDistinct_Handle g path method r ih

/-- With distinct keys, the lookup finds exactly the registered addresses. -/
theorem Registry.registered_iff_lookup (g : Registry) (h : g.KeysDistinct)
    (p m : String) (a : Nat) : g.Registered p m a ↔ g.lookup p m = some a := by
  constructor
  · rintro ⟨ms, hms, ha⟩
    unfold Registry.lookup
    rw [dictGet_of_mem _ _ _ h.1 hms]
    exact dictGet_of_mem _ _ _ (h.2 _ hms) ha
  · intro hl
    unfold Registry.lookup at hl
    cases hget : dictGet g.Routers p with
    | none => simp [hget] at hl
    | some ms =>
      simp only [hget, Option.some_bind] at hl
      exact ⟨ms, dictGet_mem _ _ _ hget, dictGet_mem _ _ _ hl⟩

/-- The lookup of the pair that `Handle` has just registered. -/
theorem Registry.lookup_Handle_same (g : Registry) (path method : String) (r : Nat) :
    (g.Handle path method r).lookup path method = some r := by
  unfold Registry.lookup Registry.Handle
  simp only [dictGet_dictSet_same, Option.some_bind]

/-- The lookup of another pair is not changed by `Handle`. -/
theorem Registry.lookup_Handle_other (g : Registry) (path method : String) (r : Nat)
    (p m : String) (hne : (p, m) ≠ (path, method)) :
    (g.Handle path method r).lookup p m = g.lookup p m := by
  unfold Registry.lookup Registry.Handle
  by_cases hp : p = path
  · subst hp
    have hm : m ≠ method := fun e => hne (by rw [e])
    simp only [dictGet_dictSet_same, Option.some_bind]
    rw [dictGet_dictSet_other _ _ _ _ hm]
    cases hget : dictGet g.Routers p with
    | none => simp [dictGet]
    | some ms => simp
  · simp only [dictGet_dictSet_other _ _ _ _ hp]

/-- C25: after `Handle(path, method, r)` on a reachable registry, the registry maps the path
and the method to `r`, the descriptor at `r` has that path and that method and is otherwise
as before, the entry of every other pair and the descriptor at every other address are
unchanged, a second `Handle` for the same pair replaces the entry, and the state is
reachable again; in every reachable registry a path and a method have at most one
descriptor, the one that the lookup finds. -/
theorem C25_one_descriptor_per_pair (g : Registry) (hreach : g.Reachable)
    (path method : String) (r : Nat) :
    (g.Handle path method r).lookup path method = some r ∧
    (g.Handle path method r).store r = { g.store r with Method := method, Path := path } ∧
    ((g.Handle path method r).store r).Path = path ∧
    ((g.Handle path method r).store r).Method = method ∧
    (∀ p m, (p, m) ≠ (path, method) →
      (g.Handle path method r).lookup p m = g.lookup p m) ∧
    (∀ a, a ≠ r → (g.Handle path method r).store a = g.store a) ∧
    (∀ r1, ((g.Handle path method r).Handle path method r1).lookup path method = some r1) ∧
    (g.Handle path method r).Reachable ∧
    (∀ p m a b, g.Registered p m a → g.Registered p m b → a = b) ∧
    (∀ p m a, g.Registered p m a ↔ g.lookup p m = some a) := by
  have hk := Registry.keysDistinct_of_reachable g hreach
  refine ⟨Registry.lookup_Handle_same g path method r, ?_, ?_, ?_,
    fun p m hne => Registry.lookup_Handle_other g path method r p m hne, ?_,
    fun r1 => Registry.lookup_Handle_same _ path method r1,
    Registry.Reachable.handle g path method r hreach, ?_,
    fun p m a => Registry.registered_iff_lookup g hk p m a⟩
  · simp [Registry.Handle]
  · simp [Registry.Handle]
  · simp [Registry.Handle]
  · intro a ha
    simp [Registry.Handle, ha]
  · intro p m a b ha hb
    have h1 := (Registry.registered_iff_lookup g hk p m a).mp ha
    have h2 := (Registry.registered_iff_lookup g hk p m b).mp hb
    rw [h1] at h2
    exact Option.some.inj h2

/-- Witness for C25: the registry after `Handle("/ping", "GET", 7)`, on which
`Handle("/ping", "POST", 8)` is called. -/
theorem C25_one_descriptor_per_pair_witness :
    ((Registry.New freshStore).Handle "/ping" "GET" 7).Reachable ∧
    pingRegistry.lookup "/ping" "POST" = some 8 ∧
    pingRegistry.lookup "/ping" "GET" = some 7 ∧
    (pingRegistry.store 8).Path = "/ping" ∧ (pingRegistry.store 8).Method = "POST" ∧
    pingRegistry.Routers = [("/ping", [("GET", 7), ("POST", 8)])] :=
  have hreach : ((Registry.New freshStore).Handle "/ping" "GET" 7).Reachable :=
    Registry.Reachable.handle _ _ _ _ (Registry.Reachable.new freshStore)
  have h := C25_one_descriptor_per_pair _ hreach "/ping" "POST" 8
  ⟨hreach, h.1, (h.2.2.2.2.1 "/ping" "GET" (by decide)).trans (by decide), h.2.2.1,
    h.2.2.2.1, by decide⟩

/-- Mapping the values of a map commutes with an assignment. -/
theorem dictSet_map_snd {α β : Type} (f : α → β) (l : List (String × α)) (k : String) (v : α) :
    (dictSet l k v).map (fun e => (e.1, f e.2)) =
      dictSet (l.map (fun e => (e.1, f e.2))) k (f v) := by
  induction l with
  | nil => rfl
  | cons a rest ih =>
    obtain ⟨k1, v1⟩ := a
    by_cases hk : k1 = k
    · simp [dictSet, hk]
    · simp [dictSet, hk, ih]

/-- Mapping the values of a map commutes with a lookup. -/
theorem dictGet_map_snd {α β : Type} (f : α → β) (l : List (String × α)) (k : String) :
    dictGet (l.map (fun e => (e.1, f e.2))) k = (dictGet l k).map f := by
  simp only [dictGet, List.find?_map, Option.map_map]
  rfl

/-- For a descriptor that is not registered yet, `Handle` on the registry in memory is
`Handle` on the registry as read: the two renderings of `swagin.go` lines 94-101 agree. -/
theorem Registry.view_Handle (g : Registry) (path method : String) (r : Nat)
    (hfresh : ∀ pm ∈ g.Routers, ∀ mr ∈ pm.2, mr.2 ≠ r) :
    (g.Handle path method r).view = Swagin.Handle g.view path method (g.store r) := by
  have hinner : ∀ ms : List (String × Nat), (∀ mr ∈ ms, mr.2 ≠ r) →
      ms.map (fun mr => (mr.1, (g.Handle path method r).store mr.2)) =
        ms.map (fun mr => (mr.1, g.store mr.2)) := by
    intro ms hms
    apply List.map_congr_left
    intro mr hmr
    simp [Registry.Handle, hms mr hmr]
  have houter : g.Routers.map
      (fun pm => (pm.1, pm.2.map (fun mr => (mr.1, (g.Handle path method r).store mr.2)))) =
      g.Routers.map (fun pm => (pm.1, pm.2.map (fun mr => (mr.1, g.store mr.2)))) := by
    apply List.map_congr_left
    intro pm hpm
    rw [hinner pm.2 (hfresh pm hpm)]
  have hget : ∀ mr ∈ (dictGet g.Routers path).getD [], mr.2 ≠ r := by
    cases hg : dictGet g.Routers path with
    | none => simp
    | some ms => exact hfresh (path, ms) (dictGet_mem _ _ _ hg)
  have hstore : (g.Handle path method r).store r =
      { g.store r with Method := method, Path := path } := by
    simp [Registry.Handle]
  unfold Registry.view Swagin.Handle
  show ((g.Handle path method r).Routers).map
      (fun pm => (pm.1, (fun ms : List (String × Nat) =>
        ms.map (fun mr => (mr.1, (g.Handle path method r).store mr.2))) pm.2)) = _
  have hR : (g.Handle path method r).Routers =
      dictSet g.Routers path (dictSet ((dictGet g.Routers path).getD []) method r) := rfl
  rw [hR, dictSet_map_snd]
  simp only []
  rw [houter, dictSet_map_snd (fun a => (g.Handle path method r).store a), hstore,
    hinner _ hget]
  congr 1
  congr 1
  rw [dictGet_map_snd (fun ms : List (String × Nat) => ms.map (fun mr => (mr.1, g.store mr.2)))]
  cases dictGet g.Routers path <;> rfl

/-- C22: `g.Mount(p, app)` on an application `app` with a generator returns; afterwards
`app.fullPath(q)` is `p` followed by `q`, so `initRouters` of `app` registers every route
of `app` under `p` followed by its path, on the engine of `g`, and registers nothing else;
the registry of `app` is unchanged and its server list is the previous list followed by the
server of URL `p`; the root path, the registry and the generator of `g`, server list
included, are unchanged, and `g` holds `app` as sub-application under `p`. -/
theorem C22_mount_serves_under_path (g app : SwaGin) (p : String) (sw : Swagger)
    (hsw : app.Swagger = some sw) :
    ∃ g1 app1, g.Mount p app = .ok (g1, app1) ∧
      (∀ q, app1.fullPath q = p ++ q) ∧
      app1.Routers = app.Routers ∧
      (∀ q ms m r, (q, ms) ∈ app.Routers → (m, r) ∈ ms →
        { Method := engineMethod m, Path := p ++ q, Handlers := r.GetHandlers } ∈
          initRouters app1.rootPath app1.Routers) ∧
      (∀ reg ∈ initRouters app1.rootPath app1.Routers,
        ∃ q ms, (q, ms) ∈ app.Routers ∧ reg.Path = p ++ q) ∧
      app1.Engine = g.Engine ∧
      app1.Swagger = some { sw with Servers := sw.Servers ++ [p] } ∧
      g1.rootPath = g.rootPath ∧ g1.Routers = g.Routers ∧ g1.Swagger = g.Swagger ∧
      dictGet g1.subApps p = some app1 := by
  cases he : app.ErrorHandler with
  | none =>
    let app1 : SwaGin :=
      { app with rootPath := p, Engine := g.Engine, ErrorHandler := g.ErrorHandler,
                 Swagger := some { sw with Servers := sw.Servers ++ [p] } }
    refine ⟨{ g with subApps := dictSet g.subApps p app1 }, app1,
      ?_, fun q => rfl, rfl, ?_, ?_, rfl, rfl, rfl, rfl, rfl, dictGet_dictSet_same _ _ _⟩
    · unfold SwaGin.Mount
      simp [he, hsw]
    · intro q ms m r hq hr
      simp only [initRouters, List.mem_flatMap, List.mem_map]
      exact ⟨(q, ms), hq, (m, r), hr, rfl⟩
    · intro reg hreg
      simp only [initRouters, List.mem_flatMap, List.mem_map] at hreg
      obtain ⟨pm, hpm, mr, _, hregeq⟩ := hreg
      exact ⟨pm.1, pm.2, hpm, by rw [← hregeq]⟩
  | some eh =>
    let app1 : SwaGin :=
      { app with rootPath := p, Engine := g.Engine, ErrorHandler := some eh,
                 Swagger := some { sw with Servers := sw.Servers ++ [p] } }
    refine ⟨{ g with subApps := dictSet g.subApps p app1 }, app1,
      ?_, fun q => rfl, rfl, ?_, ?_, rfl, rfl, rfl, rfl, rfl, dictGet_dictSet_same _ _ _⟩
    · unfold SwaGin.Mount
      simp [he, hsw]
    · intro q ms m r hq hr
      simp only [initRouters, List.mem_flatMap, List.mem_map]
      exact ⟨(q, ms), hq, (m, r), hr, rfl⟩
    · intro reg hreg
      simp only [initRouters, List.mem_flatMap, List.mem_map] at hreg
      obtain ⟨pm, hpm, mr, _, hregeq⟩ := hreg
      exact ⟨pm.1, pm.2, hpm, by rw [← hregeq]⟩

/-- Witness for C22: `rootApp.Mount("/v1", subApp)`. -/
theorem C22_mount_serves_under_path_witness :
    subApp.Swagger = some { Swagger.New "sub" "d" "v" with Servers := ["https://example.org"] } ∧
    ∃ g1 app1, rootApp.Mount "/v1" subApp = .ok (g1, app1) ∧
      (∀ q, app1.fullPath q = "/v1" ++ q) ∧
      initRouters app1.rootPath app1.Routers =
        [{ Method := "GET", Path := "/v1/users/:id", Handlers := [2] }] ∧
      app1.Swagger.map (fun s => s.Servers) = some ["https://example.org", "/v1"] ∧
      g1.rootPath = "" ∧ g1.Swagger.map (fun s => s.Servers) = some [] :=
  have h := C22_mount_serves_under_path rootApp subApp "/v1" _ rfl
  h.elim (fun g1 h1 => h1.elim (fun app1 h2 =>
    ⟨rfl, g1, app1, h2.1, h2.2.1, by
      have he := h2.1
      injection he with he
      injection he with _ he2
      rw [← he2]
      decide, by rw [h2.2.2.2.2.2.2.1]; rfl, h2.2.2.2.2.2.2.2.1,
      by rw [h2.2.2.2.2.2.2.2.2.2.1]; rfl⟩))

/-- C21 (counterexample): for the model `struct { Name string }` tagged
`validate:"required"`, which declares none of the five parts, the handler of `BindModel`
aborts on a plain `GET` request: validation runs on the zero model and rejects it. -/
theorem C21_required_field_aborts :
    requiredModel.Header = none ∧ requiredModel.Query = none ∧ requiredModel.Body = none ∧
    requiredModel.URI = none ∧ requiredModel.Cookie = none ∧
    (BindModel requiredLibraries requiredModel plainRequest).map (fun m => m.Rest) =
      .error .logPanic := by
  decide

/-- C21 (amended): for a model without the parts `Header`, `Query`, `Body` and `URI` and for
every request, the handler of `BindModel` decodes nothing: it runs the struct validation
and the copy on the untouched model, whatever the request and the decoders are; it raises
no fault when both accept the model, and then hands on the model as it was; it aborts when
the validation rejects the model. -/
theorem C21_no_parts_validates_only {V D R : Type} (lib : Libraries V D (Parts V R))
    (m : Parts V R) (req : Request)
    (hH : m.Header = none) (hQ : m.Query = none) (hB : m.Body = none) (hU : m.URI = none) :
    BindModel lib m req =
      (orPanic (lib.validate m)).bind (fun _ => (orPanic (lib.copy m)).bind (fun _ => .ok m)) ∧
    (lib.validate m = .ok () → lib.copy m = .ok () → BindModel lib m req = .ok m) ∧
    (∀ e, lib.validate m = .error e → BindModel lib m req = .error .logPanic) ∧
    (∀ (lib1 : Libraries V D (Parts V R)) (req1 : Request),
      lib1.validate = lib.validate → lib1.copy = lib.copy →
      BindModel lib1 m req1 = BindModel lib m req) := by
  have hform : ∀ (l : Libraries V D (Parts V R)) (q : Request), BindModel l m q =
      (orPanic (l.validate m)).bind (fun _ => (orPanic (l.copy m)).bind (fun _ => .ok m)) := by
    intro l q
    unfold BindModel
    simp only [hH, hQ, hB, hU, bind, Except.bind, pure, Except.pure]
  refine ⟨hform lib req, ?_, ?_, ?_⟩
  · intro hv hc
    rw [hform, hv, hc]
    rfl
  · intro e hv
    rw [hform, hv]
    rfl
  · intro lib1 req1 hv hc
    rw [hform lib1 req1, hform lib req, hv, hc]

/-- Witness for C21: the zero model of a struct without fields, on a plain `GET`
request. -/
theorem C21_no_parts_validates_only_witness :
    emptyModel.Header = none ∧ emptyModel.Query = none ∧ emptyModel.Body = none ∧
    emptyModel.URI = none ∧
    (BindModel listLibraries emptyModel plainRequest).map (fun m => m.Rest) = .ok () :=
  ⟨rfl, rfl, rfl, rfl, by
    rw [((C21_no_parts_validates_only listLibraries emptyModel plainRequest
      rfl rfl rfl rfl).2.1 rfl rfl)]
    rfl⟩

/-- C27 (defect): a `PATCH` request with `Content-Type: application/json` runs no codec and
leaves the `Body` part of the model at its zero value, while the same request sent as
`POST` or `PUT` runs the JSON codec and stores its output. -/
theorem C27_patch_runs_no_codec :
    bodyCodec (jsonRequest "PATCH") = none ∧
    bodyCodec (jsonRequest "POST") = some Codec.JSON ∧
    bodyCodec (jsonRequest "PUT") = some Codec.JSON ∧
    (BindModel decodingLibraries bodyPartModel (jsonRequest "PATCH")).map (fun m => m.Body) =
      .ok (some []) ∧
    (BindModel decodingLibraries bodyPartModel (jsonRequest "POST")).map (fun m => m.Body) =
      .ok (some [("body", "\x7b\x7d")]) ∧
    (BindModel decodingLibraries bodyPartModel (jsonRequest "PUT")).map (fun m => m.Body) =
      .ok (some [("body", "\x7b\x7d")]) := by
  refine ⟨?_, ?_, ?_, ?_, ?_, ?_⟩ <;> decide

/-- On a request whose `Content-Type` is exactly `application/json`, the `Body` block of
`BindModel` runs the JSON codec on the part if and only if the method is `POST` or `PUT`;
on every other method, `PATCH` included, no codec runs and the untouched part goes to the
`json`-tag re-decoding. -/
theorem bindBody_json_post_or_put {V D M : Type} (lib : Libraries V D M) (req : Request)
    (body : V) (hct : headerGet req.Header "Content-Type" = "application/json") :
    (bodyCodec req = some Codec.JSON ↔ req.Method = "POST" ∨ req.Method = "PUT") ∧
    (req.Method = "POST" ∨ req.Method = "PUT" →
      bindBody lib req body =
        (orPanic (lib.codec Codec.JSON req body)).bind
          (fun d => orPanic (lib.remap (.inl d) body))) ∧
    (¬ (req.Method = "POST" ∨ req.Method = "PUT") →
      bodyCodec req = none ∧ bindBody lib req body = orPanic (lib.remap (.inr body) body)) ∧
    (req.Method = "PATCH" →
      bodyCodec req = none ∧ bindBody lib req body = orPanic (lib.remap (.inr body) body)) := by
  have hyes : req.Method = "POST" ∨ req.Method = "PUT" → bodyCodec req = some Codec.JSON := by
    intro hm
    unfold bodyCodec
    rw [if_pos hm, hct]
    rfl
  have hno : ¬ (req.Method = "POST" ∨ req.Method = "PUT") →
      bodyCodec req = none ∧ bindBody lib req body = orPanic (lib.remap (.inr body) body) := by
    intro hm
    have hnone : bodyCodec req = none := by
      unfold bodyCodec
      rw [if_neg hm]
    refine ⟨hnone, ?_⟩
    unfold bindBody
    simp only [hnone, bind, Except.bind, pure, Except.pure]
  refine ⟨⟨?_, hyes⟩, ?_, hno, ?_⟩
  · intro hc
    by_contra hm
    rw [(hno hm).1] at hc
    cases hc
  · intro hm
    unfold bindBody
    simp only [hyes hm, bind, Except.bind, Except.map, pure, Except.pure]
    cases orPanic (lib.codec Codec.JSON req body) <;> rfl
  · intro hp
    apply hno
    rw [hp]
    decide


/-- A value that `faults` is an error. -/
theorem faults_iff {α : Type} (r : Except Fault α) : faults r = true ↔ ∃ e, r = .error e := by
  cases r with
  | error e => exact ⟨fun _ => ⟨e, rfl⟩, fun _ => rfl⟩
  | ok a =>
    constructor
    · intro h; cases h
    · rintro ⟨e, h⟩; cases h

/-- A value that `faults` is no result. -/
theorem faults_not_ok {α : Type} (r : Except Fault α) (h : faults r = true) (a : α) :
    r ≠ .ok a := by
  intro hr; rw [hr] at h; cases h

/-- A computation that faults does so whatever follows it. -/
theorem faults_bind {α β : Type} (r : Except Fault α) (f : α → Except Fault β)
    (h : faults r = true) : faults (r >>= f) = true := by
  cases r with
  | error e => rfl
  | ok a => cases h

/-- A computation faults when what follows it always faults. -/
theorem faults_bind_right {α β : Type} (r : Except Fault α) (f : α → Except Fault β)
    (h : ∀ a, faults (f a) = true) : faults (r >>= f) = true := by
  cases r with
  | error e => rfl
  | ok a => exact h a

/-- A loop faults when the step of one of its elements faults from every state. -/
theorem foldlM_faults_of_mem {α β : Type} (step : β → α → Except Fault β) (x : α)
    (hx : ∀ acc, faults (step acc x) = true) :
    ∀ (l : List α), x ∈ l → ∀ init, faults (l.foldlM step init) = true := by
  intro l
  induction l with
  | nil => intro h; simp at h
  | cons a rest ih =>
    intro h init
    rw [List.foldlM_cons]
    rcases List.mem_cons.mp h with h1 | h1
    · subst h1
      exact faults_bind _ _ (hx init)
    · exact faults_bind_right _ _ (fun acc => ih h1 acc)

/-- A field of a struct type has a value in a struct value with one value per field. -/
theorem exists_mem_zip {α β : Type} (x : α) :
    ∀ (l : List α) (vs : List β), vs.length = l.length → x ∈ l → ∃ v, (x, v) ∈ l.zip vs := by
  intro l
  induction l with
  | nil => intro vs _ h; simp at h
  | cons a rest ih =>
    intro vs hlen h
    cases vs with
    | nil => simp at hlen
    | cons b vs =>
      rcases List.mem_cons.mp h with h1 | h1
      · subst h1
        exact ⟨b, by simp⟩
      · obtain ⟨v, hv⟩ := ih vs (by simpa using hlen) h1
        exact ⟨v, by simp [hv]⟩

/-- The request field loop panics at a field whose tag the parser rejects. -/
theorem requestField_malformed (g : Option GoValue → Except Fault Schema) (schema : Schema)
    (f : StructField) (v : GoValue) (h : structtagParse f.Tag = none) :
    requestField g schema (f, v) = .error .tagPanic := by
  simp [requestField, parseFieldTag, h, bind, Except.bind]

/-- The parameter field loop panics at a field whose tag the parser rejects. -/
theorem paramField_malformed (g : Option GoValue → Except Fault Schema) (param : String)
    (ps : List Parameter) (f : StructField) (v : GoValue) (h : structtagParse f.Tag = none) :
    paramField g param ps (f, some v) = .error .tagPanic := by
  simp [paramField, parseFieldTag, h, bind, Except.bind, pure, Except.pure]

/-- The response field loop at an exported field with a valid value: the schema of the
field value is derived first, then the tag is parsed. -/
theorem responseField_exported (g : Option GoValue → Except Fault Schema) (schema : Schema)
    (f : StructField) (v : GoValue) (hex : f.IsExported = true) :
    responseField g schema (f, some v) =
      (g (fieldTarget v).Interface).bind (fun fieldSchema =>
        (parseFieldTag f.Tag).bind (fun tags =>
          match tagsGet tags "json" with
          | none => .ok schema
          | some tag =>
            if tag.Name = "-" then .ok schema
            else
              .ok { (if bindingRequired tags then
                      { schema with Required := schema.Required ++ [tag.Name] }
                    else schema) with
                    Properties := dictSet
                      (if bindingRequired tags then
                        { schema with Required := schema.Required ++ [tag.Name] }
                      else schema).Properties tag.Name (applyFieldTags tags fieldSchema) })) := by
  unfold responseField fieldTarget
  simp only [hex, Bool.not_true, Bool.false_eq_true, if_false, bind, Except.bind, pure,
    Except.pure]

/-- The response field loop at an exported field whose tag the parser rejects: no schema is
returned, and the fault is the tag panic when the schema of the field value was derived. -/
theorem responseField_malformed (g : Option GoValue → Except Fault Schema) (schema : Schema)
    (f : StructField) (v : GoValue) (hex : f.IsExported = true)
    (h : structtagParse f.Tag = none) :
    faults (responseField g schema (f, some v)) = true ∧
    (∀ base, g (fieldTarget v).Interface = .ok base →
      responseField g schema (f, some v) = .error .tagPanic) := by
  rw [responseField_exported g schema f v hex]
  have hp : parseFieldTag f.Tag = .error .tagPanic := by simp [parseFieldTag, h]
  constructor
  · cases hg : g (fieldTarget v).Interface with
    | error e => rfl
    | ok base => simp [Except.bind, hp, faults]
  · intro base hg
    simp [hg, Except.bind, hp]

/-- The request field loop faults at a field with a `json` name whose own schema derivation
faults. -/
theorem requestField_nested (g : Option GoValue → Except Fault Schema) (schema : Schema)
    (f : StructField) (v : GoValue) (tags : List Tag) (tag : Tag)
    (hparse : parseFieldTag f.Tag = .ok tags) (hjson : tagsGet tags "json" = some tag)
    (hname : tag.Name ≠ "-") (hg : faults (g v.Interface) = true) :
    faults (requestField g schema (f, v)) = true := by
  cases h : requestField g schema (f, v) with
  | error e => rfl
  | ok s1 =>
    obtain ⟨base, hb, _⟩ := requestField_tagged g schema s1 f v tags tag hparse hjson hname h
    rw [hb] at hg
    cases hg

/-- The response field loop faults at an exported field whose own schema derivation
faults, whatever its tag. -/
theorem responseField_nested (g : Option GoValue → Except Fault Schema) (schema : Schema)
    (f : StructField) (v : GoValue) (hex : f.IsExported = true)
    (hg : faults (g (fieldTarget v).Interface) = true) :
    faults (responseField g schema (f, some v)) = true := by
  rw [responseField_exported g schema f v hex]
  cases hr : g (fieldTarget v).Interface with
  | error e => rfl
  | ok base => rw [hr] at hg; cases hg

/-- The parameter field loop faults at a field with the source tag whose own schema
derivation faults. -/
theorem paramField_nested (g : Option GoValue → Except Fault Schema) (param : String)
    (ps : List Parameter) (f : StructField) (v : GoValue) (tags : List Tag) (pt : Tag)
    (hparam : paramIn param ≠ "") (hparse : parseFieldTag f.Tag = .ok tags)
    (htag : tagsGet tags param = some pt) (hg : faults (g v.Interface) = true) :
    faults (paramField g param ps (f, some v)) = true := by
  cases h : paramField g param ps (f, some v) with
  | error e => rfl
  | ok ps1 =>
    obtain ⟨base, _, _, hb, _⟩ := paramField_tagged g param ps ps1 f v tags pt hparam hparse htag h
    rw [hb] at hg
    cases hg

/-- The request derivation returns no schema for a struct value with a malformed tag. -/
theorem getRequestSchemaByModel_malformed (fuel : Nat) (v : GoValue) (h : HasMalformedTag v) :
    faults (getRequestSchemaByModel fuel (some v)) = true := by
  obtain ⟨⟨t, vals, fields, rfl, ht, hlen⟩, f, hf, hbad⟩ := h
  simp only [structFields, ht] at hf
  cases fuel with
  | zero => rfl
  | succ n =>
    rw [getRequestSchemaByModel_struct n t fields vals ht]
    obtain ⟨w, hw⟩ := exists_mem_zip f fields vals hlen hf
    exact foldlM_faults_of_mem _ (f, w)
      (fun acc => by rw [requestField_malformed _ acc f w hbad]; rfl) _ hw _

/-- The response derivation returns no schema for a struct value with a malformed tag at an
exported field. -/
theorem getResponseSchemaByModel_malformed (fuel : Nat) (v : GoValue)
    (h : HasMalformedExportedTag v) :
    faults (getResponseSchemaByModel fuel (some v)) = true := by
  obtain ⟨⟨t, vals, fields, rfl, ht, hlen⟩, f, hf, hex, hbad⟩ := h
  simp only [structFields, ht] at hf
  cases fuel with
  | zero => rfl
  | succ n =>
    rw [getResponseSchemaByModel_struct n t fields vals ht]
    obtain ⟨w, hw⟩ := exists_mem_zip f fields (vals.map some) (by simpa using hlen) hf
    obtain ⟨w1, _, hw1⟩ := List.mem_map.mp (List.of_mem_zip hw).2
    subst hw1
    exact foldlM_faults_of_mem _ (f, some w1)
      (fun acc => (responseField_malformed _ acc f w1 hex hbad).1) _ hw _

/-- The parameter derivation returns no parameters for a struct value with a malformed
tag. -/
theorem getParamTypeByModel_malformed (fuel : Nat) (v : GoValue) (param : String)
    (h : HasMalformedTag v) : faults (getParamTypeByModel fuel (some v) param) = true := by
  obtain ⟨⟨t, vals, fields, rfl, ht, hlen⟩, f, hf, hbad⟩ := h
  simp only [structFields, ht] at hf
  simp only [getParamTypeByModel, GoValue.typeOf, derefType, ht, GoValue.fields]
  obtain ⟨w, hw⟩ := exists_mem_zip f fields (vals.map some) (by simpa using hlen) hf
  obtain ⟨w1, _, hw1⟩ := List.mem_map.mp (List.of_mem_zip hw).2
  subst hw1
  exact foldlM_faults_of_mem _ (f, some w1)
    (fun acc => by rw [paramField_malformed _ param acc f w1 hbad]; rfl) _ hw _

/-- The derivation of an operation faults when the derivation of its responses, of its
parameters or of its request body does. -/
theorem routeOperation_faults (fuel : Nat) (schemes : List (String × String)) (r : Router)
    (h : faults (getResponses fuel r.Response r.ResponseContentType) = true ∨
      faults (getParametersByModel fuel r.Model) = true ∨
      ∃ body, FieldByName r.Model "Body" = .ok (some body) ∧
        faults (getRequestBodyByModel fuel body.Interface r.RequestContentType) = true) :
    faults (routeOperation fuel schemes r) = true := by
  unfold routeOperation
  simp only [bind, Except.bind, pure, Except.pure]
  cases h1 : getResponses fuel r.Response r.ResponseContentType with
  | error e => rfl
  | ok responses =>
    cases h2 : getParametersByModel fuel r.Model with
    | error e => rfl
    | ok parameters =>
      rcases h with h | h | ⟨body, hb, hf⟩
      · rw [h1] at h; cases h
      · rw [h2] at h; cases h
      · simp only [hb]
        cases h3 : getRequestBodyByModel fuel body.Interface r.RequestContentType with
        | error e => rfl
        | ok rb => rw [h3] at hf; cases hf

/-- The responses of a route are not derived when a response model has a malformed tag at
an exported field. -/
theorem getResponses_malformed (fuel : Nat) (response : List (String × ResponseItem))
    (contentType : String) (k : String) (item : ResponseItem) (v : GoValue)
    (hmem : (k, item) ∈ response) (hmodel : item.Model = some v)
    (h : HasMalformedExportedTag v) :
    faults (getResponses fuel response contentType) = true := by
  unfold getResponses
  apply foldlM_faults_of_mem _ (k, item) _ _ hmem
  intro acc
  simp only [hmodel]
  exact faults_bind _ _ (getResponseSchemaByModel_malformed fuel v h)

/-- One part step of `getParametersByModel` faults when the part has a malformed tag. -/
theorem partParameters_malformed (fuel : Nat) (model : GoValue) (name param : String)
    (part : GoValue) (hpart : FieldByName (some model) name = .ok (some part))
    (h : HasMalformedTag part) (ps : List Parameter) :
    faults (partParameters fuel (some model) name param ps) = true := by
  unfold partParameters
  simp only [bind, Except.bind, pure, Except.pure, hpart]
  obtain ⟨⟨t, vals, fields, rfl, ht, hlen⟩, hf⟩ := h
  have hg := getParamTypeByModel_malformed fuel (.struct t vals) param
    ⟨⟨t, vals, fields, rfl, ht, hlen⟩, hf⟩
  simp only [GoValue.Interface]
  cases hq : getParamTypeByModel fuel (some (.struct t vals)) param with
  | error e => rfl
  | ok qs => rw [hq] at hg; cases hg

/-- The parameters of a struct model are not derived when one of its four parameter parts
has a malformed tag. -/
theorem getParametersByModel_malformed (fuel : Nat) (t : GoType) (vals : List GoValue)
    (name : String) (part : GoValue) (hname : name ∈ ["URI", "Query", "Cookie", "Header"])
    (hpart : FieldByName (some (.struct t vals)) name = .ok (some part))
    (h : HasMalformedTag part) :
    faults (getParametersByModel fuel (some (.struct t vals))) = true := by
  rw [getParametersByModel_parts]
  simp only [List.mem_cons, List.mem_singleton, List.not_mem_nil, or_false] at hname
  rcases hname with rfl | rfl | rfl | rfl
  · exact faults_bind _ _ (partParameters_malformed fuel _ _ _ part hpart h _)
  · exact faults_bind_right _ _ (fun p1 =>
      faults_bind _ _ (partParameters_malformed fuel _ _ _ part hpart h _))
  · exact faults_bind_right _ _ (fun p1 => faults_bind_right _ _ (fun p2 =>
      faults_bind _ _ (partParameters_malformed fuel _ _ _ part hpart h _)))
  · exact faults_bind_right _ _ (fun p1 => faults_bind_right _ _ (fun p2 =>
      faults_bind_right _ _ (fun p3 => partParameters_malformed fuel _ _ _ part hpart h _)))

/-- The request body is not derived when the `Body` part has a malformed tag. -/
theorem getRequestBodyByModel_malformed (fuel : Nat) (body : GoValue) (contentType : String)
    (h : HasMalformedTag body) :
    faults (getRequestBodyByModel fuel body.Interface contentType) = true := by
  obtain ⟨⟨t, vals, fields, rfl, ht, hlen⟩, hf⟩ := h
  have hg := getRequestSchemaByModel_malformed fuel (.struct t vals)
    ⟨⟨t, vals, fields, rfl, ht, hlen⟩, hf⟩
  simp only [GoValue.Interface, getRequestBodyByModel]
  exact faults_bind _ _ hg

/-- The inner loop of `getPaths` faults when the derivation of the operation of a route
that is not excluded does. -/
theorem pathItemOf_faults (fuel : Nat) (ms : List (String × Router)) (m : String) (r : Router)
    (hmem : (m, r) ∈ ms) (hex : r.Exclude = false)
    (h : ∀ schemes, faults (routeOperation fuel schemes r) = true)
    (schemes : List (String × String)) : faults (pathItemOf fuel schemes ms) = true := by
  unfold pathItemOf
  apply foldlM_faults_of_mem _ (m, r) _ _ hmem
  intro acc
  simp only [hex, Bool.false_eq_true, if_false]
  exact faults_bind _ _ (h acc.1)

/-- `getPaths` faults when the inner loop of a registered path does. -/
theorem getPaths_faults (fuel : Nat) (Routers : List (String × List (String × Router)))
    (path : String) (ms : List (String × Router)) (hmem : (path, ms) ∈ Routers)
    (h : ∀ schemes, faults (pathItemOf fuel schemes ms) = true)
    (schemes : List (String × String)) : faults (getPaths fuel Routers schemes) = true := by
  unfold getPaths
  apply foldlM_faults_of_mem _ (path, ms) _ _ hmem
  intro acc
  exact faults_bind _ _ (h acc.1)

/-- `BuildOpenAPI` builds no document when the derivation of the operation of a registered
route that is not excluded faults. -/
theorem BuildOpenAPI_faults (fuel : Nat) (sw : Swagger) (path : String)
    (ms : List (String × Router)) (m : String) (r : Router)
    (hpath : (path, ms) ∈ sw.Routers) (hmem : (m, r) ∈ ms) (hex : r.Exclude = false)
    (h : ∀ schemes, faults (routeOperation fuel schemes r) = true) :
    faults (sw.BuildOpenAPI fuel) = true := by
  unfold Swagger.BuildOpenAPI
  exact faults_bind _ _
    (getPaths_faults fuel sw.Routers path ms hpath (pathItemOf_faults fuel ms m r hmem hex h) [])

/-- The derivation of the operation of a route that meets a malformed tag faults. -/
theorem routeOperation_malformed (fuel : Nat) (schemes : List (String × String)) (r : Router)
    (h : RouteMeetsMalformedTag r) : faults (routeOperation fuel schemes r) = true := by
  apply routeOperation_faults
  rcases h with ⟨body, hb, hbad⟩ | ⟨t, vals, name, part, hm, hname, hpart, hbad⟩ |
    ⟨k, item, v, hmem, hmodel, hbad⟩
  · exact Or.inr (Or.inr ⟨body, hb, getRequestBodyByModel_malformed fuel body _ hbad⟩)
  · rw [hm]
    exact Or.inr (Or.inl (getParametersByModel_malformed fuel t vals name part hname hpart hbad))
  · exact Or.inl (getResponses_malformed fuel _ _ k item v hmem hmodel hbad)

/-- C24: a field whose tag `structtag.Parse` rejects makes the request and the parameter
field loop panic at that field, and the response field loop at an exported field with a
valid value (there the schema of the field value is derived first); so the request,
parameter and response derivation of a struct value with such a field return nothing, for
every recursion budget, and neither does the derivation of a struct whose field with a
`json` name (in the response loop: exported field, in the parameter loop: field with the
source tag) has a value whose own derivation faults; `BuildOpenAPI` builds no document when
a registered route that is not excluded meets such a field in its `Body` part, in a
parameter part or in a response model.  The parse step panics if and only if the parser
rejects the tag: on a tag for which the parser returns tags it returns them without
fault. -/
theorem C24_malformed_tag_aborts :
    (∀ (g : Option GoValue → Except Fault Schema) (f : StructField) (v : GoValue),
      structtagParse f.Tag = none →
      (∀ schema, requestField g schema (f, v) = .error .tagPanic) ∧
      (∀ param ps, paramField g param ps (f, some v) = .error .tagPanic) ∧
      (f.IsExported = true → ∀ schema,
        faults (responseField g schema (f, some v)) = true ∧
        (∀ base, g (fieldTarget v).Interface = .ok base →
          responseField g schema (f, some v) = .error .tagPanic))) ∧
    (∀ fuel v, HasMalformedTag v →
      faults (getRequestSchemaByModel fuel (some v)) = true ∧
      ∀ param, faults (getParamTypeByModel fuel (some v) param) = true) ∧
    (∀ fuel v, HasMalformedExportedTag v →
      faults (getResponseSchemaByModel fuel (some v)) = true) ∧
    (∀ (g : Option GoValue → Except Fault Schema) (f : StructField) (v : GoValue)
        (tags : List Tag) (tag : Tag),
      parseFieldTag f.Tag = .ok tags → tagsGet tags "json" = some tag → tag.Name ≠ "-" →
      faults (g v.Interface) = true →
      ∀ schema, faults (requestField g schema (f, v)) = true) ∧
    (∀ (g : Option GoValue → Except Fault Schema) (f : StructField) (v : GoValue),
      f.IsExported = true → faults (g (fieldTarget v).Interface) = true →
      ∀ schema, faults (responseField g schema (f, some v)) = true) ∧
    (∀ (g : Option GoValue → Except Fault Schema) (param : String) (f : StructField)
        (v : GoValue) (tags : List Tag) (pt : Tag),
      paramIn param ≠ "" → parseFieldTag f.Tag = .ok tags → tagsGet tags param = some pt →
      faults (g v.Interface) = true →
      ∀ ps, faults (paramField g param ps (f, some v)) = true) ∧
    (∀ fuel (sw : Swagger) path ms m r,
      (path, ms) ∈ sw.Routers → (m, r) ∈ ms → r.Exclude = false → RouteMeetsMalformedTag r →
      faults (sw.BuildOpenAPI fuel) = true ∧ ∀ sw1, sw.BuildOpenAPI fuel ≠ .ok sw1) ∧
    (∀ tag, parseFieldTag tag = .error .tagPanic ↔ structtagParse tag = none) ∧
    (∀ tag tags, structtagParse tag = some (some tags) → parseFieldTag tag = .ok tags) := by
  refine ⟨?_, ?_, ?_, ?_, ?_, ?_, ?_, ?_, ?_⟩
  · intro g f v hbad
    exact ⟨fun schema => requestField_malformed g schema f v hbad,
      fun param ps => paramField_malformed g param ps f v hbad,
      fun hex schema => responseField_malformed g schema f v hex hbad⟩
  · intro fuel v h
    exact ⟨getRequestSchemaByModel_malformed fuel v h,
      fun param => getParamTypeByModel_malformed fuel v param h⟩
  · intro fuel v h
    exact getResponseSchemaByModel_malformed fuel v h
  · intro g f v tags tag hparse hjson hname hg schema
    exact requestField_nested g schema f v tags tag hparse hjson hname hg
  · intro g f v hex hg schema
    exact responseField_nested g schema f v hex hg
  · intro g param f v tags pt hparam hparse htag hg ps
    exact paramField_nested g param ps f v tags pt hparam hparse htag hg
  · intro fuel sw path ms m r hpath hmem hex hbad
    have hf := BuildOpenAPI_faults fuel sw path ms m r hpath hmem hex
      (fun schemes => routeOperation_malformed fuel schemes r hbad)
    exact ⟨hf, fun sw1 => faults_not_ok _ hf sw1⟩
  · intro tag
    unfold parseFieldTag
    cases h : structtagParse tag with
    | none => simp
    | some o => cases o <;> simp
  · intro tag tags h
    simp [parseFieldTag, h]

/-- Witness for C24: the part `struct { Name string }` with the raw tag `json:name`, as
`Body` part of the route `POST /bad`. -/
theorem C24_malformed_tag_aborts_witness :
    structtagParse "json:name" = none ∧
    HasMalformedTag (zeroValue malformedModel) ∧
    faults (getRequestSchemaByModel 2 (some (zeroValue malformedModel))) = true ∧
    (getRequestSchemaByModel 2 (some (zeroValue malformedModel))).map schemaShape =
      .error .tagPanic ∧
    RouteMeetsMalformedTag malformedRoute ∧
    faults (malformedSwagger.BuildOpenAPI 3) = true ∧
    (malformedSwagger.BuildOpenAPI 3).map (fun s => s.OpenAPI.isSome) = .error .tagPanic :=
  have hbad : HasMalformedTag (zeroValue malformedModel) :=
    ⟨⟨malformedModel, [.plain (.basic .string)], _, rfl, rfl, rfl⟩,
      .mk "Name" "json:name" (.basic .string) "", by simp [structFields, zeroValue, zeroAs,
        malformedModel, GoType.underlying], by decide⟩
  have hroute : RouteMeetsMalformedTag malformedRoute :=
    Or.inl ⟨zeroValue malformedModel, rfl, hbad⟩
  ⟨by decide, hbad, (C24_malformed_tag_aborts.2.1 2 _ hbad).1, by decide, hroute,
    (C24_malformed_tag_aborts.2.2.2.2.2.2.1 3 malformedSwagger "/bad"
      [("POST", malformedRoute)] "POST" malformedRoute (by simp [malformedSwagger])
      (by simp) rfl hroute).1, by decide⟩

/-- `hasSchemaBody` dereferences nil on a body whose content is keyed by another media type
than `application/json`. -/
theorem hasSchemaBody_other (schema : Schema) (req : Bool) (ct : String) (h : ct ≠ MIMEJSON) :
    hasSchemaBody { Required := req, Content := some [(ct, schema)] } = .error .nilDeref := by
  simp [hasSchemaBody, dictGet, h]

/-- The derivation of the operation of a route with a `Body` part and a request content
type other than `application/json` returns no operation. -/
theorem routeOperation_other_content_type (fuel : Nat) (schemes : List (String × String))
    (r : Router) (body w : GoValue) (hb : FieldByName r.Model "Body" = .ok (some body))
    (hw : body.Interface = some w) (h1 : r.RequestContentType ≠ "")
    (h2 : r.RequestContentType ≠ MIMEJSON) :
    faults (routeOperation fuel schemes r) = true := by
  unfold routeOperation
  simp only [bind, Except.bind, pure, Except.pure]
  cases getResponses fuel r.Response r.ResponseContentType with
  | error e => rfl
  | ok responses =>
    cases getParametersByModel fuel r.Model with
    | error e => rfl
    | ok parameters =>
      simp only [hb, hw, getRequestBodyByModel, bind, Except.bind, pure, Except.pure, h1,
        if_false]
      cases getRequestSchemaByModel fuel (some w) with
      | error e => rfl
      | ok schema =>
        simp only [hasSchemaBody_other schema true _ h2]
        rfl

/-- C26 (defect): for the route `POST /upload` whose model has the `Body` part
`struct { Name string }` and whose request content type is `multipart/form-data`, the
request body is derived with its content keyed by `multipart/form-data`, `hasSchemaBody`
then reads the entry of `application/json`, which is nil, and panics; `BuildOpenAPI` builds
no document, whatever the recursion budget, while the same route without a request content
type is documented. -/
theorem C26_non_json_body_panics (fuel : Nat) :
    (getRequestBodyByModel 2 (some bodyPart) "multipart/form-data").map contentShape =
      .ok (some [("multipart/form-data", ("object", "", 1))]) ∧
    (getRequestBodyByModel 2 (some bodyPart) "multipart/form-data").bind hasSchemaBody =
      .error .nilDeref ∧
    (uploadSwagger.BuildOpenAPI 3).map (fun s => s.OpenAPI.isSome) = .error .nilDeref ∧
    faults (uploadSwagger.BuildOpenAPI fuel) = true ∧
    (jsonUploadSwagger.BuildOpenAPI 3).map (fun s => s.OpenAPI.isSome) = .ok true := by
  refine ⟨by decide, by decide, by decide, ?_, by decide⟩
  exact BuildOpenAPI_faults fuel uploadSwagger "/upload" [("POST", uploadRoute)] "POST"
    uploadRoute (by simp [uploadSwagger]) (by simp) rfl
    (fun schemes => routeOperation_other_content_type fuel schemes uploadRoute bodyPart
      bodyPart rfl rfl (by decide) (by decide))

/-- C28 (defect): in the request schema of `markerModel` the parent `Required` list holds
only `name`, the field bound as required: the field `id` with the primary marker `nonzero`
is marked nowhere, and the field `code` with the marker as later option gets the string
`required` in the `Required` list of its own schema. -/
theorem C28_rule_marker_not_in_parent_required :
    requiredShape (getRequestSchemaByModel 2 (some (zeroValue markerModel))) =
      .ok (["name"], [("id", []), ("code", ["required"]), ("name", [])]) := by
  decide

/-- A value of a defined scalar type outside the primitive table exhausts every recursion
budget: `getSchemaByType` and the two model functions call each other with the same
argument. -/
theorem defined_scalar_exhausts (t : GoType) (b : Basic) (hprim : primitiveSchema t = none)
    (hu : t.underlying = .basic b) :
    ∀ fuel, (∀ request, getSchemaByType fuel (some (.plain t)) request = .error .outOfFuel) ∧
      getRequestSchemaByModel fuel (some (.plain t)) = .error .outOfFuel ∧
      getResponseSchemaByModel fuel (some (.plain t)) = .error .outOfFuel := by
  intro fuel
  induction fuel with
  | zero => exact ⟨fun _ => rfl, rfl, rfl⟩
  | succ n ih =>
    refine ⟨?_, ?_, ?_⟩
    · intro request
      cases request
      · simp only [getSchemaByType, Option.some_bind, GoValue.typeOf, hprim]
        exact ih.2.2
      · simp only [getSchemaByType, Option.some_bind, GoValue.typeOf, hprim]
        exact ih.2.1
    · simp only [getRequestSchemaByModel, GoValue.typeOf, derefType, hu, GoValue.Interface]
      exact ih.1 true
    · simp only [getResponseSchemaByModel, GoValue.typeOf, derefType, hu]
      exact ih.1 false

/-- A response model that is a pointer to a basic type exhausts every recursion budget: the
final branch of `getResponseSchemaByModel` hands the pointer itself to `getSchemaByType`,
whose `default` case hands it back. -/
theorem scalar_pointer_response_exhausts (b : Basic) (target : Option GoValue) :
    ∀ fuel, getSchemaByType fuel (some (.pointer (.ptr (.basic b)) target)) false =
        .error .outOfFuel ∧
      getResponseSchemaByModel fuel (some (.pointer (.ptr (.basic b)) target)) =
        .error .outOfFuel := by
  intro fuel
  induction fuel with
  | zero => exact ⟨rfl, rfl⟩
  | succ n ih =>
    refine ⟨?_, ?_⟩
    · simp only [getSchemaByType, Option.some_bind, GoValue.typeOf, primitiveSchema]
      exact ih.2
    · simp only [getResponseSchemaByModel, GoValue.typeOf, derefType, GoType.underlying]
      exact ih.1

/-- C29 (defect): for the defined type `type Status string`, `getSchemaByType` and the two
model functions exhaust every recursion budget, and so does the derivation of the model
`struct { S Status }` in both directions; the response derivation of the model `new(int)`
exhausts every budget too, while its request derivation and the derivation of a `string`
field return. -/
theorem C29_defined_scalar_never_returns (fuel : Nat) :
    getSchemaByType fuel (some (.plain statusType)) true = .error .outOfFuel ∧
    getSchemaByType fuel (some (.plain statusType)) false = .error .outOfFuel ∧
    getRequestSchemaByModel fuel (some (.plain statusType)) = .error .outOfFuel ∧
    getResponseSchemaByModel fuel (some (.plain statusType)) = .error .outOfFuel ∧
    (getRequestSchemaByModel fuel (some (zeroValue statusModel))).map schemaShape =
      .error .outOfFuel ∧
    (getResponseSchemaByModel fuel (some (zeroValue statusModel))).map schemaShape =
      .error .outOfFuel ∧
    getResponseSchemaByModel fuel (some intPointer) = .error .outOfFuel ∧
    (getRequestSchemaByModel 2 (some intPointer)).map schemaShape = .ok ("integer", "", 0) ∧
    (getRequestSchemaByModel 2 (some bodyPart)).map schemaShape = .ok ("object", "", 1) := by
  have hs := defined_scalar_exhausts statusType .string rfl rfl
  have hparse : parseFieldTag "json:\"s\"" = .ok [⟨"json", "s", []⟩] := by decide
  refine ⟨(hs fuel).1 true, (hs fuel).1 false, (hs fuel).2.1, (hs fuel).2.2, ?_, ?_,
    (scalar_pointer_response_exhausts .int _ fuel).2, by decide, by decide⟩
  · cases fuel with
    | zero => rfl
    | succ n =>
      have hz : zeroValue statusModel = .struct statusModel [.plain statusType] := rfl
      rw [hz, getRequestSchemaByModel_struct n statusModel _ _ rfl]
      simp only [List.zip_cons_cons, List.zip_nil_right, List.foldlM_cons, List.foldlM_nil,
        requestField, StructField.Tag, hparse, bind, Except.bind, pure, Except.pure,
        GoValue.Interface, (hs n).1 true]
      rfl
  · cases fuel with
    | zero => rfl
    | succ n =>
      have hz : zeroValue statusModel = .struct statusModel [.plain statusType] := rfl
      rw [hz, getResponseSchemaByModel_struct n statusModel _ _ rfl]
      simp only [List.map_cons, List.map_nil, List.zip_cons_cons, List.zip_nil_right,
        List.foldlM_cons, List.foldlM_nil]
      rw [responseField_exported _ _ _ _ (by decide)]
      simp only [fieldTarget, GoValue.Interface, (hs n).1 false]
      rfl

/-- C10 (counterexample): with `GET /a/:id` excluded and `GET /a/{id}` documented, the
document holds an operation in the slot of `GET` under `/a/{id}`, the rewritten path of the
excluded route, in both iteration orders. -/
theorem C10_shared_key_fills_slot :
    fixPath "/a/:id" = "/a/\x7bid\x7d" ∧
    shadowSlot (shadowSwagger.BuildOpenAPI 2) = .ok (some true) ∧
    shadowSlot (shadowSwaggerRev.BuildOpenAPI 2) = .ok (some true) := by
  refine ⟨?_, ?_, ?_⟩ <;> decide

/-- C12 (counterexample): the registered path `/a/:id`, whose only route is excluded, has
its rewritten path `/a/{id}` among the keys of the document, because the registered path
`/a/{id}` has a documented route; in both iteration orders. -/
theorem C12_excluded_path_key_present :
    documented [("GET", { securedRoute [] with Exclude := true })] = false ∧
    fixPath "/a/:id" = "/a/\x7bid\x7d" ∧
    pathKeys (shadowSwagger.BuildOpenAPI 2) = .ok (some ["/a/\x7bid\x7d"]) ∧
    pathKeys (shadowSwaggerRev.BuildOpenAPI 2) = .ok (some ["/a/\x7bid\x7d"]) := by
  refine ⟨?_, ?_, ?_, ?_⟩ <;> decide

/-- A field whose exported name starts with an upper-case letter outside ASCII is
documented under its `json` name in both directions. -/
theorem exported_accent_field_documented :
    (∀ f ∈ [StructField.mk "Éa" "json:\"e\"" (.basic .string) ""], f.IsExported = true) ∧
    propertyShapes (getRequestSchemaByModel 2 (some (zeroValue accentModel))) =
      .ok [("e", "string", "", 0)] ∧
    propertyShapes (getResponseSchemaByModel 2 (some (zeroValue accentModel))) =
      .ok [("e", "string", "", 0)] := by
  refine ⟨?_, ?_, ?_⟩ <;> decide

end Swagin
